import Mathlib

/-!
# GameEngine2D: the application loop, its clock and its window

A shallow embedding of `core/application.cpp`, `core/time_manager.cpp` and
`core/window.cpp`.

Conventions of the embedding:

* `float`/`double` values and clock samples are exact rationals (`ℚ`, seconds).
* Pointers to owned objects are the objects themselves; the native window handle
  `GLFWwindow*` is a `Bool` (non-null or null) and the state GLFW keeps for it
  is held next to the fields of `Window`.
* Everything the environment decides (results of native and collaborator
  `initialize()` calls, clock samples, the events GLFW delivers) is an input.
* Calls that `Application` makes to its collaborators and to the host callbacks are
  appended to `Application.trace`; GLFW calls made by `Window` are appended to
  `Window.native`. Logging is not part of the model.
* Function-local `static` variables are fields of the owning structure.
-/

namespace GameEngine2D

/-! ## types.h -/

/-- The type glm::vec2, as used for cursor positions and deltas. -/
structure Vector2 where
  x : ℚ := 0
  y : ℚ := 0
deriving DecidableEq

instance : Sub Vector2 := ⟨fun a b => ⟨a.x - b.x, a.y - b.y⟩⟩

instance : Add Vector2 := ⟨fun a b => ⟨a.x + b.x, a.y + b.y⟩⟩

/-- Window configuration with the defaults of `struct WindowConfig`. -/
structure WindowConfig where
  width : Int := 1280
  height : Int := 720
  title : String := "Game Engine 2D"
  fullscreen : Bool := false
  vsync : Bool := true
  resizable : Bool := true
deriving DecidableEq

/-- An `enum class KeyCode` value, held by its numeric value. -/
abbrev KeyCode := Int

/-- An `enum class MouseButton` value, held by its numeric value. -/
abbrev MouseButton := Int

/-- An `enum class InputAction` value, held by its numeric value. -/
abbrev InputAction := Int

def KeyCode.UNKNOWN : KeyCode := -1
def KeyCode.SPACE : KeyCode := 32
def KeyCode.APOSTROPHE : KeyCode := 39
def KeyCode.COMMA : KeyCode := 44
def KeyCode.MINUS : KeyCode := 45
def KeyCode.PERIOD : KeyCode := 46
def KeyCode.SLASH : KeyCode := 47
def KeyCode.SEMICOLON : KeyCode := 59
def KeyCode.EQUAL : KeyCode := 61
def KeyCode.LEFT_BRACKET : KeyCode := 91
def KeyCode.BACKSLASH : KeyCode := 92
def KeyCode.RIGHT_BRACKET : KeyCode := 93
def KeyCode.GRAVE_ACCENT : KeyCode := 96
def KeyCode.ESCAPE : KeyCode := 256
def KeyCode.ENTER : KeyCode := 257
def KeyCode.TAB : KeyCode := 258
def KeyCode.BACKSPACE : KeyCode := 259
def KeyCode.INSERT : KeyCode := 260
def KeyCode.DELETE : KeyCode := 261
def KeyCode.RIGHT : KeyCode := 262
def KeyCode.LEFT : KeyCode := 263
def KeyCode.DOWN : KeyCode := 264
def KeyCode.UP : KeyCode := 265
def KeyCode.PAGE_UP : KeyCode := 266
def KeyCode.PAGE_DOWN : KeyCode := 267
def KeyCode.HOME : KeyCode := 268
def KeyCode.END : KeyCode := 269
def KeyCode.CAPS_LOCK : KeyCode := 280
def KeyCode.SCROLL_LOCK : KeyCode := 281
def KeyCode.NUM_LOCK : KeyCode := 282
def KeyCode.PRINT_SCREEN : KeyCode := 283
def KeyCode.PAUSE : KeyCode := 284
def KeyCode.F1 : KeyCode := 290
def KeyCode.F2 : KeyCode := 291
def KeyCode.F3 : KeyCode := 292
def KeyCode.LEFT_SHIFT : KeyCode := 340
def KeyCode.LEFT_CONTROL : KeyCode := 341
def KeyCode.LEFT_ALT : KeyCode := 342
def KeyCode.LEFT_SUPER : KeyCode := 343
def KeyCode.RIGHT_SHIFT : KeyCode := 344
def KeyCode.RIGHT_CONTROL : KeyCode := 345
def KeyCode.RIGHT_ALT : KeyCode := 346
def KeyCode.RIGHT_SUPER : KeyCode := 347
def KeyCode.MENU : KeyCode := 348

def InputAction.RELEASE : InputAction := 0
def InputAction.PRESS : InputAction := 1
def InputAction.REPEAT : InputAction := 2

/-- Payload an `Event` points to through `void* data`. -/
inductive EventData where
  | null
  | key (k : KeyCode)
  | button (b : MouseButton)
  | vec (v : Vector2)
deriving DecidableEq

/-- Sizes in bytes of the payload types (`int`-based enums, two `float`s). -/
def sizeofKeyCode : Nat := 4

def sizeofMouseButton : Nat := 4

def sizeofVector2 : Nat := 8

/-- The `struct Event` of types.h; `id` is a `uint32_t`. -/
structure Event where
  id : Nat
  name : String
  data : EventData := EventData.null
  dataSize : Nat := 0
  handled : Bool := false
deriving DecidableEq

/-- Conversion `static_cast<EventID>(v)` of an int to `uint32_t`. -/
def toEventID (v : Int) : Nat := (v % 2 ^ 32).toNat

/-! ## GLFW constants and native calls

The key macros below carry the values that the header `GLFW/glfw3.h` of the GLFW library
gives them; the header is not part of the repository. -/

def GLFW_KEY_SPACE : Int := 32
def GLFW_KEY_APOSTROPHE : Int := 39
def GLFW_KEY_COMMA : Int := 44
def GLFW_KEY_MINUS : Int := 45
def GLFW_KEY_PERIOD : Int := 46
def GLFW_KEY_SLASH : Int := 47
def GLFW_KEY_0 : Int := 48
def GLFW_KEY_9 : Int := 57
def GLFW_KEY_SEMICOLON : Int := 59
def GLFW_KEY_EQUAL : Int := 61
def GLFW_KEY_A : Int := 65
def GLFW_KEY_Z : Int := 90
def GLFW_KEY_LEFT_BRACKET : Int := 91
def GLFW_KEY_BACKSLASH : Int := 92
def GLFW_KEY_RIGHT_BRACKET : Int := 93
def GLFW_KEY_GRAVE_ACCENT : Int := 96
def GLFW_KEY_ESCAPE : Int := 256
def GLFW_KEY_ENTER : Int := 257
def GLFW_KEY_TAB : Int := 258
def GLFW_KEY_BACKSPACE : Int := 259
def GLFW_KEY_INSERT : Int := 260
def GLFW_KEY_DELETE : Int := 261
def GLFW_KEY_RIGHT : Int := 262
def GLFW_KEY_LEFT : Int := 263
def GLFW_KEY_DOWN : Int := 264
def GLFW_KEY_UP : Int := 265
def GLFW_KEY_PAGE_UP : Int := 266
def GLFW_KEY_PAGE_DOWN : Int := 267
def GLFW_KEY_HOME : Int := 268
def GLFW_KEY_END : Int := 269
def GLFW_KEY_CAPS_LOCK : Int := 280
def GLFW_KEY_SCROLL_LOCK : Int := 281
def GLFW_KEY_NUM_LOCK : Int := 282
def GLFW_KEY_PRINT_SCREEN : Int := 283
def GLFW_KEY_PAUSE : Int := 284
def GLFW_KEY_F1 : Int := 290
def GLFW_KEY_F12 : Int := 301
def GLFW_KEY_LEFT_SHIFT : Int := 340
def GLFW_KEY_LEFT_CONTROL : Int := 341
def GLFW_KEY_LEFT_ALT : Int := 342
def GLFW_KEY_LEFT_SUPER : Int := 343
def GLFW_KEY_RIGHT_SHIFT : Int := 344
def GLFW_KEY_RIGHT_CONTROL : Int := 345
def GLFW_KEY_RIGHT_ALT : Int := 346
def GLFW_KEY_RIGHT_SUPER : Int := 347
def GLFW_KEY_MENU : Int := 348

/-- The `GLFWvidmode` fields read by the window. -/
structure VidMode where
  width : Int
  height : Int
  refreshRate : Int
deriving DecidableEq

/-- GLFW calls issued by `Window`, with the arguments that vary. -/
inductive NativeCall where
  | glfwInit (ok : Bool)
  | glfwWindowHints (resizable : Bool)
  | glfwCreateWindow (width height : Int) (title : String) (onMonitor : Bool) (ok : Bool)
  | glfwTerminate
  | glfwMakeContextCurrent
  | installTrampolines
  | glfwSwapInterval (interval : Int)
  | glfwSetWindowPos (x y : Int)
  | glfwDestroyWindow
  | glfwSwapBuffers
  | glfwPollEvents
  | glfwSetWindowTitle (title : String)
  | glfwSetWindowSize (width height : Int)
  | glfwSetWindowMonitor (onMonitor : Bool) (x y width height refreshRate : Int)
deriving DecidableEq

/-- An event GLFW hands to one of the installed trampolines during `glfwPollEvents`
(`close` only raises the close flag of the handle; it has no trampoline). -/
inductive NativeEvent where
  | resize (width height : Int)
  | key (key scancode action mods : Int)
  | mouseButton (button action mods : Int)
  | cursorPos (xpos ypos : ℚ)
  | scroll (xoffset yoffset : ℚ)
  | char (codepoint : Nat)
  | close
deriving DecidableEq

/-! ## core/time_manager.cpp -/

/-- State of `TimeManager`; `fpsAccumulator` and `frameCount` are the statics of
`calculateFPS`. A default-constructed time point is the epoch, `0`. -/
structure TimeManager where
  m_lastTime : ℚ := 0
  m_startTime : ℚ := 0
  m_deltaTime : ℚ := 0
  m_totalTime : ℚ := 0
  m_fps : ℚ := 0
  fpsAccumulator : ℚ := 0
  frameCount : Int := 0
deriving DecidableEq

/-- Method `TimeManager::initialize`, with `now` the clock sample it takes. -/
def TimeManager.initialize (now : ℚ) (tm : TimeManager) : TimeManager :=
  { tm with m_startTime := now, m_lastTime := now }

def TimeManager.calculateFPS (tm : TimeManager) : TimeManager :=
  let fpsAccumulator := tm.fpsAccumulator + tm.m_deltaTime
  let frameCount := tm.frameCount + 1
  if fpsAccumulator ≥ 1 then
    { tm with m_fps := (frameCount : ℚ) / fpsAccumulator, fpsAccumulator := 0, frameCount := 0 }
  else
    { tm with fpsAccumulator := fpsAccumulator, frameCount := frameCount }

/-- Method `TimeManager::update`, with `currentTime` the clock sample it takes. -/
def TimeManager.update (currentTime : ℚ) (tm : TimeManager) : TimeManager :=
  TimeManager.calculateFPS
    { tm with
      m_deltaTime := currentTime - tm.m_lastTime
      m_totalTime := currentTime - tm.m_startTime
      m_lastTime := currentTime }

def TimeManager.getDeltaTime (tm : TimeManager) : ℚ := tm.m_deltaTime

/-! ## core/window.cpp -/

/-- State of `Window`. The six callback slots hold whether a callback is registered.
The last three fields are GLFW's side: the close flag of the handle, the video mode
of the primary monitor (`none` when GLFW reports no mode), and the calls issued. -/
structure Window where
  m_config : WindowConfig := {}
  m_window : Bool := false
  m_lastMousePosition : Vector2 := {}
  m_mouseDelta : Vector2 := {}
  m_scrollDelta : Vector2 := {}
  m_resizeCallback : Bool := false
  m_keyCallback : Bool := false
  m_mouseButtonCallback : Bool := false
  m_mouseMoveCallback : Bool := false
  m_mouseScrollCallback : Bool := false
  m_charCallback : Bool := false
  closeFlag : Bool := false
  videoMode : Option VidMode := none
  native : List NativeCall := []
deriving DecidableEq

def Window.issue (w : Window) (c : NativeCall) : Window :=
  { w with native := w.native ++ [c] }

/-- Method `Window::center`. The source dereferences the video mode unchecked; with no
mode the model issues no positioning call. -/
def Window.center (w : Window) : Window :=
  if !w.m_window then w
  else
    match w.videoMode with
    | none => w
    | some mode =>
      let x := Int.tdiv (mode.width - w.m_config.width) 2
      let y := Int.tdiv (mode.height - w.m_config.height) 2
      w.issue (NativeCall.glfwSetWindowPos x y)

/-- Method `Window::initialize`; `glfwInitOk` and `createOk` are the results of `glfwInit`
and `glfwCreateWindow`. A created handle starts with its close flag cleared. -/
def Window.initialize (glfwInitOk createOk : Bool) (w : Window) : Window × Bool :=
  let w := w.issue (NativeCall.glfwInit glfwInitOk)
  if !glfwInitOk then (w, false)
  else
    let w := w.issue (NativeCall.glfwWindowHints w.m_config.resizable)
    let w := w.issue (NativeCall.glfwCreateWindow w.m_config.width w.m_config.height
      w.m_config.title w.m_config.fullscreen createOk)
    let w := { w with m_window := createOk }
    if !w.m_window then (w.issue NativeCall.glfwTerminate, false)
    else
      let w := { w with closeFlag := false }
      let w := w.issue NativeCall.glfwMakeContextCurrent
      let w := w.issue NativeCall.installTrampolines
      let w := w.issue (NativeCall.glfwSwapInterval (if w.m_config.vsync then 1 else 0))
      let w := if !w.m_config.fullscreen then w.center else w
      (w, true)

def Window.shutdown (w : Window) : Window :=
  if w.m_window then
    { (w.issue NativeCall.glfwDestroyWindow) with m_window := false }
  else w

def Window.shouldClose (w : Window) : Bool :=
  if w.m_window then w.closeFlag else true

def Window.swapBuffers (w : Window) : Window :=
  if w.m_window then w.issue NativeCall.glfwSwapBuffers else w

def Window.updateInputState (w : Window) : Window :=
  { w with m_mouseDelta := ⟨0, 0⟩, m_scrollDelta := ⟨0, 0⟩ }

def Window.setTitle (title : String) (w : Window) : Window :=
  let w := { w with m_config := { w.m_config with title := title } }
  if w.m_window then w.issue (NativeCall.glfwSetWindowTitle title) else w

def Window.setSize (width height : Int) (w : Window) : Window :=
  let w := { w with m_config := { w.m_config with width := width, height := height } }
  if w.m_window then w.issue (NativeCall.glfwSetWindowSize width height) else w

def Window.setFullscreen (fullscreen : Bool) (w : Window) : Window :=
  if w.m_config.fullscreen == fullscreen then w
  else
    let w := { w with m_config := { w.m_config with fullscreen := fullscreen } }
    if w.m_window then
      let mode : Option VidMode := if fullscreen then w.videoMode else none
      match fullscreen, mode with
      | true, some m =>
        w.issue (NativeCall.glfwSetWindowMonitor true 0 0 m.width m.height m.refreshRate)
      | _, _ =>
        w.issue (NativeCall.glfwSetWindowMonitor false 100 100 w.m_config.width
          w.m_config.height 0)
    else w

def Window.setVSync (enabled : Bool) (w : Window) : Window :=
  let w := { w with m_config := { w.m_config with vsync := enabled } }
  if w.m_window then w.issue (NativeCall.glfwSwapInterval (if enabled then 1 else 0)) else w

def Window.getWidth (w : Window) : Int := w.m_config.width

def Window.getHeight (w : Window) : Int := w.m_config.height

def Window.isFullscreen (w : Window) : Bool := w.m_config.fullscreen

def Window.isVSyncEnabled (w : Window) : Bool := w.m_config.vsync

def Window.getMouseDelta (w : Window) : Vector2 := w.m_mouseDelta

def Window.getScrollDelta (w : Window) : Vector2 := w.m_scrollDelta

/-- Field updates of `Window::glfwWindowResizeCallback` (the registered callback is
invoked by the caller of this function, see `Application.deliver`). -/
def Window.glfwWindowResizeCallback (width height : Int) (w : Window) : Window :=
  { w with m_config := { w.m_config with width := width, height := height } }

/-- Field updates of `Window::glfwMouseMoveCallback`. -/
def Window.glfwMouseMoveCallback (xpos ypos : ℚ) (w : Window) : Window :=
  let currentPos : Vector2 := ⟨xpos, ypos⟩
  { w with m_mouseDelta := currentPos - w.m_lastMousePosition, m_lastMousePosition := currentPos }

/-- Field updates of `Window::glfwMouseScrollCallback`. -/
def Window.glfwMouseScrollCallback (xoffset yoffset : ℚ) (w : Window) : Window :=
  { w with m_scrollDelta := ⟨xoffset, yoffset⟩ }

def Window.glfwToKeyCode (glfwKey : Int) : KeyCode :=
  if glfwKey ≥ GLFW_KEY_A ∧ glfwKey ≤ GLFW_KEY_Z then glfwKey
  else if glfwKey ≥ GLFW_KEY_0 ∧ glfwKey ≤ GLFW_KEY_9 then glfwKey
  else if glfwKey ≥ GLFW_KEY_F1 ∧ glfwKey ≤ GLFW_KEY_F12 then glfwKey
  else if glfwKey = GLFW_KEY_SPACE then KeyCode.SPACE
  else if glfwKey = GLFW_KEY_APOSTROPHE then KeyCode.APOSTROPHE
  else if glfwKey = GLFW_KEY_COMMA then KeyCode.COMMA
  else if glfwKey = GLFW_KEY_MINUS then KeyCode.MINUS
  else if glfwKey = GLFW_KEY_PERIOD then KeyCode.PERIOD
  else if glfwKey = GLFW_KEY_SLASH then KeyCode.SLASH
  else if glfwKey = GLFW_KEY_SEMICOLON then KeyCode.SEMICOLON
  else if glfwKey = GLFW_KEY_EQUAL then KeyCode.EQUAL
  else if glfwKey = GLFW_KEY_LEFT_BRACKET then KeyCode.LEFT_BRACKET
  else if glfwKey = GLFW_KEY_BACKSLASH then KeyCode.BACKSLASH
  else if glfwKey = GLFW_KEY_RIGHT_BRACKET then KeyCode.RIGHT_BRACKET
  else if glfwKey = GLFW_KEY_GRAVE_ACCENT then KeyCode.GRAVE_ACCENT
  else if glfwKey = GLFW_KEY_ESCAPE then KeyCode.ESCAPE
  else if glfwKey = GLFW_KEY_ENTER then KeyCode.ENTER
  else if glfwKey = GLFW_KEY_TAB then KeyCode.TAB
  else if glfwKey = GLFW_KEY_BACKSPACE then KeyCode.BACKSPACE
  else if glfwKey = GLFW_KEY_INSERT then KeyCode.INSERT
  else if glfwKey = GLFW_KEY_DELETE then KeyCode.DELETE
  else if glfwKey = GLFW_KEY_RIGHT then KeyCode.RIGHT
  else if glfwKey = GLFW_KEY_LEFT then KeyCode.LEFT
  else if glfwKey = GLFW_KEY_DOWN then KeyCode.DOWN
  else if glfwKey = GLFW_KEY_UP then KeyCode.UP
  else if glfwKey = GLFW_KEY_PAGE_UP then KeyCode.PAGE_UP
  else if glfwKey = GLFW_KEY_PAGE_DOWN then KeyCode.PAGE_DOWN
  else if glfwKey = GLFW_KEY_HOME then KeyCode.HOME
  else if glfwKey = GLFW_KEY_END then KeyCode.END
  else if glfwKey = GLFW_KEY_CAPS_LOCK then KeyCode.CAPS_LOCK
  else if glfwKey = GLFW_KEY_SCROLL_LOCK then KeyCode.SCROLL_LOCK
  else if glfwKey = GLFW_KEY_NUM_LOCK then KeyCode.NUM_LOCK
  else if glfwKey = GLFW_KEY_PRINT_SCREEN then KeyCode.PRINT_SCREEN
  else if glfwKey = GLFW_KEY_PAUSE then KeyCode.PAUSE
  else if glfwKey = GLFW_KEY_LEFT_SHIFT then KeyCode.LEFT_SHIFT
  else if glfwKey = GLFW_KEY_LEFT_CONTROL then KeyCode.LEFT_CONTROL
  else if glfwKey = GLFW_KEY_LEFT_ALT then KeyCode.LEFT_ALT
  else if glfwKey = GLFW_KEY_LEFT_SUPER then KeyCode.LEFT_SUPER
  else if glfwKey = GLFW_KEY_RIGHT_SHIFT then KeyCode.RIGHT_SHIFT
  else if glfwKey = GLFW_KEY_RIGHT_CONTROL then KeyCode.RIGHT_CONTROL
  else if glfwKey = GLFW_KEY_RIGHT_ALT then KeyCode.RIGHT_ALT
  else if glfwKey = GLFW_KEY_RIGHT_SUPER then KeyCode.RIGHT_SUPER
  else if glfwKey = GLFW_KEY_MENU then KeyCode.MENU
  else KeyCode.UNKNOWN

def Window.glfwToMouseButton (glfwButton : Int) : MouseButton := glfwButton

def Window.glfwToInputAction (glfwAction : Int) : InputAction := glfwAction

/-! ## core/application.cpp -/

/-- What a host callback does to the application: the public operations it invokes
(`stop`, the configuration setters, and `getWindow()->setFullscreen`). -/
inductive HostOp where
  | stop
  | setTargetFPS (fps : ℚ)
  | setFixedTimeStep (timeStep : ℚ)
  | enableVSync (enable : Bool)
  | setWindowTitle (title : String)
  | windowSetFullscreen (fullscreen : Bool)
deriving DecidableEq

/-- Calls made from the window callbacks that `Application` registers: the renderer
viewport update, the handler's own call of `stop()`, and the host event callback (with
the operations the host performed). -/
inductive EventCall where
  | setViewport (x y width height : Int)
  | stop
  | eventCallback (event : Event) (ops : List HostOp)
deriving DecidableEq

/-- Calls made by `initialize`, `run` and `shutdown`, in program order. A result of an
`initialize()` call is kept with the call; a host callback is kept with the operations
the host performed in it; `pollEvents` is kept with the calls made inside it. The query
`shouldClose()` of the loop condition, evaluated between iterations, is not recorded. -/
inductive Call where
  | windowInitialize (ok : Bool)
  | glewInit (ok : Bool)
  | setWindowResizeCallback
  | setKeyCallback
  | setMouseButtonCallback
  | setMouseMoveCallback
  | setMouseScrollCallback
  | timeInitialize (ok : Bool)
  | rendererInitialize (ok : Bool)
  | sceneInitialize (ok : Bool)
  | audioInitialize (ok : Bool)
  | physicsInitialize (ok : Bool)
  | physicsShutdown
  | audioShutdown
  | sceneShutdown
  | rendererShutdown
  | timeShutdown
  | windowShutdown
  | getDeltaTime (result : ℚ)
  | timeUpdate (currentTime : ℚ)
  | physicsUpdate (dt : ℚ)
  | sceneFixedUpdate (dt : ℚ)
  | sceneUpdate (dt : ℚ)
  | audioUpdate (dt : ℚ)
  | updateCallback (dt : ℚ) (ops : List HostOp)
  | rendererClear
  | sceneRender
  | renderCallback (ops : List HostOp)
  | rendererPresent
  | swapBuffers
  | pollEvents (inner : List EventCall)
deriving DecidableEq

/-- State of `Application`. `frameTimeAccumulator` and `frameCount` are the statics of
`updateStatistics`; `trace` is the record of calls made so far. The three host
callback slots are kept apart, in `Callbacks`. -/
structure Application where
  m_window : Window := {}
  m_timeManager : TimeManager := {}
  m_running : Bool := false
  m_initialized : Bool := false
  m_targetFPS : ℚ := 60
  m_fixedTimeStep : ℚ := 1 / 60
  m_fps : ℚ := 0
  m_frameTime : ℚ := 0
  m_deltaTime : ℚ := 0
  m_accumulator : ℚ := 0
  frameTimeAccumulator : ℚ := 0
  frameCount : Int := 0
  trace : List Call := []
deriving DecidableEq

/-- The host callback slots `m_updateCallback`, `m_renderCallback`, `m_eventCallback`
(`none`: not set). A callback sees its argument and the application, and answers with
the operations it performs, in order. -/
structure Callbacks where
  m_updateCallback : Option (ℚ → Application → List HostOp) := none
  m_renderCallback : Option (Application → List HostOp) := none
  m_eventCallback : Option (Event → Application → List HostOp) := none

/-- Results of the native and collaborator `initialize()` calls made by
`Application::initialize`, and the clock sample taken by `TimeManager::initialize`.
(The collaborators in the tree always report `true`.) -/
structure InitEnv where
  glfwInitOk : Bool := true
  createWindowOk : Bool := true
  glewOk : Bool := true
  timeOk : Bool := true
  rendererOk : Bool := true
  sceneOk : Bool := true
  audioOk : Bool := true
  physicsOk : Bool := true
  now : ℚ := 0
deriving DecidableEq

/-- Inputs of one loop iteration: the clock sample `TimeManager::update` takes and the
events GLFW delivers inside `glfwPollEvents`. -/
structure Frame where
  now : ℚ
  events : List NativeEvent := []
deriving DecidableEq

/-- Constructor `Application::Application(windowConfig)`. -/
def Application.new (windowConfig : WindowConfig := {}) : Application :=
  { m_window := { m_config := windowConfig } }

def Application.log (app : Application) (c : Call) : Application :=
  { app with trace := app.trace ++ [c] }

def Application.isRunning (app : Application) : Bool := app.m_running

def Application.stop (app : Application) : Application :=
  { app with m_running := false }

def Application.setTargetFPS (fps : ℚ) (app : Application) : Application :=
  { app with m_targetFPS := fps }

def Application.setFixedTimeStep (timeStep : ℚ) (app : Application) : Application :=
  { app with m_fixedTimeStep := timeStep }

def Application.enableVSync (enable : Bool) (app : Application) : Application :=
  { app with m_window := app.m_window.setVSync enable }

def Application.setWindowTitle (title : String) (app : Application) : Application :=
  { app with m_window := app.m_window.setTitle title }

/-- One operation of a host callback. -/
def Application.perform (app : Application) : HostOp → Application
  | HostOp.stop => app.stop
  | HostOp.setTargetFPS fps => app.setTargetFPS fps
  | HostOp.setFixedTimeStep timeStep => app.setFixedTimeStep timeStep
  | HostOp.enableVSync enable => app.enableVSync enable
  | HostOp.setWindowTitle title => app.setWindowTitle title
  | HostOp.windowSetFullscreen fullscreen =>
    { app with m_window := app.m_window.setFullscreen fullscreen }

def Application.performAll (ops : List HostOp) (app : Application) : Application :=
  ops.foldl Application.perform app

/-- Method `Application::initializeSystems`; the `Bool` is `false` when it throws. -/
def Application.initializeSystems (env : InitEnv) (app : Application) : Application × Bool :=
  let app := { (app.log (Call.timeInitialize env.timeOk)) with
    m_timeManager := app.m_timeManager.initialize env.now }
  if !env.timeOk then (app, false)
  else
    let app := app.log (Call.rendererInitialize env.rendererOk)
    if !env.rendererOk then (app, false)
    else
      let app := app.log (Call.sceneInitialize env.sceneOk)
      if !env.sceneOk then (app, false)
      else
        let app := app.log (Call.audioInitialize env.audioOk)
        if !env.audioOk then (app, false)
        else
          let app := app.log (Call.physicsInitialize env.physicsOk)
          if !env.physicsOk then (app, false)
          else (app, true)

/-- The five `m_window->set...Callback` registrations of `Application::initialize`. -/
def Application.registerWindowCallbacks (app : Application) : Application :=
  let app := { (app.log Call.setWindowResizeCallback) with
    m_window := { app.m_window with m_resizeCallback := true } }
  let app := { (app.log Call.setKeyCallback) with
    m_window := { app.m_window with m_keyCallback := true } }
  let app := { (app.log Call.setMouseButtonCallback) with
    m_window := { app.m_window with m_mouseButtonCallback := true } }
  let app := { (app.log Call.setMouseMoveCallback) with
    m_window := { app.m_window with m_mouseMoveCallback := true } }
  { (app.log Call.setMouseScrollCallback) with
    m_window := { app.m_window with m_mouseScrollCallback := true } }

/-- Method `Application::initialize`; the `Bool` is the value returned. -/
def Application.initialize (env : InitEnv) (app : Application) : Application × Bool :=
  if app.m_initialized then (app, true)
  else
    let r := app.m_window.initialize env.glfwInitOk env.createWindowOk
    let app := { app with m_window := r.1 }.log (Call.windowInitialize r.2)
    if !r.2 then (app, false)
    else
      let app := app.log (Call.glewInit env.glewOk)
      if !env.glewOk then (app, false)
      else
        let app := app.registerWindowCallbacks
        let s := app.initializeSystems env
        if !s.2 then (s.1, false)
        else ({ s.1 with m_initialized := true, m_running := true }, true)

def Application.shutdownSystems (app : Application) : Application :=
  ((((app.log Call.physicsShutdown).log Call.audioShutdown).log Call.sceneShutdown).log
    Call.rendererShutdown).log Call.timeShutdown

def Application.shutdown (app : Application) : Application :=
  if !app.m_initialized then app
  else
    let app := { app with m_running := false }
    let app := app.shutdownSystems
    let app := { (app.log Call.windowShutdown) with m_window := app.m_window.shutdown }
    { app with m_initialized := false }

def Application.handleEvents (app : Application) : Application := app

def Application.fixedUpdate (fixedDeltaTime : ℚ) (app : Application) : Application :=
  (app.log (Call.physicsUpdate fixedDeltaTime)).log (Call.sceneFixedUpdate fixedDeltaTime)

/-- Method `Application::update`, with `currentTime` the clock sample of `TimeManager::update`. -/
def Application.update (cb : Callbacks) (currentTime : ℚ) (deltaTime : ℚ)
    (app : Application) : Application :=
  let app := { (app.log (Call.timeUpdate currentTime)) with
    m_timeManager := app.m_timeManager.update currentTime }
  let app := app.log (Call.sceneUpdate deltaTime)
  let app := app.log (Call.audioUpdate deltaTime)
  match cb.m_updateCallback with
  | some f =>
    let ops := f deltaTime app
    (app.log (Call.updateCallback deltaTime ops)).performAll ops
  | none => app

def Application.render (cb : Callbacks) (app : Application) : Application :=
  let app := app.log Call.rendererClear
  let app := app.log Call.sceneRender
  let app :=
    match cb.m_renderCallback with
    | some f =>
      let ops := f app
      (app.log (Call.renderCallback ops)).performAll ops
    | none => app
  app.log Call.rendererPresent

def Application.updateStatistics (deltaTime : ℚ) (app : Application) : Application :=
  let frameTimeAccumulator := app.frameTimeAccumulator + deltaTime
  let frameCount := app.frameCount + 1
  if frameTimeAccumulator ≥ 1 then
    { app with
      m_fps := (frameCount : ℚ) / frameTimeAccumulator
      m_frameTime := frameTimeAccumulator / (frameCount : ℚ)
      frameTimeAccumulator := 0
      frameCount := 0 }
  else
    { app with frameTimeAccumulator := frameTimeAccumulator, frameCount := frameCount }

/-- Dispatch of an event to the host: `if (m_eventCallback) m_eventCallback(event)`. -/
def Application.dispatch (cb : Callbacks) (event : Event) (app : Application) :
    Application × List EventCall :=
  match cb.m_eventCallback with
  | some f =>
    let ops := f event app
    (app.performAll ops, [EventCall.eventCallback event ops])
  | none => (app, [])

def Application.onWindowResize (width height : Int) (app : Application) :
    Application × List EventCall :=
  (app, [EventCall.setViewport 0 0 width height])

def Application.onKeyPress (cb : Callbacks) (key : KeyCode) (action : InputAction) (_mods : Int)
    (app : Application) : Application × List EventCall :=
  let s : Application × List EventCall :=
    if action = InputAction.PRESS then
      if key = KeyCode.ESCAPE then (app.stop, [EventCall.stop]) else (app, [])
    else (app, [])
  let r := s.1.dispatch cb
    { id := toEventID key, name := "key_press", data := EventData.key key,
      dataSize := sizeofKeyCode }
  (r.1, s.2 ++ r.2)

def Application.onMouseButton (cb : Callbacks) (button : MouseButton) (_action : InputAction)
    (_mods : Int) (app : Application) : Application × List EventCall :=
  app.dispatch cb
    { id := toEventID button, name := "mouse_button", data := EventData.button button,
      dataSize := sizeofMouseButton }

def Application.onMouseMove (cb : Callbacks) (x y : ℚ) (app : Application) :
    Application × List EventCall :=
  app.dispatch cb
    { id := 0, name := "mouse_move", data := EventData.vec ⟨x, y⟩, dataSize := sizeofVector2 }

def Application.onMouseScroll (cb : Callbacks) (xoffset yoffset : ℚ) (app : Application) :
    Application × List EventCall :=
  app.dispatch cb
    { id := 0, name := "mouse_scroll", data := EventData.vec ⟨xoffset, yoffset⟩,
      dataSize := sizeofVector2 }

/-- Delivery of one native event: the window trampoline updates the window fields and
then invokes the registered callback, which is the `Application` handler. -/
def Application.deliver (cb : Callbacks) (app : Application) :
    NativeEvent → Application × List EventCall
  | NativeEvent.resize width height =>
    let app := { app with m_window := app.m_window.glfwWindowResizeCallback width height }
    if app.m_window.m_resizeCallback then app.onWindowResize width height else (app, [])
  | NativeEvent.key key _scancode action mods =>
    if app.m_window.m_keyCallback then
      app.onKeyPress cb (Window.glfwToKeyCode key) (Window.glfwToInputAction action) mods
    else (app, [])
  | NativeEvent.mouseButton button action mods =>
    if app.m_window.m_mouseButtonCallback then
      app.onMouseButton cb (Window.glfwToMouseButton button) (Window.glfwToInputAction action)
        mods
    else (app, [])
  | NativeEvent.cursorPos xpos ypos =>
    let app := { app with m_window := app.m_window.glfwMouseMoveCallback xpos ypos }
    if app.m_window.m_mouseMoveCallback then app.onMouseMove cb xpos ypos else (app, [])
  | NativeEvent.scroll xoffset yoffset =>
    let app := { app with m_window := app.m_window.glfwMouseScrollCallback xoffset yoffset }
    if app.m_window.m_mouseScrollCallback then app.onMouseScroll cb xoffset yoffset
    else (app, [])
  | NativeEvent.char _codepoint => (app, [])
  | NativeEvent.close => ({ app with m_window := { app.m_window with closeFlag := true } }, [])

/-- Delivery of the events of one `glfwPollEvents` call, in order. -/
def Application.deliverAll (cb : Callbacks) :
    List NativeEvent → Application → Application × List EventCall
  | [], app => (app, [])
  | e :: rest, app =>
    let r := app.deliver cb e
    let s := Application.deliverAll cb rest r.1
    (s.1, r.2 ++ s.2)

/-- The call `glfwPollEvents()` of `Window::pollEvents`: the events reach the trampolines
of an existing handle only. -/
def Application.glfwPollEvents (cb : Callbacks) (events : List NativeEvent) (app : Application) :
    Application × List EventCall :=
  let app := { app with m_window := app.m_window.issue NativeCall.glfwPollEvents }
  if app.m_window.m_window then Application.deliverAll cb events app else (app, [])

/-- The call `m_window->pollEvents()`: `glfwPollEvents()` followed by
`updateInputState()`. -/
def Application.pollEvents (cb : Callbacks) (events : List NativeEvent) (app : Application) :
    Application :=
  let r := app.glfwPollEvents cb events
  { (r.1.log (Call.pollEvents r.2)) with m_window := r.1.m_window.updateInputState }

def Application.swapBuffers (app : Application) : Application :=
  { (app.log Call.swapBuffers) with m_window := app.m_window.swapBuffers }

/-- The fixed-step loop `while (m_accumulator >= m_fixedTimeStep)`; `none` when the loop
is still running after `fuel` passes. -/
def Application.drain : Nat → Application → Option Application
  | 0, app => if app.m_accumulator ≥ app.m_fixedTimeStep then none else some app
  | fuel + 1, app =>
    if app.m_accumulator ≥ app.m_fixedTimeStep then
      let app := app.fixedUpdate app.m_fixedTimeStep
      Application.drain fuel { app with m_accumulator := app.m_accumulator - app.m_fixedTimeStep }
    else some app

/-- One pass through the body of the loop of `Application::run`. -/
def Application.iteration (cb : Callbacks) (fuel : Nat) (frame : Frame) (app : Application) :
    Option Application :=
  let d := app.m_timeManager.getDeltaTime
  let app := { (app.log (Call.getDeltaTime d)) with m_deltaTime := d }
  let app := { app with m_accumulator := app.m_accumulator + app.m_deltaTime }
  let app := app.handleEvents
  match Application.drain fuel app with
  | none => none
  | some app =>
    let app := app.update cb frame.now app.m_deltaTime
    let app := app.render cb
    let app := app.swapBuffers
    let app := app.pollEvents cb frame.events
    some (app.updateStatistics app.m_deltaTime)

/-- Result of `run` on finitely many frames: the state reached, and whether `run`
returned (`false`: the frames are used up and the loop condition still holds). -/
structure RunResult where
  app : Application
  returned : Bool
deriving DecidableEq

/-- The loop `while (m_running && !m_window->shouldClose())`. -/
def Application.runLoop (cb : Callbacks) (fuel : Nat) : List Frame → Application → Option RunResult
  | [], app => some ⟨app, !(app.m_running && !app.m_window.shouldClose)⟩
  | frame :: rest, app =>
    if app.m_running && !app.m_window.shouldClose then
      match app.iteration cb fuel frame with
      | none => none
      | some app => Application.runLoop cb fuel rest app
    else some ⟨app, true⟩

/-- Method `Application::run`; `none` when a fixed-step loop does not end within `fuel` passes. -/
def Application.run (cb : Callbacks) (fuel : Nat) (frames : List Frame) (app : Application) :
    Option RunResult :=
  if !app.m_initialized then some ⟨app, true⟩
  else Application.runLoop cb fuel frames app

/-! ## Vocabulary of the statements -/

/-- Calls made by `k` consecutive `fixedUpdate(step)` invocations. -/
def fixedCalls (step : ℚ) : Nat → List Call
  | 0 => []
  | k + 1 => Call.physicsUpdate step :: Call.sceneFixedUpdate step :: fixedCalls step k

def Call.isPhysicsUpdate : Call → Bool
  | Call.physicsUpdate _ => true
  | _ => false

/-- Number of `fixedUpdate` invocations recorded in a trace (each one starts with a
`physics.update`). -/
def fixedUpdateCount (t : List Call) : Nat := t.countP Call.isPhysicsUpdate

def Call.deltaRead : Call → Option ℚ
  | Call.getDeltaTime d => some d
  | _ => none

/-- The per-frame deltas the loop consumed: the values `getDeltaTime()` returned. -/
def deltasRead (t : List Call) : List ℚ := t.filterMap Call.deltaRead

/-- Calls to the time manager (the other calls go to the physics, scene, audio and
renderer collaborators, to the host callbacks and to the window). -/
def Call.isTimeManager : Call → Bool
  | Call.getDeltaTime _ => true
  | Call.timeUpdate _ => true
  | Call.timeInitialize _ => true
  | Call.timeShutdown => true
  | _ => false

/-- The fixed-step loop entered with accumulator `acc` runs exactly `k` passes. -/
def DrainPasses (step acc : ℚ) (k : Nat) : Prop :=
  (∀ j : Nat, j < k → step ≤ acc - j * step) ∧ acc - k * step < step

/-- A host callback entry of the loop, present when the callback is set. -/
def updateCallbackCalls (d : ℚ) : Option (List HostOp) → List Call
  | some ops => [Call.updateCallback d ops]
  | none => []

def renderCallbackCalls : Option (List HostOp) → List Call
  | some ops => [Call.renderCallback ops]
  | none => []

/-- The calls of one iteration other than those to the time manager: `k` fixed steps
with `step`, one variable step with `d`, one render pass, the swap and the poll. -/
def iterationCalls (step d : ℚ) (k : Nat) (upd rnd : Option (List HostOp))
    (inner : List EventCall) : List Call :=
  fixedCalls step k ++ [Call.sceneUpdate d, Call.audioUpdate d] ++ updateCallbackCalls d upd ++
    [Call.rendererClear, Call.sceneRender] ++ renderCallbackCalls rnd ++
    [Call.rendererPresent, Call.swapBuffers, Call.pollEvents inner]

def HostOp.setsFixedTimeStep : HostOp → Bool
  | HostOp.setFixedTimeStep _ => true
  | _ => false

/-- Every operation a host callback performs satisfies `good`. -/
def Callbacks.All (good : HostOp → Prop) (cb : Callbacks) : Prop :=
  (∀ f, cb.m_updateCallback = some f → ∀ d app, ∀ op ∈ f d app, good op) ∧
  (∀ f, cb.m_renderCallback = some f → ∀ app, ∀ op ∈ f app, good op) ∧
  (∀ f, cb.m_eventCallback = some f → ∀ e app, ∀ op ∈ f e app, good op)

/-- No host callback calls `setFixedTimeStep`. -/
def Callbacks.KeepsFixedStep (cb : Callbacks) : Prop :=
  cb.All (fun op => op.setsFixedTimeStep = false)

/-- A relation between a state and a later one that holds across everything an event
handler can do: host operations satisfying `good`, `stop()`, and window changes. -/
structure EventStable (R : Application → Application → Prop) (good : HostOp → Prop) : Prop where
  refl : ∀ a, R a a
  trans : ∀ a b c, R a b → R b c → R a c
  perform : ∀ a op, good op → R a (Application.perform a op)
  window : ∀ (a : Application) (w : Window), R a { a with m_window := w }
  stop : ∀ a : Application, R a a.stop

/-- A relation that moreover holds across what the loop body does after the fixed-step
loop: recording calls, updating the time manager and the statistics. -/
structure LoopStable (R : Application → Application → Prop) (good : HostOp → Prop)
    extends EventStable R good : Prop where
  trace : ∀ (a : Application) (t : List Call), R a { a with trace := t }
  time : ∀ (a : Application) (tm : TimeManager), R a { a with m_timeManager := tm }
  stats : ∀ (a : Application) (x y z : ℚ) (n : Int),
    R a { a with m_fps := x, m_frameTime := y, frameTimeAccumulator := z, frameCount := n }

/-- The call `stop()` was made inside this event handler call: by the key handler
itself (ESC pressed) or by the host in its event callback. -/
def EventCall.issuesStop : EventCall → Prop
  | EventCall.stop => True
  | EventCall.eventCallback _ ops => HostOp.stop ∈ ops
  | _ => False

/-- The call `stop()` was made inside this call: in the update callback, in the render
callback, or in an event callback fired inside `pollEvents`. -/
def Call.issuesStop : Call → Prop
  | Call.updateCallback _ ops => HostOp.stop ∈ ops
  | Call.renderCallback ops => HostOp.stop ∈ ops
  | Call.pollEvents inner => ∃ c ∈ inner, c.issuesStop
  | _ => False

/-- The call `stop()` was made in a callback recorded in `t`. -/
def StopIssued (t : List Call) : Prop := ∃ c ∈ t, c.issuesStop

/-- The calls of a render pass followed by the swap and the poll. -/
def renderSwapPoll (rnd : Option (List HostOp)) (inner : List EventCall) : List Call :=
  [Call.rendererClear, Call.sceneRender] ++ renderCallbackCalls rnd ++
    [Call.rendererPresent, Call.swapBuffers, Call.pollEvents inner]

/-- The part of the loop body after the fixed-step loop. -/
def Application.finish (cb : Callbacks) (frame : Frame) (app : Application) : Application :=
  let app := app.update cb frame.now app.m_deltaTime
  let app := app.render cb
  let app := app.swapBuffers
  let app := app.pollEvents cb frame.events
  app.updateStatistics app.m_deltaTime

/-- The state in which the fixed-step loop of an iteration is entered. -/
def Application.beginIteration (app : Application) : Application :=
  { app with
    m_deltaTime := app.m_timeManager.m_deltaTime
    m_accumulator := app.m_accumulator + app.m_timeManager.m_deltaTime
    trace := app.trace ++ [Call.getDeltaTime app.m_timeManager.m_deltaTime] }

/-- The running flag is set only on an initialized application. -/
def Application.WellFormed (app : Application) : Prop :=
  app.m_running = true → app.m_initialized = true

/-- The state the fixed-step loop leaves after `k` passes. -/
def Application.drained (k : Nat) (app : Application) : Application :=
  { app with
    m_accumulator := app.m_accumulator - k * app.m_fixedTimeStep
    trace := app.trace ++ fixedCalls app.m_fixedTimeStep k }

/-! ## Sample inputs -/

/-- An application constructed with the default configuration and initialized, with
every native and collaborator call succeeding, at clock `0`. -/
def sampleApp : Application := ( Application.initialize {} Application.new).1

/-- The sample application with the fixed step set to 1/50 s. -/
def sampleApp50 : Application := sampleApp.setFixedTimeStep (1 / 50)

/-- Clock samples 0.03 s apart and no events. -/
def sampleFrames : List Frame := [⟨3 / 100, []⟩, ⟨6 / 100, []⟩, ⟨9 / 100, []⟩]

/-- The sample application with step 1/50 s after its clock measured 0.03 s. -/
def sampleAppLate : Application :=
  { sampleApp50 with m_timeManager := sampleApp50.m_timeManager.update (3 / 100) }

/-- A host whose update callback calls `stop()`. -/
def stopInUpdate : Callbacks := { m_updateCallback := some (fun _ _ => [HostOp.stop]) }

/-- The state the sample application reaches after one iteration under `stopInUpdate`
with the clock sampled at 1/60 s. -/
def stopState : Application :=
  (sampleApp.beginIteration.drained 0).finish stopInUpdate ⟨1 / 60, []⟩

/-- The calls of that iteration. -/
def stopCalls : List Call :=
  [Call.getDeltaTime 0, Call.timeUpdate (1 / 60), Call.sceneUpdate 0, Call.audioUpdate 0,
    Call.updateCallback 0 [HostOp.stop], Call.rendererClear, Call.sceneRender,
    Call.rendererPresent, Call.swapBuffers, Call.pollEvents []]

/-- An `initialize()` call that reported failure. -/
def Call.failed : Call → Bool
  | Call.windowInitialize ok => !ok
  | Call.glewInit ok => !ok
  | Call.timeInitialize ok => !ok
  | Call.rendererInitialize ok => !ok
  | Call.sceneInitialize ok => !ok
  | Call.audioInitialize ok => !ok
  | Call.physicsInitialize ok => !ok
  | _ => false

/-- An environment in which the scene manager fails to initialize. -/
def sceneFails : InitEnv := { sceneOk := false }

/-- Frames of a run in which the window is asked to close during the first poll. -/
def closeFrames : List Frame := [⟨1 / 60, [NativeEvent.close]⟩, ⟨2 / 60, []⟩]

/-- A host that sets no callback. -/
def noCallbacks : Callbacks := {}

/-! ## Vocabulary of the statements on the window, the events and the statistics -/

/-- Constructor `Window::Window(config)`: no handle, input state zero, no callback. -/
def Window.new (config : WindowConfig) : Window := { m_config := config }

/-- The events handed to the host event callback in a list of handler calls. -/
def eventsDelivered (l : List EventCall) : List Event :=
  l.filterMap (fun c =>
    match c with
    | EventCall.eventCallback e _ => some e
    | _ => none)

/-- The numeric values of the named keys of `enum class KeyCode` in types.h: every
enumerator but `UNKNOWN`; `NUM_0..NUM_9` are 48..57, `A..Z` are 65..90, `ESCAPE..END`
are 256..269, `CAPS_LOCK..PAUSE` are 280..284, `F1..F12` are 290..301 and
`LEFT_SHIFT..MENU` are 340..348. -/
def KeyCode.isNamed (k : Int) : Bool :=
  k == KeyCode.SPACE || k == KeyCode.APOSTROPHE || k == KeyCode.COMMA || k == KeyCode.MINUS ||
  k == KeyCode.PERIOD || k == KeyCode.SLASH || decide (48 ≤ k ∧ k ≤ 57) ||
  k == KeyCode.SEMICOLON || k == KeyCode.EQUAL || decide (65 ≤ k ∧ k ≤ 90) ||
  k == KeyCode.LEFT_BRACKET || k == KeyCode.BACKSLASH || k == KeyCode.RIGHT_BRACKET ||
  k == KeyCode.GRAVE_ACCENT || decide (256 ≤ k ∧ k ≤ 269) || decide (280 ≤ k ∧ k ≤ 284) ||
  decide (290 ≤ k ∧ k ≤ 301) || decide (340 ≤ k ∧ k ≤ 348)

/-- GLFW calls that change the geometry of the window. -/
def NativeCall.isGeometry : NativeCall → Bool
  | NativeCall.glfwSetWindowMonitor _ _ _ _ _ _ => true
  | NativeCall.glfwSetWindowSize _ _ => true
  | NativeCall.glfwSetWindowPos _ _ => true
  | _ => false

/-- Number of geometry changes in a list of GLFW calls. -/
def geometryChanges (l : List NativeCall) : Nat := l.countP NativeCall.isGeometry

/-- Consecutive calls `updateStatistics(d)` for the deltas of `ds`, in order. -/
def Application.feedStatistics (ds : List ℚ) (app : Application) : Application :=
  ds.foldl (fun a d => a.updateStatistics d) app

/-- The key event `onKeyPress` builds for `key`. -/
def keyEvent (key : KeyCode) : Event :=
  { id := toEventID key, name := "key_press", data := EventData.key key,
    dataSize := sizeofKeyCode, handled := false }

/-- The motion event GLFW reports for the cursor position `q`. -/
def motionTo (q : Vector2) : NativeEvent := NativeEvent.cursorPos q.x q.y

/-- The scroll event GLFW reports for the offsets `s`. -/
def scrollBy (s : Vector2) : NativeEvent := NativeEvent.scroll s.x s.y

/-- The cached input state of the window: last cursor position, cursor delta and scroll
delta. -/
def Window.inputState (w : Window) : Vector2 × Vector2 × Vector2 :=
  (w.m_lastMousePosition, w.m_mouseDelta, w.m_scrollDelta)

/-- The sample application with the cursor last seen at (4, 4). -/
def cursorApp : Application :=
  { sampleApp with m_window := { sampleApp.m_window with m_lastMousePosition := ⟨4, 4⟩ } }

/-- A host whose event callback performs nothing. -/
def quietHost : Callbacks := { m_eventCallback := some (fun _ _ => []) }

/-! ## Remaining accessors, types.h `Rectangle` and main.cpp -/

/-- Method `Window::getAspectRatio` of window.h: the width as a float divided by the
height; `none` stands for the division by zero. -/
def Window.getAspectRatio (w : Window) : Option ℚ :=
  if w.m_config.height = 0 then none
  else some ((w.m_config.width : ℚ) / (w.m_config.height : ℚ))

/-- The `struct Rectangle` of types.h. -/
structure Rectangle where
  x : ℚ := 0
  y : ℚ := 0
  width : ℚ := 0
  height : ℚ := 0
deriving DecidableEq

def Rectangle.contains (r : Rectangle) (point : Vector2) : Bool :=
  decide (point.x ≥ r.x) && decide (point.x ≤ r.x + r.width) &&
  decide (point.y ≥ r.y) && decide (point.y ≤ r.y + r.height)

def Rectangle.intersects (r other : Rectangle) : Bool :=
  !(decide (r.x + r.width < other.x) || decide (other.x + other.width < r.x) ||
    decide (r.y + r.height < other.y) || decide (other.y + other.height < r.y))

/-- Method `GameDemo::handleEvent` of main.cpp, as the operations it performs on the
application: F1 sets fullscreen to the negation of `isFullscreen()`, F2 sets vsync to
the negation of `isVSyncEnabled()`, F3 prints the statistics and changes nothing. The
payload of a "key_press" event is read as a `KeyCode`. -/
def GameDemo.handleEvent (event : Event) (app : Application) : List HostOp :=
  if event.name = "key_press" then
    match event.data with
    | EventData.key key =>
      if key = KeyCode.F1 then [HostOp.windowSetFullscreen (!app.m_window.isFullscreen)]
      else if key = KeyCode.F2 then [HostOp.enableVSync (!app.m_window.isVSyncEnabled)]
      else []
    | _ => []
  else []

/-- The callbacks the constructor `GameDemo::GameDemo` registers: `update` advances a
local rotation, `render` sets the clear colour of the renderer, `handleEvent` is the
event callback. -/
def gameDemo : Callbacks :=
  { m_updateCallback := some (fun _ _ => [])
    m_renderCallback := some (fun _ => [])
    m_eventCallback := some GameDemo.handleEvent }

/-- A window with the default configuration, created on a 1920 x 1080 display at
60 Hz. -/
def monitorWindow : Window :=
  ( Window.initialize true true { Window.new {} with videoMode := some ⟨1920, 1080, 60⟩ }).1

/-- The call `setFullscreen(true)` issues on an active window: the monitor's mode when
GLFW reports one, the windowed geometry otherwise. -/
def Window.enterFullscreenCall (w : Window) : NativeCall :=
  match w.videoMode with
  | some m => NativeCall.glfwSetWindowMonitor true 0 0 m.width m.height m.refreshRate
  | none => NativeCall.glfwSetWindowMonitor false 100 100 w.m_config.width w.m_config.height 0

/-! ## utils/string_utils.cpp and utils/logger.h

A `std::string` is the list of its characters. -/

def Chars.tab : Char := Char.ofNat 9

def Chars.newline : Char := Char.ofNat 10

def Chars.carriageReturn : Char := Char.ofNat 13

def Chars.quote : Char := Char.ofNat 34

def Chars.backslash : Char := Char.ofNat 92

def Chars.openBrace : Char := Char.ofNat 123

def Chars.closeBrace : Char := Char.ofNat 125

/-- The least index at which `s` occurs in `text`, `none` when it does not occur. -/
def findAt (s : List Char) : List Char → Option Nat
  | [] => if s.isEmpty then some 0 else none
  | c :: text =>
    if s.isPrefixOf (c :: text) then some 0 else (findAt s text).map (fun i => i + 1)

/-- Library `std::string::find(s, pos)`: the least index `≥ pos` at which `s` occurs in
`str`; `none` stands for `npos`, also returned when `pos` is beyond the end. -/
def stdFind (str s : List Char) (pos : Nat) : Option Nat :=
  if pos > str.length then none else (findAt s (str.drop pos)).map (fun i => i + pos)

/-- Library `std::string::substr(pos, len)` for `pos` within the string. -/
def stdSubstr (str : List Char) (pos len : Nat) : List Char := (str.drop pos).take len

/-- Library `std::string::substr(pos)` for `pos` within the string. -/
def stdSubstrFrom (str : List Char) (pos : Nat) : List Char := str.drop pos

/-- The loop of `StringUtils::split(str, delimiter)` and the statements after it, from the
values of `start`, `end` and `result`; `none` when the loop has not ended within `fuel`
passes. -/
def StringUtils.splitLoop (str delimiter : List Char) :
    Nat → Nat → Option Nat → List (List Char) → Option (List (List Char))
  | _, start, none, result => some (result ++ [stdSubstrFrom str start])
  | 0, _, some _, _ => none
  | fuel + 1, start, some e, result =>
    let result := result ++ [stdSubstr str start (e - start)]
    let start := e + delimiter.length
    StringUtils.splitLoop str delimiter fuel start (stdFind str delimiter start) result

/-- Function `StringUtils::split(const std::string&, const std::string&)`. -/
def StringUtils.split (fuel : Nat) (str delimiter : List Char) : Option (List (List Char)) :=
  StringUtils.splitLoop str delimiter fuel 0 (stdFind str delimiter 0) []

def StringUtils.join (strings : List (List Char)) (delimiter : List Char) : List Char :=
  match strings with
  | [] => []
  | first :: rest => rest.foldl (fun result s => result ++ (delimiter ++ s)) first

/-- The `switch` of `StringUtils::escape`: what is appended for the character `c`. -/
def StringUtils.escapeChar (c : Char) : List Char :=
  if c = Chars.newline then [Chars.backslash, 'n']
  else if c = Chars.carriageReturn then [Chars.backslash, 'r']
  else if c = Chars.tab then [Chars.backslash, 't']
  else if c = Chars.quote then [Chars.backslash, Chars.quote]
  else if c = Chars.backslash then [Chars.backslash, Chars.backslash]
  else [c]

def StringUtils.escape (str : List Char) : List Char :=
  str.foldl (fun result c => result ++ StringUtils.escapeChar c) []

/-- Function `StringUtils::unescape`, on the text from index `i` on: `c` is `str[i]` and
`d` is `str[i + 1]` when `i + 1 < str.length()`. -/
def StringUtils.unescape : List Char → List Char
  | [] => []
  | [c] => [c]
  | c :: d :: rest =>
    if c = Chars.backslash then
      if d = 'n' then Chars.newline :: StringUtils.unescape rest
      else if d = 'r' then Chars.carriageReturn :: StringUtils.unescape rest
      else if d = 't' then Chars.tab :: StringUtils.unescape rest
      else if d = Chars.quote then Chars.quote :: StringUtils.unescape rest
      else if d = Chars.backslash then Chars.backslash :: StringUtils.unescape rest
      else c :: StringUtils.unescape (d :: rest)
    else c :: StringUtils.unescape (d :: rest)

/-- The placeholder `{}` of the logger. -/
def placeholder : List Char := [Chars.openBrace, Chars.closeBrace]

/-- The fold `((oss << args), ...)`: every argument is written, in order. -/
def writeArgs (oss : List Char) (args : List (List Char)) : List Char :=
  args.foldl (fun o a => o ++ a) oss

/-- The loop of `formatString` of logger.h from the values of `pos`, `argIndex` and the
text written so far; `args` holds the text each argument prints. `none` when the loop has
not ended within `fuel` passes. -/
def formatStringLoop (format : List Char) (args : List (List Char)) :
    Nat → Nat → Nat → List Char → Option (List Char)
  | 0, pos, _, oss => if pos < format.length then none else some oss
  | fuel + 1, pos, argIndex, oss =>
    if pos < format.length then
      match stdFind format placeholder pos with
      | none => some (oss ++ stdSubstrFrom format pos)
      | some p =>
        let oss := oss ++ stdSubstr format pos (p - pos)
        if argIndex < args.length then
          formatStringLoop format args fuel (p + 2) (argIndex + 1) (writeArgs oss args)
        else formatStringLoop format args fuel (p + 2) argIndex oss
    else some oss

/-- Function `formatString(oss, format, args...)` on an empty stream. -/
def formatString (fuel : Nat) (format : List Char) (args : List (List Char)) :
    Option (List Char) :=
  formatStringLoop format args fuel 0 0 []

/-- The text described for the placeholder with index `j` (from 0): all the arguments one
after the other when `j` is below their number, nothing otherwise. -/
def placeholderText (args : List (List Char)) (j : Nat) : List Char :=
  if j < args.length then args.foldr (fun a t => a ++ t) [] else []

/-- The text described for a format, read from the left with `j` placeholders already
met: a `{}` is replaced by its placeholder text, every other character is kept. -/
def formatExpected (args : List (List Char)) : Nat → List Char → List Char
  | _, [] => []
  | _, [c] => [c]
  | j, c :: d :: rest =>
    if c = Chars.openBrace ∧ d = Chars.closeBrace then
      placeholderText args j ++ formatExpected args (j + 1) rest
    else c :: formatExpected args j (d :: rest)

/-! ## Float arithmetic of the source

The `float` fields of the source are IEEE 754 binary32 numbers. A finite float is the
rational it denotes; an operation on floats is the exact operation followed by rounding
to the nearest float, ties to even. Infinities and NaN are not represented: a result
beyond the largest finite float is rounded to 24 bits like any other. -/

/-- The power `2 ^ k` for an integer `k`. -/
def F32.pow2 (k : ℤ) : ℚ :=
  if 0 ≤ k then ((2 ^ k.toNat : ℕ) : ℚ) else 1 / ((2 ^ (-k).toNat : ℕ) : ℚ)

/-- The number `floor (log2 n)` for `n ≥ 1`, by halving; `fuel = n` is enough. -/
def F32.log2Nat : Nat → Nat → Nat
  | 0, _ => 0
  | fuel + 1, n => if 2 ≤ n then F32.log2Nat fuel (n / 2) + 1 else 0

/-- The number `floor (log2 x)` for a rational `x > 0`: the difference of the logarithms
of numerator and denominator, or one less. -/
def F32.log2 (x : ℚ) : ℤ :=
  let k : ℤ := (F32.log2Nat x.num.natAbs x.num.natAbs : ℤ) - (F32.log2Nat x.den x.den : ℤ)
  if F32.pow2 k ≤ x then k else k - 1

/-- The distance between neighbouring floats at `x > 0`: `2 ^ (e - 23)` for
`2 ^ e ≤ x < 2 ^ (e + 1)` with `e ≥ -126` (24 significant bits), and `2 ^ (-149)` below
`2 ^ (-126)` (subnormal numbers). -/
def F32.ulp (x : ℚ) : ℚ := F32.pow2 (max (F32.log2 x) (-126) - 23)

/-- The integer nearest to `t`, the even one of the two when `t` is halfway. -/
def F32.roundHalfEven (t : ℚ) : ℤ :=
  if t - ⌊t⌋ < 1 / 2 then ⌊t⌋
  else if 1 / 2 < t - ⌊t⌋ then ⌊t⌋ + 1
  else if ⌊t⌋ % 2 = 0 then ⌊t⌋ else ⌊t⌋ + 1

/-- The float nearest to `x ≥ 0`. -/
def F32.roundAbs (x : ℚ) : ℚ :=
  if x = 0 then 0 else (F32.roundHalfEven (x / F32.ulp x) : ℚ) * F32.ulp x

/-- The float nearest to `x`, ties to even: the value a `float` takes when it is given
the real number `x`. -/
def F32.round (x : ℚ) : ℚ := if x < 0 then -F32.roundAbs (-x) else F32.roundAbs x

/-- Float addition `a + b`. -/
def F32.add (a b : ℚ) : ℚ := F32.round (a + b)

/-- Float subtraction `a - b`. -/
def F32.sub (a b : ℚ) : ℚ := F32.round (a - b)

/-- Float division `a / b` for `b ≠ 0`. -/
def F32.div (a b : ℚ) : ℚ := F32.round (a / b)

/-- Conversion of an `int` to `float`. -/
def F32.ofInt (n : Int) : ℚ := F32.round (n : ℚ)

/-- The float the source writes `0.1f`. -/
def F32.tenth : ℚ := F32.round (1 / 10)

/-- The float the source writes `0.2f`. -/
def F32.fifth : ℚ := F32.round (1 / 5)

/-- The float nearest to `1 / 12`. -/
def F32.twelfth : ℚ := F32.round (1 / 12)

/-- The value of `x + 1` in the type `int` when `x + 1` is beyond its range: the
two's-complement value (the overflow is undefined in C++). -/
def wrapInt32 (n : Int) : Int := (n + 2 ^ 31) % 2 ^ 32 - 2 ^ 31

/-! ## The fixed-step loop and the statistics in float arithmetic -/

/-- One pass of the fixed-step loop of `Application::run`:
`fixedUpdate(m_fixedTimeStep); m_accumulator -= m_fixedTimeStep;` on `float` fields. -/
def Application.pass32 (app : Application) : Application :=
  let app := app.fixedUpdate app.m_fixedTimeStep
  { app with m_accumulator := F32.sub app.m_accumulator app.m_fixedTimeStep }

/-- The loop `while (m_accumulator >= m_fixedTimeStep)` of `Application::run` on `float`
fields; `none` when it has not ended within `fuel` passes. -/
def Application.drain32 : Nat → Application → Option Application
  | 0, app => if app.m_accumulator ≥ app.m_fixedTimeStep then none else some app
  | fuel + 1, app =>
    if app.m_accumulator ≥ app.m_fixedTimeStep then Application.drain32 fuel app.pass32
    else some app

/-- The statements of an iteration of `run` before the fixed-step loop, on `float`
fields: the delta is read and added to the accumulator. -/
def Application.beginIteration32 (app : Application) : Application :=
  let d := app.m_timeManager.getDeltaTime
  let app := { (app.log (Call.getDeltaTime d)) with m_deltaTime := d }
  let app := { app with m_accumulator := F32.add app.m_accumulator app.m_deltaTime }
  app.handleEvents

/-- The state in which an iteration of `run` reaches `update(m_deltaTime)`, the statement
after the fixed-step loop; `none` when the loop has not ended within `fuel` passes. -/
def Application.reachUpdate32 (fuel : Nat) (app : Application) : Option Application :=
  Application.drain32 fuel app.beginIteration32

/-- The function-local statics of `Application::updateStatistics`: one pair for the
program, shared by every `Application` object. -/
structure StatisticsWindow where
  frameTimeAccumulator : ℚ := 0
  frameCount : Int := 0
deriving DecidableEq

/-- Method `Application::updateStatistics` on `float` and `int`, with its statics passed
in and out. -/
def Application.updateStatistics32 (deltaTime : ℚ) (s : StatisticsWindow) (app : Application) :
    StatisticsWindow × Application :=
  let frameTimeAccumulator := F32.add s.frameTimeAccumulator deltaTime
  let frameCount := wrapInt32 (s.frameCount + 1)
  if frameTimeAccumulator ≥ 1 then
    ({ frameTimeAccumulator := 0, frameCount := 0 },
      { app with
        m_fps := F32.div (F32.ofInt frameCount) frameTimeAccumulator
        m_frameTime := F32.div frameTimeAccumulator (F32.ofInt frameCount) })
  else ({ frameTimeAccumulator := frameTimeAccumulator, frameCount := frameCount }, app)

/-- Consecutive calls `updateStatistics(d)` for the deltas of `ds`, in order. -/
def Application.feedStatistics32 (ds : List ℚ) (s : StatisticsWindow × Application) :
    StatisticsWindow × Application :=
  ds.foldl (fun p d => Application.updateStatistics32 d p.1 p.2) s

/-- The float accumulator after the deltas of `ds` are added to it one by one, starting
at `a`: rounded at every addition. -/
def F32.sumFrom (a : ℚ) (ds : List ℚ) : ℚ := ds.foldl F32.add a

/-- The float sum of `ds` from `0.0f`, rounded at every addition. -/
def F32.sum (ds : List ℚ) : ℚ := F32.sumFrom 0 ds

/-- Whether the float accumulator, starting at `a`, is below `1.0f` before and after
each addition of a delta of `ds`. -/
def F32.staysBelowOne : ℚ → List ℚ → Bool
  | a, [] => decide (a < 1)
  | a, d :: ds => decide (a < 1) && F32.staysBelowOne (F32.add a d) ds

/-- The sample application with accumulator `1.0f` and the positive fixed step
`2 ^ (-30)`, which is a float. -/
def absorbedStepApp : Application :=
  { sampleApp with m_accumulator := 1, m_fixedTimeStep := 1 / 2 ^ 30 }

/-- The sample application with accumulator `1.0f` and fixed step `0.2f`. -/
def fifthStepApp : Application :=
  { sampleApp with m_accumulator := 1, m_fixedTimeStep := F32.fifth }

/-- The sample application with accumulator `1.0f` and fixed step `0.25f`. -/
def quarterStepApp : Application :=
  { sampleApp with m_accumulator := 1, m_fixedTimeStep := 1 / 4 }

theorem performAll_stable {R : Application → Application → Prop} {good : HostOp → Prop}
    (h : EventStable R good) (ops : List HostOp) (app : Application)
    (hops : ∀ op ∈ ops, good op) : R app (app.performAll ops) := by
  induction ops generalizing app with
  | nil => exact h.refl app
  | cons op ops ih =>
    show R app (Application.performAll ops (app.perform op))
    exact h.trans _ _ _ (h.perform app op (hops op (List.mem_cons_self _ _)))
      (ih _ (fun o ho => hops o (List.mem_cons_of_mem _ ho)))

theorem dispatch_stable {R : Application → Application → Prop} {good : HostOp → Prop}
    (h : EventStable R good) (cb : Callbacks) (hcb : cb.All good) (ev : Event)
    (app : Application) : R app (app.dispatch cb ev).1 := by
  unfold Application.dispatch
  cases hf : cb.m_eventCallback with
  | none => exact h.refl app
  | some f => exact performAll_stable h _ _ (hcb.2.2 f hf ev app)

theorem deliver_stable {R : Application → Application → Prop} {good : HostOp → Prop}
    (h : EventStable R good) (cb : Callbacks) (hcb : cb.All good) (app : Application)
    (e : NativeEvent) : R app (app.deliver cb e).1 := by
  cases e with
  | resize width height =>
    simp only [Application.deliver, Application.onWindowResize]
    split <;> exact h.window _ _
  | key key scancode action mods =>
    simp only [Application.deliver, Application.onKeyPress]
    split
    · refine h.trans _ _ _ ?_ (dispatch_stable h cb hcb _ _)
      split
      · split
        · exact h.stop _
        · exact h.refl _
      · exact h.refl _
    · exact h.refl _
  | mouseButton button action mods =>
    simp only [Application.deliver, Application.onMouseButton]
    split
    · exact dispatch_stable h cb hcb _ _
    · exact h.refl _
  | cursorPos xpos ypos =>
    simp only [Application.deliver, Application.onMouseMove]
    split
    · exact h.trans _ _ _ (h.window _ _) (dispatch_stable h cb hcb _ _)
    · exact h.window _ _
  | scroll xoffset yoffset =>
    simp only [Application.deliver, Application.onMouseScroll]
    split
    · exact h.trans _ _ _ (h.window _ _) (dispatch_stable h cb hcb _ _)
    · exact h.window _ _
  | char codepoint => exact h.refl _
  | close => exact h.window _ _

theorem deliverAll_stable {R : Application → Application → Prop} {good : HostOp → Prop}
    (h : EventStable R good) (cb : Callbacks) (hcb : cb.All good) (events : List NativeEvent)
    (app : Application) : R app (Application.deliverAll cb events app).1 := by
  induction events generalizing app with
  | nil => exact h.refl app
  | cons e rest ih =>
    show R app (Application.deliverAll cb rest (app.deliver cb e).1).1
    exact h.trans _ _ _ (deliver_stable h cb hcb app e) (ih _)

theorem glfwPollEvents_stable {R : Application → Application → Prop} {good : HostOp → Prop}
    (h : EventStable R good) (cb : Callbacks) (hcb : cb.All good) (events : List NativeEvent)
    (app : Application) : R app (app.glfwPollEvents cb events).1 := by
  unfold Application.glfwPollEvents
  dsimp only
  split
  · exact h.trans _ _ _ (h.window _ _) (deliverAll_stable h cb hcb events _)
  · exact h.window _ _

/-! ## The loop body after the fixed-step loop -/

theorem LoopStable.step_log {R : Application → Application → Prop} {good : HostOp → Prop}
    (h : LoopStable R good) {a b : Application} (c : Call) (hab : R a b) : R a (b.log c) :=
  h.trans _ _ _ hab (h.trace b _)

theorem LoopStable.step_time {R : Application → Application → Prop} {good : HostOp → Prop}
    (h : LoopStable R good) {a b : Application} (tm : TimeManager) (hab : R a b) :
    R a { b with m_timeManager := tm } :=
  h.trans _ _ _ hab (h.time b tm)

theorem LoopStable.step_window {R : Application → Application → Prop} {good : HostOp → Prop}
    (h : LoopStable R good) {a b : Application} (w : Window) (hab : R a b) :
    R a { b with m_window := w } :=
  h.trans _ _ _ hab (h.window b w)

theorem LoopStable.step_performAll {R : Application → Application → Prop}
    {good : HostOp → Prop} (h : LoopStable R good) {a b : Application} (ops : List HostOp)
    (hops : ∀ op ∈ ops, good op) (hab : R a b) : R a (b.performAll ops) :=
  h.trans _ _ _ hab (performAll_stable h.toEventStable ops b hops)

theorem update_stable {R : Application → Application → Prop} {good : HostOp → Prop}
    (h : LoopStable R good) (cb : Callbacks) (hcb : cb.All good) (now d : ℚ)
    {a b : Application} (hab : R a b) : R a (b.update cb now d) := by
  unfold Application.update
  cases hf : cb.m_updateCallback with
  | none =>
    dsimp only
    apply h.step_log
    apply h.step_log
    apply h.step_time
    exact h.step_log _ hab
  | some f =>
    dsimp only
    apply h.step_performAll _ (hcb.1 f hf _ _)
    apply h.step_log
    apply h.step_log
    apply h.step_log
    apply h.step_time
    exact h.step_log _ hab

theorem render_stable {R : Application → Application → Prop} {good : HostOp → Prop}
    (h : LoopStable R good) (cb : Callbacks) (hcb : cb.All good)
    {a b : Application} (hab : R a b) : R a (b.render cb) := by
  unfold Application.render
  cases hf : cb.m_renderCallback with
  | none =>
    dsimp only
    apply h.step_log
    apply h.step_log
    exact h.step_log _ hab
  | some f =>
    dsimp only
    apply h.step_log
    apply h.step_performAll _ (hcb.2.1 f hf _)
    apply h.step_log
    apply h.step_log
    exact h.step_log _ hab

theorem swapBuffers_stable {R : Application → Application → Prop} {good : HostOp → Prop}
    (h : LoopStable R good) {a b : Application} (hab : R a b) : R a b.swapBuffers :=
  h.step_window _ (h.step_log _ hab)

theorem pollEvents_stable {R : Application → Application → Prop} {good : HostOp → Prop}
    (h : LoopStable R good) (cb : Callbacks) (hcb : cb.All good) (events : List NativeEvent)
    {a b : Application} (hab : R a b) : R a (b.pollEvents cb events) :=
  h.step_window _ (h.step_log _
    (h.trans _ _ _ hab (glfwPollEvents_stable h.toEventStable cb hcb events b)))

theorem updateStatistics_stable {R : Application → Application → Prop} {good : HostOp → Prop}
    (h : LoopStable R good) (d : ℚ) {a b : Application} (hab : R a b) :
    R a (b.updateStatistics d) := by
  unfold Application.updateStatistics
  dsimp only
  split
  · exact h.trans _ _ _ hab (h.stats _ _ _ _ _)
  · exact h.trans _ _ _ hab (h.stats b b.m_fps b.m_frameTime _ _)

theorem finish_stable {R : Application → Application → Prop} {good : HostOp → Prop}
    (h : LoopStable R good) (cb : Callbacks) (hcb : cb.All good) (frame : Frame)
    (app : Application) : R app (app.finish cb frame) := by
  unfold Application.finish
  dsimp only
  apply updateStatistics_stable h
  apply pollEvents_stable h cb hcb
  apply swapBuffers_stable h
  apply render_stable h cb hcb
  apply update_stable h cb hcb
  exact h.refl app

/-! ## Fields the loop body keeps -/

theorem eventStable_of_field {α : Type} (p : Application → α) (good : HostOp → Prop)
    (hp : ∀ a op, good op → p (Application.perform a op) = p a)
    (hw : ∀ (a : Application) (w : Window), p { a with m_window := w } = p a)
    (hs : ∀ a : Application, p a.stop = p a) :
    EventStable (fun a b => p b = p a) good where
  refl _ := rfl
  trans _ _ _ hab hbc := hbc.trans hab
  perform := hp
  window := hw
  stop := hs

theorem eventStable_trace : EventStable (fun a b => b.trace = a.trace) (fun _ => True) :=
  eventStable_of_field (fun a => a.trace) _ (fun a op _ => by cases op <;> rfl)
    (fun _ _ => rfl) (fun _ => rfl)

theorem eventStable_timeManager :
    EventStable (fun a b => b.m_timeManager = a.m_timeManager) (fun _ => True) :=
  eventStable_of_field (fun a => a.m_timeManager) _ (fun a op _ => by cases op <;> rfl)
    (fun _ _ => rfl) (fun _ => rfl)

theorem Callbacks.all_true (cb : Callbacks) : cb.All (fun _ => True) :=
  ⟨fun _ _ _ _ _ _ => trivial, fun _ _ _ _ _ => trivial, fun _ _ _ _ _ _ => trivial⟩

theorem loopStable_accumulator :
    LoopStable (fun a b => b.m_accumulator = a.m_accumulator) (fun _ => True) where
  toEventStable := eventStable_of_field (fun a => a.m_accumulator) _
    (fun a op _ => by cases op <;> rfl) (fun _ _ => rfl) (fun _ => rfl)
  trace _ _ := rfl
  time _ _ := rfl
  stats _ _ _ _ _ := rfl

theorem loopStable_deltaTime :
    LoopStable (fun a b => b.m_deltaTime = a.m_deltaTime) (fun _ => True) where
  toEventStable := eventStable_of_field (fun a => a.m_deltaTime) _
    (fun a op _ => by cases op <;> rfl) (fun _ _ => rfl) (fun _ => rfl)
  trace _ _ := rfl
  time _ _ := rfl
  stats _ _ _ _ _ := rfl

theorem loopStable_initialized :
    LoopStable (fun a b => b.m_initialized = a.m_initialized) (fun _ => True) where
  toEventStable := eventStable_of_field (fun a => a.m_initialized) _
    (fun a op _ => by cases op <;> rfl) (fun _ _ => rfl) (fun _ => rfl)
  trace _ _ := rfl
  time _ _ := rfl
  stats _ _ _ _ _ := rfl

theorem loopStable_fixedTimeStep :
    LoopStable (fun a b => b.m_fixedTimeStep = a.m_fixedTimeStep)
      (fun op => op.setsFixedTimeStep = false) where
  toEventStable := eventStable_of_field (fun a => a.m_fixedTimeStep) _
    (fun a op h => by cases op <;> first | rfl | simp [HostOp.setsFixedTimeStep] at h)
    (fun _ _ => rfl) (fun _ => rfl)
  trace _ _ := rfl
  time _ _ := rfl
  stats _ _ _ _ _ := rfl

/-- Nothing in the loop body sets the running flag: once false it stays false. -/
theorem loopStable_notRunning :
    LoopStable (fun a b => a.m_running = false → b.m_running = false) (fun _ => True) where
  refl _ h := h
  trans _ _ _ hab hbc h := hbc (hab h)
  perform a op _ h := by cases op <;> first | exact h | rfl
  window _ _ h := h
  stop _ _ := rfl
  trace _ _ h := h
  time _ _ h := h
  stats _ _ _ _ _ h := h

theorem performAll_stop (ops : List HostOp) (app : Application) (h : HostOp.stop ∈ ops) :
    (app.performAll ops).m_running = false := by
  induction ops generalizing app with
  | nil => cases h
  | cons op ops ih =>
    show (Application.performAll ops (app.perform op)).m_running = false
    rcases List.mem_cons.mp h with h | h
    · subst h
      exact performAll_stable loopStable_notRunning.toEventStable _ _ (fun _ _ => trivial) rfl
    · exact ih _ h

theorem dispatch_stop (cb : Callbacks) (ev : Event) (c : EventCall) (app : Application)
    (hmem : c ∈ (app.dispatch cb ev).2) (hstop : c.issuesStop) :
    (app.dispatch cb ev).1.m_running = false := by
  unfold Application.dispatch at hmem ⊢
  cases hf : cb.m_eventCallback with
  | none => rw [hf] at hmem; cases hmem
  | some f =>
    rw [hf] at hmem
    dsimp only at hmem ⊢
    rw [List.mem_singleton] at hmem
    subst hmem
    exact performAll_stop _ _ hstop

theorem deliver_stop (cb : Callbacks) (ev : NativeEvent) (c : EventCall) (app : Application)
    (hmem : c ∈ (app.deliver cb ev).2) (hstop : c.issuesStop) :
    (app.deliver cb ev).1.m_running = false := by
  cases ev with
  | resize width height =>
    simp only [Application.deliver, Application.onWindowResize] at hmem
    split at hmem
    · rw [List.mem_singleton] at hmem
      subst hmem
      exact hstop.elim
    · cases hmem
  | key key scancode action mods =>
    simp only [Application.deliver, Application.onKeyPress] at hmem ⊢
    split at hmem
    · rename_i hk
      rw [if_pos hk]
      rcases List.mem_append.mp hmem with h | h
      · refine dispatch_stable loopStable_notRunning.toEventStable cb cb.all_true _ _ ?_
        split at h
        · split at h
          · rename_i h1 h2
            rw [if_pos h1, if_pos h2]
            rfl
          · cases h
        · cases h
      · exact dispatch_stop cb _ c _ h hstop
    · cases hmem
  | mouseButton button action mods =>
    simp only [Application.deliver, Application.onMouseButton] at hmem ⊢
    split at hmem
    · rename_i hk
      rw [if_pos hk]
      exact dispatch_stop cb _ c _ hmem hstop
    · cases hmem
  | cursorPos xpos ypos =>
    simp only [Application.deliver, Application.onMouseMove] at hmem ⊢
    split at hmem
    · rename_i hk
      rw [if_pos hk]
      exact dispatch_stop cb _ c _ hmem hstop
    · cases hmem
  | scroll xoffset yoffset =>
    simp only [Application.deliver, Application.onMouseScroll] at hmem ⊢
    split at hmem
    · rename_i hk
      rw [if_pos hk]
      exact dispatch_stop cb _ c _ hmem hstop
    · cases hmem
  | char codepoint => cases hmem
  | close => cases hmem

theorem deliverAll_stop (cb : Callbacks) (events : List NativeEvent) (c : EventCall)
    (app : Application) (hmem : c ∈ (Application.deliverAll cb events app).2)
    (hstop : c.issuesStop) : (Application.deliverAll cb events app).1.m_running = false := by
  induction events generalizing app with
  | nil => cases hmem
  | cons ev rest ih =>
    have hmem2 : c ∈
        (app.deliver cb ev).2 ++ (Application.deliverAll cb rest (app.deliver cb ev).1).2 := hmem
    show (Application.deliverAll cb rest (app.deliver cb ev).1).1.m_running = false
    rcases List.mem_append.mp hmem2 with h | h
    · exact deliverAll_stable loopStable_notRunning.toEventStable cb cb.all_true rest _
        (deliver_stop cb ev c app h hstop)
    · exact ih _ h

/-! ## The calls of the loop body -/

theorem performAll_trace (ops : List HostOp) (app : Application) :
    (app.performAll ops).trace = app.trace :=
  performAll_stable eventStable_trace ops app (fun _ _ => trivial)

theorem update_calls (cb : Callbacks) (now d : ℚ) (app : Application) :
    ∃ upd : Option (List HostOp), upd.isSome = cb.m_updateCallback.isSome ∧
      (app.update cb now d).trace = app.trace ++
        ([Call.timeUpdate now, Call.sceneUpdate d, Call.audioUpdate d] ++
          updateCallbackCalls d upd) ∧
      (∀ ops, upd = some ops → HostOp.stop ∈ ops → (app.update cb now d).m_running = false) := by
  unfold Application.update
  cases hf : cb.m_updateCallback with
  | none =>
    refine ⟨none, rfl, ?_, fun ops h => by cases h⟩
    simp [Application.log, updateCallbackCalls]
  | some f =>
    refine ⟨some (f d ((({ (app.log (Call.timeUpdate now)) with
      m_timeManager := app.m_timeManager.update now }).log (Call.sceneUpdate d)).log
      (Call.audioUpdate d))), rfl, ?_, ?_⟩
    · dsimp only
      rw [performAll_trace]
      simp [Application.log, updateCallbackCalls]
    · intro ops h hstop
      injection h with h
      subst h
      exact performAll_stop _ _ hstop

theorem render_calls (cb : Callbacks) (app : Application) :
    ∃ rnd : Option (List HostOp), rnd.isSome = cb.m_renderCallback.isSome ∧
      (app.render cb).trace = app.trace ++
        ([Call.rendererClear, Call.sceneRender] ++ renderCallbackCalls rnd ++
          [Call.rendererPresent]) ∧
      (∀ ops, rnd = some ops → HostOp.stop ∈ ops → (app.render cb).m_running = false) := by
  unfold Application.render
  cases hf : cb.m_renderCallback with
  | none =>
    refine ⟨none, rfl, ?_, fun ops h => by cases h⟩
    simp [Application.log, renderCallbackCalls]
  | some f =>
    refine ⟨some (f ((app.log Call.rendererClear).log Call.sceneRender)), rfl, ?_, ?_⟩
    · dsimp only
      simp only [Application.log, performAll_trace, renderCallbackCalls]
      simp
    · intro ops h hstop
      injection h with h
      subst h
      exact performAll_stop _ _ hstop

theorem pollEvents_calls (cb : Callbacks) (events : List NativeEvent) (app : Application) :
    ∃ inner : List EventCall,
      (app.pollEvents cb events).trace = app.trace ++ [Call.pollEvents inner] ∧
      (∀ c ∈ inner, c.issuesStop → (app.pollEvents cb events).m_running = false) := by
  refine ⟨(app.glfwPollEvents cb events).2, ?_, ?_⟩
  · show (app.glfwPollEvents cb events).1.trace ++ _ = _
    rw [glfwPollEvents_stable eventStable_trace cb cb.all_true events app]
  · intro c hmem hstop
    show (app.glfwPollEvents cb events).1.m_running = false
    unfold Application.glfwPollEvents at hmem ⊢
    dsimp only at hmem ⊢
    split at hmem
    · rename_i hk
      rw [if_pos hk]
      exact deliverAll_stop cb events c _ hmem hstop
    · cases hmem

theorem updateStatistics_trace (d : ℚ) (app : Application) :
    (app.updateStatistics d).trace = app.trace := by
  unfold Application.updateStatistics
  dsimp only
  split <;> rfl

theorem updateStatistics_m_running (d : ℚ) (app : Application) :
    (app.updateStatistics d).m_running = app.m_running := by
  unfold Application.updateStatistics
  dsimp only
  split <;> rfl

/-- The calls made after the fixed-step loop: the clock update, one variable step, one
render pass, the swap and the poll; a `stop()` issued in one of the callbacks leaves the
running flag false at the end of the iteration. -/
theorem finish_calls (cb : Callbacks) (frame : Frame) (app : Application) :
    ∃ (upd rnd : Option (List HostOp)) (inner : List EventCall),
      upd.isSome = cb.m_updateCallback.isSome ∧ rnd.isSome = cb.m_renderCallback.isSome ∧
      (app.finish cb frame).trace = app.trace ++
        (Call.timeUpdate frame.now ::
          iterationCalls app.m_fixedTimeStep app.m_deltaTime 0 upd rnd inner) ∧
      (((∃ ops, upd = some ops ∧ HostOp.stop ∈ ops) ∨ (∃ ops, rnd = some ops ∧ HostOp.stop ∈ ops) ∨
          (∃ c ∈ inner, c.issuesStop)) →
        (app.finish cb frame).m_running = false) := by
  obtain ⟨upd, hupd, hut, hus⟩ := update_calls cb frame.now app.m_deltaTime app
  obtain ⟨rnd, hrnd, hrt, hrs⟩ := render_calls cb (app.update cb frame.now app.m_deltaTime)
  obtain ⟨inner, hpt, hps⟩ := pollEvents_calls cb frame.events
    ((app.update cb frame.now app.m_deltaTime).render cb).swapBuffers
  refine ⟨upd, rnd, inner, hupd, hrnd, ?_, ?_⟩
  · unfold Application.finish
    dsimp only
    rw [updateStatistics_trace, hpt]
    show ((app.update cb frame.now app.m_deltaTime).render cb).trace ++ [Call.swapBuffers] ++ _ = _
    rw [hrt, hut]
    simp [iterationCalls, fixedCalls]
  · intro h
    unfold Application.finish
    dsimp only
    rw [updateStatistics_m_running]
    rcases h with ⟨ops, h1, h2⟩ | ⟨ops, h1, h2⟩ | ⟨c, h1, h2⟩
    · apply pollEvents_stable loopStable_notRunning cb cb.all_true _
        (a := app.update cb frame.now app.m_deltaTime) ?_ (hus ops h1 h2)
      apply swapBuffers_stable loopStable_notRunning
      apply render_stable loopStable_notRunning cb cb.all_true
      exact fun h => h
    · apply pollEvents_stable loopStable_notRunning cb cb.all_true _
        (a := (app.update cb frame.now app.m_deltaTime).render cb) ?_ (hrs ops h1 h2)
      apply swapBuffers_stable loopStable_notRunning
      exact fun h => h
    · exact hps c h1 h2

/-! ## The fixed-step loop -/

theorem drain_of_passes (k : Nat) : ∀ (fuel : Nat) (app : Application), k ≤ fuel →
    DrainPasses app.m_fixedTimeStep app.m_accumulator k →
    Application.drain fuel app = some (app.drained k) := by
  induction k with
  | zero =>
    intro fuel app _ h
    have hlt : ¬ app.m_accumulator ≥ app.m_fixedTimeStep := by
      have := h.2
      simp only [Nat.cast_zero, zero_mul, sub_zero] at this
      exact not_le.mpr this
    have hd : app.drained 0 = app := by
      simp [Application.drained, fixedCalls]
    rw [hd]
    cases fuel with
    | zero => simp [Application.drain, hlt]
    | succ n => simp [Application.drain, hlt]
  | succ k ih =>
    intro fuel app hk h
    cases fuel with
    | zero => omega
    | succ n =>
      have hge : app.m_accumulator ≥ app.m_fixedTimeStep := by
        have := h.1 0 (Nat.succ_pos k)
        simpa using this
      rw [Application.drain, if_pos hge]
      dsimp only
      rw [ih n _ (Nat.le_of_succ_le_succ hk)]
      · congr 1
        simp only [Application.drained, Application.fixedUpdate, Application.log, fixedCalls,
          List.append_assoc, List.singleton_append, List.cons_append, List.nil_append]
        congr 1
        push_cast
        ring
      · constructor
        · intro j hj
          have := h.1 (j + 1) (Nat.succ_lt_succ hj)
          simp only [Application.fixedUpdate, Application.log]
          push_cast at this
          linarith
        · have := h.2
          simp only [Application.fixedUpdate, Application.log]
          push_cast at this
          linarith

/-- With a positive step and a non-negative accumulator the loop runs
`floor (acc / step)` passes. -/
theorem drainPasses_floor (step acc : ℚ) (hstep : 0 < step) (hacc : 0 ≤ acc) :
    DrainPasses step acc ⌊acc / step⌋.toNat := by
  have hfl : (0 : ℤ) ≤ ⌊acc / step⌋ := Int.floor_nonneg.mpr (div_nonneg hacc hstep.le)
  have hcast : ((⌊acc / step⌋.toNat : ℕ) : ℚ) = (⌊acc / step⌋ : ℚ) := by
    have : ((⌊acc / step⌋.toNat : ℕ) : ℤ) = ⌊acc / step⌋ := Int.toNat_of_nonneg hfl
    exact_mod_cast this
  have hle : (⌊acc / step⌋ : ℚ) * step ≤ acc := by
    have := Int.floor_le (acc / step)
    calc (⌊acc / step⌋ : ℚ) * step ≤ acc / step * step :=
          mul_le_mul_of_nonneg_right this hstep.le
      _ = acc := div_mul_cancel₀ acc hstep.ne.symm
  have hlt : acc < ((⌊acc / step⌋ : ℚ) + 1) * step := by
    have := Int.lt_floor_add_one (acc / step)
    calc acc = acc / step * step := (div_mul_cancel₀ acc hstep.ne.symm).symm
      _ < ((⌊acc / step⌋ : ℚ) + 1) * step := mul_lt_mul_of_pos_right this hstep
  constructor
  · intro j hj
    have hj1 : (j : ℚ) + 1 ≤ (⌊acc / step⌋.toNat : ℕ) := by exact_mod_cast hj
    rw [hcast] at hj1
    have : ((j : ℚ) + 1) * step ≤ (⌊acc / step⌋ : ℚ) * step :=
      mul_le_mul_of_nonneg_right hj1 hstep.le
    linarith
  · rw [hcast]
    linarith

theorem iteration_eq (cb : Callbacks) (fuel : Nat) (frame : Frame) (app : Application) :
    app.iteration cb fuel frame =
      (Application.drain fuel app.beginIteration).map (Application.finish cb frame) := by
  unfold Application.iteration
  show (match Application.drain fuel app.beginIteration with
    | none => none
    | some a => some (a.finish cb frame)) = _
  cases Application.drain fuel app.beginIteration <;> rfl

/-- An iteration whose fixed-step loop needs `k` passes completes with any fuel `≥ k`. -/
theorem iteration_of_passes (cb : Callbacks) (fuel k : Nat) (frame : Frame) (app : Application)
    (hk : k ≤ fuel)
    (h : DrainPasses app.m_fixedTimeStep (app.m_accumulator + app.m_timeManager.m_deltaTime) k) :
    app.iteration cb fuel frame = some ((app.beginIteration.drained k).finish cb frame) := by
  rw [iteration_eq, drain_of_passes k fuel app.beginIteration hk h]
  rfl

theorem floor_remainder (step acc : ℚ) (hstep : 0 < step) (hacc : 0 ≤ acc) :
    0 ≤ acc - (⌊acc / step⌋.toNat : ℕ) * step ∧ acc - (⌊acc / step⌋.toNat : ℕ) * step < step := by
  have hfl : (0 : ℤ) ≤ ⌊acc / step⌋ := Int.floor_nonneg.mpr (div_nonneg hacc hstep.le)
  have hcast : ((⌊acc / step⌋.toNat : ℕ) : ℚ) = (⌊acc / step⌋ : ℚ) := by
    have : ((⌊acc / step⌋.toNat : ℕ) : ℤ) = ⌊acc / step⌋ := Int.toNat_of_nonneg hfl
    exact_mod_cast this
  have hle : (⌊acc / step⌋ : ℚ) * step ≤ acc := by
    have := Int.floor_le (acc / step)
    calc (⌊acc / step⌋ : ℚ) * step ≤ acc / step * step :=
          mul_le_mul_of_nonneg_right this hstep.le
      _ = acc := div_mul_cancel₀ acc hstep.ne.symm
  have hlt : acc < ((⌊acc / step⌋ : ℚ) + 1) * step := by
    have := Int.lt_floor_add_one (acc / step)
    calc acc = acc / step * step := (div_mul_cancel₀ acc hstep.ne.symm).symm
      _ < ((⌊acc / step⌋ : ℚ) + 1) * step := mul_lt_mul_of_pos_right this hstep
  rw [hcast]
  constructor <;> linarith

/-! ## Counting in traces -/

theorem fixedUpdateCount_append (s t : List Call) :
    fixedUpdateCount (s ++ t) = fixedUpdateCount s + fixedUpdateCount t := by
  simp [fixedUpdateCount, List.countP_append]

theorem deltasRead_append (s t : List Call) :
    deltasRead (s ++ t) = deltasRead s ++ deltasRead t := by
  simp [deltasRead, List.filterMap_append]

theorem fixedUpdateCount_fixedCalls (step : ℚ) (k : Nat) :
    fixedUpdateCount (fixedCalls step k) = k := by
  induction k with
  | zero => rfl
  | succ k ih =>
    simp only [fixedUpdateCount] at ih
    simp [fixedUpdateCount, fixedCalls, List.countP_cons, Call.isPhysicsUpdate, ih]

theorem deltasRead_fixedCalls (step : ℚ) (k : Nat) : deltasRead (fixedCalls step k) = [] := by
  induction k with
  | zero => rfl
  | succ k ih =>
    simp only [deltasRead] at ih
    simp [deltasRead, fixedCalls, List.filterMap_cons, Call.deltaRead, ih]

theorem filter_fixedCalls (step : ℚ) (k : Nat) :
    (fixedCalls step k).filter (fun c => !c.isTimeManager) = fixedCalls step k := by
  induction k with
  | zero => rfl
  | succ k ih =>
    show List.filter _ (Call.physicsUpdate step :: Call.sceneFixedUpdate step ::
      fixedCalls step k) = Call.physicsUpdate step :: Call.sceneFixedUpdate step ::
      fixedCalls step k
    rw [List.filter_cons_of_pos (by rfl), List.filter_cons_of_pos (by rfl), ih]

theorem mem_fixedCalls (step : ℚ) (k : Nat) (c : Call) (h : c ∈ fixedCalls step k) :
    c = Call.physicsUpdate step ∨ c = Call.sceneFixedUpdate step := by
  induction k with
  | zero => cases h
  | succ k ih =>
    simp only [fixedCalls, List.mem_cons] at h
    rcases h with h | h | h
    · exact Or.inl h
    · exact Or.inr h
    · exact ih h

theorem fixedUpdateCount_iterationCalls_zero (step d : ℚ) (upd rnd : Option (List HostOp))
    (inner : List EventCall) :
    fixedUpdateCount (Call.timeUpdate d :: iterationCalls step d 0 upd rnd inner) = 0 ∧
    deltasRead (Call.timeUpdate d :: iterationCalls step d 0 upd rnd inner) = [] := by
  cases upd <;> cases rnd <;>
    simp [fixedUpdateCount, deltasRead, iterationCalls, fixedCalls, updateCallbackCalls,
      renderCallbackCalls, List.countP_cons, Call.isPhysicsUpdate, Call.deltaRead]

/-! ## The clock across an iteration -/

theorem TimeManager.update_m_deltaTime (now : ℚ) (tm : TimeManager) :
    (tm.update now).m_deltaTime = now - tm.m_lastTime := by
  unfold TimeManager.update TimeManager.calculateFPS
  dsimp only
  split <;> rfl

theorem TimeManager.update_m_lastTime (now : ℚ) (tm : TimeManager) :
    (tm.update now).m_lastTime = now := by
  unfold TimeManager.update TimeManager.calculateFPS
  dsimp only
  split <;> rfl

theorem finish_m_timeManager (cb : Callbacks) (frame : Frame) (app : Application) :
    (app.finish cb frame).m_timeManager = app.m_timeManager.update frame.now := by
  have hu : (app.update cb frame.now app.m_deltaTime).m_timeManager =
      app.m_timeManager.update frame.now := by
    unfold Application.update
    cases hf : cb.m_updateCallback with
    | none => rfl
    | some f =>
      dsimp only
      rw [performAll_stable eventStable_timeManager _ _ (fun _ _ => trivial)]
      rfl
  have hr : ∀ a : Application, (a.render cb).m_timeManager = a.m_timeManager := by
    intro a
    unfold Application.render
    cases hf : cb.m_renderCallback with
    | none => rfl
    | some f =>
      dsimp only
      show (Application.performAll _ _).m_timeManager = _
      rw [performAll_stable eventStable_timeManager _ _ (fun _ _ => trivial)]
      rfl
  have hp : ∀ a : Application, (a.pollEvents cb frame.events).m_timeManager = a.m_timeManager :=
    fun a => glfwPollEvents_stable eventStable_timeManager cb cb.all_true frame.events a
  have hs : ∀ (d : ℚ) (a : Application),
      (a.updateStatistics d).m_timeManager = a.m_timeManager := by
    intro d a
    unfold Application.updateStatistics
    dsimp only
    split <;> rfl
  unfold Application.finish
  dsimp only
  rw [hs, hp]
  show ((app.update cb frame.now app.m_deltaTime).render cb).m_timeManager = _
  rw [hr, hu]

/-! ## Accounting of the accumulator over a run -/

/-- One iteration whose fixed-step loop needs `k` passes: it completes with any fuel
`≥ k`, makes `k` fixed updates and takes `k` steps out of the accumulator. -/
theorem iteration_passes_accounting (cb : Callbacks) (hcb : cb.KeepsFixedStep) (frame : Frame)
    (app : Application) (fuel k : Nat) (hk : k ≤ fuel)
    (hpass : DrainPasses app.m_fixedTimeStep
      (app.m_accumulator + app.m_timeManager.m_deltaTime) k) :
    ∃ (app1 : Application) (new : List Call),
      app.iteration cb fuel frame = some app1 ∧ app1.trace = app.trace ++ new ∧
      fixedUpdateCount new = k ∧
      deltasRead new = [app.m_timeManager.m_deltaTime] ∧
      app1.m_accumulator = app.m_accumulator + app.m_timeManager.m_deltaTime -
        (k : ℕ) * app.m_fixedTimeStep ∧
      app1.m_fixedTimeStep = app.m_fixedTimeStep ∧
      app1.m_timeManager = app.m_timeManager.update frame.now ∧
      app1.m_initialized = app.m_initialized := by
  obtain ⟨upd, rnd, inner, -, -, htr, -⟩ := finish_calls cb frame (app.beginIteration.drained k)
  refine ⟨_, (Call.getDeltaTime app.m_timeManager.m_deltaTime ::
      fixedCalls app.m_fixedTimeStep k) ++
      (Call.timeUpdate frame.now :: iterationCalls app.m_fixedTimeStep
        app.m_timeManager.m_deltaTime 0 upd rnd inner),
    iteration_of_passes cb fuel k frame app hk hpass, ?_, ?_, ?_, ?_, ?_, ?_, ?_⟩
  · rw [htr]
    simp [Application.drained, Application.beginIteration]
  · rw [fixedUpdateCount_append]
    have h1 := (fixedUpdateCount_iterationCalls_zero app.m_fixedTimeStep
      app.m_timeManager.m_deltaTime upd rnd inner).1
    have h2 : ∀ (x y : ℚ) (t : List Call), fixedUpdateCount (Call.timeUpdate x :: t) =
        fixedUpdateCount (Call.timeUpdate y :: t) := by
      intro x y t
      simp [fixedUpdateCount, List.countP_cons, Call.isPhysicsUpdate]
    rw [h2 frame.now app.m_timeManager.m_deltaTime, h1]
    have h3 := fixedUpdateCount_fixedCalls app.m_fixedTimeStep k
    simp only [fixedUpdateCount] at h3 ⊢
    simp [List.countP_cons, Call.isPhysicsUpdate, h3]
  · rw [deltasRead_append]
    have h1 := (fixedUpdateCount_iterationCalls_zero app.m_fixedTimeStep
      app.m_timeManager.m_deltaTime upd rnd inner).2
    have h2 : ∀ (x y : ℚ) (t : List Call), deltasRead (Call.timeUpdate x :: t) =
        deltasRead (Call.timeUpdate y :: t) := by
      intro x y t
      simp [deltasRead, List.filterMap_cons, Call.deltaRead]
    rw [h2 frame.now app.m_timeManager.m_deltaTime, h1]
    have h3 := deltasRead_fixedCalls app.m_fixedTimeStep k
    simp only [deltasRead] at h3 ⊢
    simp [List.filterMap_cons, Call.deltaRead, h3]
  · rw [finish_stable loopStable_accumulator cb cb.all_true frame]
    rfl
  · rw [finish_stable loopStable_fixedTimeStep cb hcb frame]
    rfl
  · rw [finish_m_timeManager]
    rfl
  · rw [finish_stable loopStable_initialized cb cb.all_true frame]
    rfl

theorem runLoop_of_not_looping (cb : Callbacks) (fuel : Nat) (frames : List Frame)
    (app : Application) (h : (app.m_running && !app.m_window.shouldClose) = false) :
    Application.runLoop cb fuel frames app = some ⟨app, true⟩ := by
  cases frames with
  | nil => simp [Application.runLoop, h]
  | cons f rest => simp [Application.runLoop, h]

/-- Over a run with a positive step, a clock that does not go backwards and an
accumulator that starts inside `[0, step)`: with enough fuel the loop consumes the frames,
the accumulator stays inside `[0, step)`, and the deltas read add up to the fixed
steps taken plus the change of the accumulator. -/
theorem runLoop_accounting (cb : Callbacks) (hcb : cb.KeepsFixedStep) :
    ∀ (frames : List Frame) (app : Application), 0 < app.m_fixedTimeStep →
      0 ≤ app.m_accumulator → app.m_accumulator < app.m_fixedTimeStep →
      0 ≤ app.m_timeManager.m_deltaTime →
      List.Chain (fun x y : ℚ => x ≤ y) app.m_timeManager.m_lastTime (frames.map Frame.now) →
      ∃ fuel0 : Nat, ∀ fuel : Nat, fuel0 ≤ fuel → ∃ (r : RunResult) (new : List Call),
        Application.runLoop cb fuel frames app = some r ∧ r.app.trace = app.trace ++ new ∧
        r.app.m_fixedTimeStep = app.m_fixedTimeStep ∧
        0 ≤ r.app.m_accumulator ∧ r.app.m_accumulator < app.m_fixedTimeStep ∧
        app.m_accumulator + (deltasRead new).sum =
          app.m_fixedTimeStep * (fixedUpdateCount new : ℕ) + r.app.m_accumulator := by
  intro frames
  induction frames with
  | nil =>
    intro app _ hacc hlt _ _
    refine ⟨0, fun fuel _ => ⟨⟨app, !(app.m_running && !app.m_window.shouldClose)⟩, [], rfl, ?_,
      rfl, hacc, hlt, ?_⟩⟩
    · simp
    · simp [deltasRead, fixedUpdateCount]
  | cons f rest ih =>
    intro app hstep hacc hlt hd hclock
    by_cases hc : (app.m_running && !app.m_window.shouldClose) = true
    · have hsum : 0 ≤ app.m_accumulator + app.m_timeManager.m_deltaTime := add_nonneg hacc hd
      have hpass := drainPasses_floor app.m_fixedTimeStep _ hstep hsum
      have hrem := floor_remainder app.m_fixedTimeStep _ hstep hsum
      obtain ⟨app1, new1, hit, htr1, hcnt1, hdel1, hacc1, hstep1, htm1, -⟩ :=
        iteration_passes_accounting cb hcb f app _ _ (le_refl _) hpass
      have hexp : app1 = (app.beginIteration.drained
          ⌊(app.m_accumulator + app.m_timeManager.m_deltaTime) / app.m_fixedTimeStep⌋.toNat).finish
          cb f := by
        have := iteration_of_passes cb _ _ f app (le_refl _) hpass
        rw [hit] at this
        exact Option.some.inj this
      rw [List.map_cons, List.chain_cons] at hclock
      have hd1 : 0 ≤ app1.m_timeManager.m_deltaTime := by
        rw [htm1, TimeManager.update_m_deltaTime]
        linarith [hclock.1]
      have hcl1 : List.Chain (fun x y : ℚ => x ≤ y) app1.m_timeManager.m_lastTime
          (rest.map Frame.now) := by
        rw [htm1, TimeManager.update_m_lastTime]
        exact hclock.2
      obtain ⟨fuel1, hrest⟩ := ih app1 (hstep1 ▸ hstep) (hacc1 ▸ hrem.1)
        (by rw [hacc1, hstep1]; exact hrem.2) hd1 hcl1
      refine ⟨max ⌊(app.m_accumulator + app.m_timeManager.m_deltaTime) /
        app.m_fixedTimeStep⌋.toNat fuel1, fun fuel hfuel => ?_⟩
      obtain ⟨r, new2, hrun, htr2, hstep2, h0, h1, heq⟩ :=
        hrest fuel (le_trans (le_max_right _ _) hfuel)
      refine ⟨r, new1 ++ new2, ?_, ?_, ?_, h0, ?_, ?_⟩
      · rw [Application.runLoop, if_pos hc,
          iteration_of_passes cb fuel _ f app (le_trans (le_max_left _ _) hfuel) hpass, ← hexp]
        exact hrun
      · rw [htr2, htr1, List.append_assoc]
      · rw [hstep2, hstep1]
      · rw [← hstep1]; exact h1
      · rw [deltasRead_append, fixedUpdateCount_append, List.sum_append, hdel1, hcnt1]
        rw [hacc1, hstep1] at heq
        push_cast
        simp only [List.sum_cons, List.sum_nil, add_zero]
        linarith
    · have hc2 : (app.m_running && !app.m_window.shouldClose) = false := by
        simpa using hc
      refine ⟨0, fun fuel _ => ⟨⟨app, true⟩, [], runLoop_of_not_looping cb fuel _ app hc2, ?_,
        rfl, hacc, hlt, ?_⟩⟩
      · simp
      · simp [deltasRead, fixedUpdateCount]

theorem noCallbacks_all (good : HostOp → Prop) : noCallbacks.All good :=
  ⟨fun _ h => (by cases h), fun _ h => (by cases h), fun _ h => (by cases h)⟩

theorem run_accounting (cb : Callbacks) (hcb : cb.KeepsFixedStep) (frames : List Frame)
    (app : Application) (hstep : 0 < app.m_fixedTimeStep) (hacc : app.m_accumulator = 0)
    (hd : 0 ≤ app.m_timeManager.m_deltaTime)
    (hclock : List.Chain (fun x y : ℚ => x ≤ y) app.m_timeManager.m_lastTime
      (frames.map Frame.now)) :
    ∃ fuel0 : Nat, ∀ fuel : Nat, fuel0 ≤ fuel → ∃ (r : RunResult) (new : List Call),
      app.run cb fuel frames = some r ∧ r.app.trace = app.trace ++ new ∧
      0 ≤ r.app.m_accumulator ∧ r.app.m_accumulator < app.m_fixedTimeStep ∧
      (deltasRead new).sum =
        app.m_fixedTimeStep * (fixedUpdateCount new : ℕ) + r.app.m_accumulator := by
  by_cases hi : app.m_initialized = true
  · obtain ⟨fuel0, h⟩ := runLoop_accounting cb hcb frames app hstep (by rw [hacc])
      (by rw [hacc]; exact hstep) hd hclock
    refine ⟨fuel0, fun fuel hfuel => ?_⟩
    obtain ⟨r, new, hrun, htr, -, h0, h1, heq⟩ := h fuel hfuel
    refine ⟨r, new, ?_, htr, h0, h1, ?_⟩
    · simp only [Application.run, hi, Bool.not_true, Bool.false_eq_true, if_false]
      exact hrun
    · rw [hacc, zero_add] at heq
      exact heq
  · refine ⟨0, fun fuel _ => ⟨⟨app, true⟩, [], ?_, by simp, by rw [hacc], by rw [hacc]; exact hstep,
      ?_⟩⟩
    · simp [Application.run, hi]
    · simp [deltasRead, fixedUpdateCount, hacc]

theorem floor_of_accounting (step sum rem : ℚ) (n : ℕ) (hstep : 0 < step) (h0 : 0 ≤ rem)
    (h1 : rem < step) (heq : sum = step * n + rem) : ⌊sum / step⌋ = n := by
  rw [Int.floor_eq_iff]
  constructor
  · rw [le_div_iff₀ hstep]
    push_cast
    linarith
  · rw [div_lt_iff₀ hstep]
    push_cast
    linarith

/-! ## Initialization -/

/-- Outcome of `initializeSystems`: it reports success when all five collaborators do,
makes at least one call, no call after a failed one, and leaves the two flags alone. -/
theorem initializeSystems_spec (env : InitEnv) (app : Application) :
    (app.initializeSystems env).2 =
      (env.timeOk && env.rendererOk && env.sceneOk && env.audioOk && env.physicsOk) ∧
    (app.initializeSystems env).1.m_running = app.m_running ∧
    (app.initializeSystems env).1.m_initialized = app.m_initialized ∧
    ∃ new : List Call, new ≠ [] ∧ (app.initializeSystems env).1.trace = app.trace ++ new ∧
      (∀ c ∈ new.dropLast, c.failed = false) := by
  obtain ⟨g, cw, gl, t, r, sc, au, ph, now⟩ := env
  cases t
  · exact ⟨rfl, rfl, rfl, [Call.timeInitialize false], by simp, rfl, by simp⟩
  cases r
  · exact ⟨rfl, rfl, rfl, [Call.timeInitialize true, Call.rendererInitialize false], by simp,
      by simp [Application.initializeSystems, Application.log], by simp [Call.failed]⟩
  cases sc
  · exact ⟨rfl, rfl, rfl, [Call.timeInitialize true, Call.rendererInitialize true,
      Call.sceneInitialize false], by simp,
      by simp [Application.initializeSystems, Application.log], by simp [Call.failed]⟩
  cases au
  · exact ⟨rfl, rfl, rfl, [Call.timeInitialize true, Call.rendererInitialize true,
      Call.sceneInitialize true, Call.audioInitialize false], by simp,
      by simp [Application.initializeSystems, Application.log], by simp [Call.failed]⟩
  cases ph
  · exact ⟨rfl, rfl, rfl, [Call.timeInitialize true, Call.rendererInitialize true,
      Call.sceneInitialize true, Call.audioInitialize true, Call.physicsInitialize false],
      by simp, by simp [Application.initializeSystems, Application.log], by simp [Call.failed]⟩
  · exact ⟨rfl, rfl, rfl, [Call.timeInitialize true, Call.rendererInitialize true,
      Call.sceneInitialize true, Call.audioInitialize true, Call.physicsInitialize true],
      by simp, by simp [Application.initializeSystems, Application.log], by simp [Call.failed]⟩

/-- The calls `initialize` makes before `initializeSystems`, when window and GLEW
succeed. -/
theorem registerWindowCallbacks_trace (app : Application) :
    app.registerWindowCallbacks.trace = app.trace ++ [Call.setWindowResizeCallback,
      Call.setKeyCallback, Call.setMouseButtonCallback, Call.setMouseMoveCallback,
      Call.setMouseScrollCallback] := by
  simp [Application.registerWindowCallbacks, Application.log]

/-! ## Completed iterations -/

theorem drained_succ (k : Nat) (app : Application) :
    Application.drained k { (app.fixedUpdate app.m_fixedTimeStep) with
      m_accumulator := (app.fixedUpdate app.m_fixedTimeStep).m_accumulator -
        (app.fixedUpdate app.m_fixedTimeStep).m_fixedTimeStep } = app.drained (k + 1) := by
  simp only [Application.drained, Application.fixedUpdate, Application.log, fixedCalls,
    List.append_assoc, List.singleton_append, List.cons_append, List.nil_append]
  congr 1
  push_cast
  ring

/-- When the fixed-step loop ends it has made some number of passes within the fuel. -/
theorem drain_some (fuel : Nat) : ∀ (app app1 : Application),
    Application.drain fuel app = some app1 → ∃ k, k ≤ fuel ∧ app1 = app.drained k := by
  induction fuel with
  | zero =>
    intro app app1 h
    refine ⟨0, le_refl _, ?_⟩
    unfold Application.drain at h
    split at h
    · cases h
    · injection h with h
      subst h
      simp [Application.drained, fixedCalls]
  | succ n ih =>
    intro app app1 h
    unfold Application.drain at h
    split at h
    · obtain ⟨k, hk, he⟩ := ih _ _ h
      exact ⟨k + 1, Nat.succ_le_succ hk, he.trans (drained_succ k app)⟩
    · injection h with h
      subst h
      exact ⟨0, Nat.zero_le _, by simp [Application.drained, fixedCalls]⟩

/-- Shape of a completed iteration: the state is the one after some `k` passes of the
fixed-step loop and the rest of the body. -/
theorem iteration_some (cb : Callbacks) (fuel : Nat) (frame : Frame) (app app1 : Application)
    (h : app.iteration cb fuel frame = some app1) :
    ∃ k, k ≤ fuel ∧ app1 = (app.beginIteration.drained k).finish cb frame := by
  rw [iteration_eq] at h
  cases hd : Application.drain fuel app.beginIteration with
  | none => rw [hd] at h; cases h
  | some a =>
    rw [hd] at h
    obtain ⟨k, hk, he⟩ := drain_some fuel _ _ hd
    refine ⟨k, hk, ?_⟩
    injection h with h
    rw [← h, he]

/-! ## The running flag implies the initialized flag in every reachable state -/

theorem wellFormed_stop (app : Application) : app.stop.WellFormed := fun h => by cases h

theorem wellFormed_shutdown (app : Application) (h : app.WellFormed) :
    app.shutdown.WellFormed := by
  unfold Application.shutdown
  split
  · exact h
  · intro h2; cases h2

theorem loopStable_wellFormed :
    LoopStable (fun a b => a.WellFormed → b.WellFormed) (fun _ => True) where
  refl _ h := h
  trans _ _ _ hab hbc h := hbc (hab h)
  perform a op _ h := by
    cases op <;> first | exact h | exact fun h2 => by cases h2
  window _ _ h := h
  stop _ _ := fun h2 => by cases h2
  trace _ _ h := h
  time _ _ h := h
  stats _ _ _ _ _ h := h

theorem wellFormed_runLoop (cb : Callbacks) (fuel : Nat) : ∀ (frames : List Frame)
    (app : Application) (r : RunResult), Application.runLoop cb fuel frames app = some r →
    app.WellFormed → r.app.WellFormed := by
  intro frames
  induction frames with
  | nil =>
    intro app r h hwf
    simp only [Application.runLoop, Option.some.injEq] at h
    subst h
    exact hwf
  | cons f rest ih =>
    intro app r h hwf
    rw [Application.runLoop] at h
    split at h
    · cases hi : app.iteration cb fuel f with
      | none => rw [hi] at h; cases h
      | some a =>
        rw [hi] at h
        obtain ⟨k, -, he⟩ := iteration_some cb fuel f app a hi
        refine ih a r h ?_
        rw [he]
        exact finish_stable loopStable_wellFormed cb cb.all_true f _ hwf
    · injection h with h
      subst h
      exact hwf

theorem wellFormed_run (cb : Callbacks) (fuel : Nat) (frames : List Frame)
    (app : Application) (r : RunResult) (h : app.run cb fuel frames = some r)
    (hwf : app.WellFormed) : r.app.WellFormed := by
  unfold Application.run at h
  split at h
  · injection h with h
    subst h
    exact hwf
  · exact wellFormed_runLoop cb fuel frames app r h hwf

theorem wellFormed_initialize (env : InitEnv) (app : Application) (hwf : app.WellFormed) :
    ( Application.initialize env app).1.WellFormed := by
  unfold Application.initialize
  split
  · exact hwf
  · dsimp only
    split
    · exact hwf
    · split
      · exact hwf
      · split
        · intro h
          have hs := initializeSystems_spec env
            ((({ app with m_window := ( Window.initialize env.glfwInitOk env.createWindowOk
              app.m_window).1 }.log (Call.windowInitialize ( Window.initialize env.glfwInitOk
              env.createWindowOk app.m_window).2)).log
              (Call.glewInit env.glewOk)).registerWindowCallbacks)
          exact hs.2.2.1.trans (hwf (hs.2.1.symm.trans h))
        · intro _; rfl

theorem run_of_not_initialized (cb : Callbacks) (fuel : Nat) (frames : List Frame)
    (app : Application) (h : app.m_initialized = false) :
    app.run cb fuel frames = some ⟨app, true⟩ := by
  simp [Application.run, h]

/-! ## Claims -/

/-- C1: for every positive fixed step and every run of `Application::run` that starts with
accumulator 0 and consumes per-frame deltas `d_i ≥ 0` (a clock that does not go
backwards), the run completes given enough fuel for its fixed-step loops, and the number
of `fixedUpdate` invocations over the run equals `floor ((sum of d_i) / fixedStep)`. -/
theorem run_fixedUpdate_count_eq_floor (cb : Callbacks) (hcb : cb.KeepsFixedStep)
    (frames : List Frame) (app : Application) (hstep : 0 < app.m_fixedTimeStep)
    (hacc : app.m_accumulator = 0) (hd : 0 ≤ app.m_timeManager.m_deltaTime)
    (hclock : List.Chain (fun x y : ℚ => x ≤ y) app.m_timeManager.m_lastTime
      (frames.map Frame.now)) :
    ∃ fuel0 : Nat, ∀ fuel : Nat, fuel0 ≤ fuel → ∃ (r : RunResult) (new : List Call),
      app.run cb fuel frames = some r ∧ r.app.trace = app.trace ++ new ∧
      ⌊(deltasRead new).sum / app.m_fixedTimeStep⌋ = (fixedUpdateCount new : ℕ) := by
  obtain ⟨fuel0, h⟩ := run_accounting cb hcb frames app hstep hacc hd hclock
  refine ⟨fuel0, fun fuel hfuel => ?_⟩
  obtain ⟨r, new, hrun, htr, h0, h1, heq⟩ := h fuel hfuel
  exact ⟨r, new, hrun, htr, floor_of_accounting _ _ _ _ hstep h0 h1 heq⟩

/-- Witness of C1: the sample application with step 1/50 s and clock samples 0.03 s
apart. -/
theorem run_fixedUpdate_count_eq_floor_witness :
    (0 : ℚ) < sampleApp50.m_fixedTimeStep ∧ sampleApp50.m_accumulator = 0 ∧
    ∃ fuel0 : Nat, ∀ fuel : Nat, fuel0 ≤ fuel → ∃ (r : RunResult) (new : List Call),
      sampleApp50.run noCallbacks fuel sampleFrames = some r ∧
      r.app.trace = sampleApp50.trace ++ new ∧
      ⌊(deltasRead new).sum / sampleApp50.m_fixedTimeStep⌋ = (fixedUpdateCount new : ℕ) :=
  ⟨by decide!, by decide!,
    run_fixedUpdate_count_eq_floor noCallbacks (noCallbacks_all _) sampleFrames sampleApp50
      (by decide!) (by decide!) (by decide!)
      (List.Chain.cons (by decide!) (List.Chain.cons (by decide!)
        (List.Chain.cons (by decide!) List.Chain.nil)))⟩

/-- C2: for every positive fixed step and every run of `Application::run` that starts with
accumulator 0 and consumes per-frame deltas `d_i ≥ 0`, the accumulator after the last
iteration equals `sum - fixedStep * floor (sum / fixedStep)`, the sum of the deltas modulo
the fixed step. -/
theorem run_accumulator_eq_mod (cb : Callbacks) (hcb : cb.KeepsFixedStep)
    (frames : List Frame) (app : Application) (hstep : 0 < app.m_fixedTimeStep)
    (hacc : app.m_accumulator = 0) (hd : 0 ≤ app.m_timeManager.m_deltaTime)
    (hclock : List.Chain (fun x y : ℚ => x ≤ y) app.m_timeManager.m_lastTime
      (frames.map Frame.now)) :
    ∃ fuel0 : Nat, ∀ fuel : Nat, fuel0 ≤ fuel → ∃ (r : RunResult) (new : List Call),
      app.run cb fuel frames = some r ∧ r.app.trace = app.trace ++ new ∧
      r.app.m_accumulator = (deltasRead new).sum -
        app.m_fixedTimeStep * ⌊(deltasRead new).sum / app.m_fixedTimeStep⌋ := by
  obtain ⟨fuel0, h⟩ := run_accounting cb hcb frames app hstep hacc hd hclock
  refine ⟨fuel0, fun fuel hfuel => ?_⟩
  obtain ⟨r, new, hrun, htr, h0, h1, heq⟩ := h fuel hfuel
  refine ⟨r, new, hrun, htr, ?_⟩
  rw [floor_of_accounting _ _ _ _ hstep h0 h1 heq]
  push_cast
  linarith

/-- Witness of C2: the sample application with step 1/50 s and clock samples 0.03 s
apart. -/
theorem run_accumulator_eq_mod_witness :
    (0 : ℚ) < sampleApp50.m_fixedTimeStep ∧ sampleApp50.m_accumulator = 0 ∧
    ∃ fuel0 : Nat, ∀ fuel : Nat, fuel0 ≤ fuel → ∃ (r : RunResult) (new : List Call),
      sampleApp50.run noCallbacks fuel sampleFrames = some r ∧
      r.app.trace = sampleApp50.trace ++ new ∧
      r.app.m_accumulator = (deltasRead new).sum -
        sampleApp50.m_fixedTimeStep * ⌊(deltasRead new).sum / sampleApp50.m_fixedTimeStep⌋ :=
  ⟨by decide!, by decide!,
    run_accumulator_eq_mod noCallbacks (noCallbacks_all _) sampleFrames sampleApp50
      (by decide!) (by decide!) (by decide!)
      (List.Chain.cons (by decide!) (List.Chain.cons (by decide!)
        (List.Chain.cons (by decide!) List.Chain.nil)))⟩

/-- The sample run evaluated: three iterations read the deltas 0, 0.03 and 0.03, make
`floor (0.06 / 0.02) = 3` fixed updates and leave the accumulator at 0. -/
theorem sample_run_counts :
    (sampleApp50.run noCallbacks 2 sampleFrames).map
      (fun r => (deltasRead r.app.trace, fixedUpdateCount r.app.trace, r.app.m_accumulator)) =
      some ([0, 3 / 100, 3 / 100], 3, 0) := by
  decide!

/-- C3 (the code at a failing input): the application is initialized at clock 0; the first
iteration samples the clock at 0.5 s and the second at 0.5 s + 1/60 s. The deltas the
two iterations read, add to the accumulator and pass to the variable step are 0 and
0.5 s: the first iteration uses the zero left by the constructor, and the second one
the time that elapsed before the first clock sample. -/
theorem run_reads_stale_delta :
    (sampleApp.run noCallbacks 30 [⟨1 / 2, []⟩, ⟨1 / 2 + 1 / 60, []⟩]).map
      (fun r => (deltasRead r.app.trace, r.app.m_deltaTime)) = some ([0, 1 / 2], 1 / 2) := by
  decide!

theorem filter_iterationCalls (step d : ℚ) (upd rnd : Option (List HostOp))
    (inner : List EventCall) :
    (iterationCalls step d 0 upd rnd inner).filter (fun c => !c.isTimeManager) =
      iterationCalls step d 0 upd rnd inner := by
  cases upd <;> cases rnd <;> rfl

theorem iterationCalls_append (step d : ℚ) (k : Nat) (upd rnd : Option (List HostOp))
    (inner : List EventCall) :
    fixedCalls step k ++ iterationCalls step d 0 upd rnd inner =
      iterationCalls step d k upd rnd inner := by
  simp [iterationCalls, fixedCalls]

/-- C4: an iteration of `Application::run` that reads delta `d` and whose fixed-step loop
makes `k` passes completes (with any fuel `≥ k`), and the calls it makes to the physics,
scene, audio and renderer collaborators, to the host callbacks and to the window are
exactly: `k` times `physics.update(fixedStep)`, `scene.fixedUpdate(fixedStep)`; then
`scene.update(d)`, `audio.update(d)` and the update callback with `d` if set; then
`renderer.clear`, `scene.render`, the render callback if set, `renderer.present`; then
`swapBuffers`; then `pollEvents`. -/
theorem iteration_call_sequence (cb : Callbacks) (fuel k : Nat) (frame : Frame)
    (app : Application) (hk : k ≤ fuel)
    (hpass : DrainPasses app.m_fixedTimeStep
      (app.m_accumulator + app.m_timeManager.getDeltaTime) k) :
    ∃ (app1 : Application) (new : List Call) (upd rnd : Option (List HostOp))
      (inner : List EventCall),
      app.iteration cb fuel frame = some app1 ∧ app1.trace = app.trace ++ new ∧
      app1.m_deltaTime = app.m_timeManager.getDeltaTime ∧
      upd.isSome = cb.m_updateCallback.isSome ∧ rnd.isSome = cb.m_renderCallback.isSome ∧
      new.filter (fun c => !c.isTimeManager) =
        iterationCalls app.m_fixedTimeStep app.m_timeManager.getDeltaTime k upd rnd inner := by
  obtain ⟨upd, rnd, inner, hupd, hrnd, htr, -⟩ :=
    finish_calls cb frame (app.beginIteration.drained k)
  refine ⟨_, (Call.getDeltaTime app.m_timeManager.m_deltaTime ::
      fixedCalls app.m_fixedTimeStep k) ++
      (Call.timeUpdate frame.now :: iterationCalls app.m_fixedTimeStep
        app.m_timeManager.m_deltaTime 0 upd rnd inner), upd, rnd, inner,
    iteration_of_passes cb fuel k frame app hk hpass, ?_, ?_, hupd, hrnd, ?_⟩
  · rw [htr]
    simp [Application.drained, Application.beginIteration]
  · rw [finish_stable loopStable_deltaTime cb cb.all_true frame]
    rfl
  · rw [List.filter_append, List.filter_cons_of_neg (by simp [Call.isTimeManager]),
      List.filter_cons_of_neg (by simp [Call.isTimeManager]), filter_fixedCalls,
      filter_iterationCalls, iterationCalls_append]
    rfl

/-- Witness of C4: the sample application with step 1/50 s whose clock last measured
0.03 s; the fixed-step loop makes one pass. -/
theorem iteration_call_sequence_witness :
    DrainPasses sampleAppLate.m_fixedTimeStep
      (sampleAppLate.m_accumulator + sampleAppLate.m_timeManager.getDeltaTime) 1 ∧
    ∃ (app1 : Application) (new : List Call) (upd rnd : Option (List HostOp))
      (inner : List EventCall),
      sampleAppLate.iteration noCallbacks 1 ⟨6 / 100, []⟩ = some app1 ∧
      app1.trace = sampleAppLate.trace ++ new ∧
      app1.m_deltaTime = sampleAppLate.m_timeManager.getDeltaTime ∧
      upd.isSome = noCallbacks.m_updateCallback.isSome ∧
      rnd.isSome = noCallbacks.m_renderCallback.isSome ∧
      new.filter (fun c => !c.isTimeManager) =
        iterationCalls sampleAppLate.m_fixedTimeStep sampleAppLate.m_timeManager.getDeltaTime 1
          upd rnd inner :=
  have e1 : sampleAppLate.m_fixedTimeStep = 1 / 50 := by decide!
  have e2 : sampleAppLate.m_accumulator = 0 := by decide!
  have e3 : sampleAppLate.m_timeManager.getDeltaTime = 3 / 100 := by decide!
  have h : DrainPasses sampleAppLate.m_fixedTimeStep
      (sampleAppLate.m_accumulator + sampleAppLate.m_timeManager.getDeltaTime) 1 := by
    rw [e1, e2, e3]
    exact ⟨fun j hj => by interval_cases j; norm_num, by norm_num⟩
  ⟨h, iteration_call_sequence noCallbacks 1 1 ⟨6 / 100, []⟩ sampleAppLate (le_refl 1) h⟩

/-- C5: if `stop()` is called during an iteration of `Application::run` (by the host in
the update callback, in the render callback or in an event callback fired inside
`pollEvents`, or by the key handler on ESC), the calls of that iteration still end with
the whole render pass, `swapBuffers` and `pollEvents`, and `run` returns in the state
that iteration left: no call of a further iteration is made. -/
theorem stop_completes_iteration (cb : Callbacks) (fuel : Nat) (frame : Frame)
    (rest : List Frame) (app app1 : Application) (new : List Call)
    (hinit : app.m_initialized = true)
    (hloop : (app.m_running && !app.m_window.shouldClose) = true)
    (hiter : app.iteration cb fuel frame = some app1)
    (hnew : app1.trace = app.trace ++ new) (hstop : StopIssued new) :
    (∃ (pre : List Call) (rnd : Option (List HostOp)) (inner : List EventCall),
      new = pre ++ renderSwapPoll rnd inner) ∧
    app.run cb fuel (frame :: rest) = some ⟨app1, true⟩ := by
  obtain ⟨k, -, he⟩ := iteration_some cb fuel frame app app1 hiter
  obtain ⟨upd, rnd, inner, -, -, htr, hrun⟩ :=
    finish_calls cb frame (app.beginIteration.drained k)
  have hshape : new = (Call.getDeltaTime app.m_timeManager.m_deltaTime ::
      fixedCalls app.m_fixedTimeStep k) ++
      (Call.timeUpdate frame.now :: iterationCalls app.m_fixedTimeStep
        app.m_timeManager.m_deltaTime 0 upd rnd inner) := by
    rw [← he, hnew] at htr
    have : app.trace ++ new = app.trace ++ ((Call.getDeltaTime app.m_timeManager.m_deltaTime ::
        fixedCalls app.m_fixedTimeStep k) ++
        (Call.timeUpdate frame.now :: iterationCalls app.m_fixedTimeStep
          app.m_timeManager.m_deltaTime 0 upd rnd inner)) := by
      rw [htr]
      simp [Application.drained, Application.beginIteration]
    exact List.append_cancel_left this
  have hnr : app1.m_running = false := by
    rw [he]
    apply hrun
    obtain ⟨c, hc, hs⟩ := hstop
    rw [hshape] at hc
    simp only [iterationCalls, fixedCalls, List.mem_append, List.mem_cons, List.nil_append,
      List.not_mem_nil, or_false, false_or] at hc
    rcases hc with (rfl | hc) | rfl | ((((rfl | rfl) | hc) | rfl | rfl) | hc) | rfl | rfl | rfl
    · exact hs.elim
    · rcases mem_fixedCalls _ _ _ hc with rfl | rfl <;> exact hs.elim
    · exact hs.elim
    · exact hs.elim
    · exact hs.elim
    · cases upd with
      | none => cases hc
      | some ops =>
        simp only [updateCallbackCalls, List.mem_singleton] at hc
        subst hc
        exact Or.inl ⟨ops, rfl, hs⟩
    · exact hs.elim
    · exact hs.elim
    · cases rnd with
      | none => cases hc
      | some ops =>
        simp only [renderCallbackCalls, List.mem_singleton] at hc
        subst hc
        exact Or.inr (Or.inl ⟨ops, rfl, hs⟩)
    · exact hs.elim
    · exact hs.elim
    · exact Or.inr (Or.inr hs)
  constructor
  · refine ⟨(Call.getDeltaTime app.m_timeManager.m_deltaTime ::
      fixedCalls app.m_fixedTimeStep k) ++ (Call.timeUpdate frame.now ::
      ([Call.sceneUpdate app.m_timeManager.m_deltaTime,
        Call.audioUpdate app.m_timeManager.m_deltaTime] ++
        updateCallbackCalls app.m_timeManager.m_deltaTime upd)), rnd, inner, ?_⟩
    rw [hshape]
    simp [iterationCalls, fixedCalls, renderSwapPoll]
  · simp only [Application.run, hinit, Bool.not_true, Bool.false_eq_true, if_false]
    rw [Application.runLoop, if_pos hloop, hiter]
    exact runLoop_of_not_looping cb fuel rest app1 (by rw [hnr]; rfl)

/-- Witness of C5: the update callback of the sample host calls `stop()` in the first
iteration; a second frame is available but not consumed. -/
theorem stop_completes_iteration_witness :
    StopIssued stopCalls ∧
    (∃ (pre : List Call) (rnd : Option (List HostOp)) (inner : List EventCall),
      stopCalls = pre ++ renderSwapPoll rnd inner) ∧
    sampleApp.run stopInUpdate 1 [⟨1 / 60, []⟩, ⟨2 / 60, []⟩] = some ⟨stopState, true⟩ :=
  have hstop : StopIssued stopCalls :=
    ⟨Call.updateCallback 0 [HostOp.stop], by simp [stopCalls], List.mem_singleton.mpr rfl⟩
  ⟨hstop, stop_completes_iteration stopInUpdate 1 ⟨1 / 60, []⟩ [⟨2 / 60, []⟩] sampleApp stopState
    stopCalls (by decide!) (by decide!) (by decide!) (by decide!) hstop⟩

/-- C6: `Application::run` on an application whose `initialize()` has not succeeded
returns at once: it makes no call (the trace is unchanged) and leaves every field of the
state as it was, whatever the callbacks and the pending inputs. -/
theorem run_uninitialized_noop (cb : Callbacks) (fuel : Nat) (frames : List Frame)
    (app : Application) (h : app.m_initialized = false) :
    app.run cb fuel frames = some ⟨app, true⟩ :=
  run_of_not_initialized cb fuel frames app h

/-- Witness of C6: a freshly constructed application, with frames pending. -/
theorem run_uninitialized_noop_witness :
    Application.new.m_initialized = false ∧
    Application.new.run stopInUpdate 0 sampleFrames = some ⟨Application.new, true⟩ :=
  ⟨rfl, run_uninitialized_noop stopInUpdate 0 sampleFrames Application.new rfl⟩

/-- C7: `Application::initialize` on an already initialized application returns `true` and
changes nothing: no call is made (window, subsystems and callback registrations are left
alone) and every field, the running flag included, keeps its value. -/
theorem initialize_idempotent (env : InitEnv) (app : Application)
    (h : app.m_initialized = true) : Application.initialize env app = (app, true) := by
  simp [ Application.initialize, h]

/-- Witness of C7: the sample application after `stop()`; it is still stopped after a
second `initialize()`. -/
theorem initialize_idempotent_witness :
    sampleApp.stop.m_initialized = true ∧ sampleApp.stop.isRunning = false ∧
    Application.initialize {} sampleApp.stop = (sampleApp.stop, true) :=
  ⟨by decide!, by decide!, initialize_idempotent {} sampleApp.stop (by decide!)⟩

/-- C8: `Application::initialize` on an application that is not yet initialized returns
`false` exactly when window initialization, GLEW initialization or the initialization of
one of the five subsystems fails; no call follows a failed initialization call; and after
a `false` return the running flag and the initialized flag are false, so that a following
`run()` returns at once without a call. -/
theorem initialize_false_iff_step_fails (env : InitEnv) (app : Application)
    (hni : app.m_initialized = false) (hwf : app.WellFormed) :
    (( Application.initialize env app).2 = false ↔
      (( Window.initialize env.glfwInitOk env.createWindowOk app.m_window).2 = false ∨
        env.glewOk = false ∨ env.timeOk = false ∨ env.rendererOk = false ∨
        env.sceneOk = false ∨ env.audioOk = false ∨ env.physicsOk = false)) ∧
    (∃ new : List Call, ( Application.initialize env app).1.trace = app.trace ++ new ∧
      ∀ c ∈ new.dropLast, c.failed = false) ∧
    (( Application.initialize env app).2 = false →
      Application.isRunning ( Application.initialize env app).1 = false ∧
      ( Application.initialize env app).1.m_initialized = false ∧
      ∀ (cb : Callbacks) (fuel : Nat) (frames : List Frame),
        Application.run cb fuel frames ( Application.initialize env app).1 =
          some ⟨( Application.initialize env app).1, true⟩) := by
  have hrun : app.m_running = false := by
    cases h : app.m_running with
    | false => rfl
    | true => rw [hwf h] at hni; cases hni
  have hflags : ( Application.initialize env app).2 = false →
      ( Application.initialize env app).1.m_running = false ∧
      ( Application.initialize env app).1.m_initialized = false := by
    unfold Application.initialize
    rw [if_neg (by simp [hni])]
    dsimp only
    split
    · intro _; exact ⟨hrun, hni⟩
    · split
      · intro _; exact ⟨hrun, hni⟩
      · split
        · intro _
          have h := initializeSystems_spec env
            ((({ app with m_window := ( Window.initialize env.glfwInitOk env.createWindowOk
              app.m_window).1 }.log (Call.windowInitialize ( Window.initialize env.glfwInitOk
              env.createWindowOk app.m_window).2)).log
              (Call.glewInit env.glewOk)).registerWindowCallbacks)
          exact ⟨h.2.1.trans hrun, h.2.2.1.trans hni⟩
        · intro h; cases h
  refine ⟨?_, ?_, fun h => ⟨(hflags h).1, (hflags h).2, fun cb fuel frames =>
    run_of_not_initialized cb fuel frames _ (hflags h).2⟩⟩
  · unfold Application.initialize
    rw [if_neg (by simp [hni])]
    dsimp only
    have hs := fun a => (initializeSystems_spec env a).1
    cases hw : ( Window.initialize env.glfwInitOk env.createWindowOk app.m_window).2
    · simp
    · cases hg : env.glewOk
      · simp
      · simp only [Bool.not_true, Bool.false_eq_true, if_false, hs]
        cases env.timeOk <;> cases env.rendererOk <;> cases env.sceneOk <;>
          cases env.audioOk <;> cases env.physicsOk <;> simp
  · unfold Application.initialize
    rw [if_neg (by simp [hni])]
    dsimp only
    cases hw : ( Window.initialize env.glfwInitOk env.createWindowOk app.m_window).2
    · exact ⟨[Call.windowInitialize false], by simp [Application.log], by simp⟩
    · cases hg : env.glewOk
      · exact ⟨[Call.windowInitialize true, Call.glewInit false], by simp [Application.log],
          by simp [Call.failed]⟩
      · obtain ⟨-, -, -, new, hne, htr, hfail⟩ := initializeSystems_spec env
          ((({ app with m_window := ( Window.initialize env.glfwInitOk env.createWindowOk
            app.m_window).1 }.log (Call.windowInitialize true)).log
            (Call.glewInit true)).registerWindowCallbacks)
        refine ⟨[Call.windowInitialize true, Call.glewInit true, Call.setWindowResizeCallback,
          Call.setKeyCallback, Call.setMouseButtonCallback, Call.setMouseMoveCallback,
          Call.setMouseScrollCallback] ++ new, ?_, ?_⟩
        · simp only [Bool.not_true, Bool.false_eq_true, if_false]
          split
          · rw [htr, registerWindowCallbacks_trace]
            simp [Application.log]
          · dsimp only
            rw [htr, registerWindowCallbacks_trace]
            simp [Application.log]
        · rw [List.dropLast_append_of_ne_nil _ hne]
          intro c hc
          rcases List.mem_append.mp hc with h | h
          · simp only [List.mem_cons, List.mem_singleton, List.not_mem_nil, or_false] at h
            rcases h with rfl | rfl | rfl | rfl | rfl | rfl | rfl <;> rfl
          · exact hfail c h

/-- Witness of C8: a freshly constructed application whose scene manager fails to
initialize. -/
theorem initialize_false_iff_step_fails_witness :
    Application.new.m_initialized = false ∧
    ( Application.initialize sceneFails Application.new).2 = false ∧
    ((( Application.initialize sceneFails Application.new).2 = false ↔
      (( Window.initialize sceneFails.glfwInitOk sceneFails.createWindowOk
          Application.new.m_window).2 = false ∨
        sceneFails.glewOk = false ∨ sceneFails.timeOk = false ∨ sceneFails.rendererOk = false ∨
        sceneFails.sceneOk = false ∨ sceneFails.audioOk = false ∨ sceneFails.physicsOk = false)) ∧
    (∃ new : List Call,
      ( Application.initialize sceneFails Application.new).1.trace = Application.new.trace ++ new ∧
      ∀ c ∈ new.dropLast, c.failed = false) ∧
    (( Application.initialize sceneFails Application.new).2 = false →
      Application.isRunning ( Application.initialize sceneFails Application.new).1 = false ∧
      ( Application.initialize sceneFails Application.new).1.m_initialized = false ∧
      ∀ (cb : Callbacks) (fuel : Nat) (frames : List Frame),
        Application.run cb fuel frames ( Application.initialize sceneFails Application.new).1 =
          some ⟨( Application.initialize sceneFails Application.new).1, true⟩)) :=
  ⟨rfl, by decide!,
    initialize_false_iff_step_fails sceneFails Application.new rfl (fun h => by cases h)⟩

/-- C9 as stated fails: after a successful `initialize()` of a freshly constructed
application, and before any `run()`, `isRunning()` is already true. -/
theorem initialize_leaves_running_true :
    ( Application.initialize {} Application.new).2 = true ∧
    Application.isRunning ( Application.initialize {} Application.new).1 = true := by
  decide!

/-- C9 amended: a successful `initialize()` of an application that was not initialized
sets both the initialized flag and the running flag, so `isRunning()` is true before
`run()` is called; `run()` has no step that sets the running flag: called with the flag
false it returns at once in the same state. -/
theorem initialize_sets_running (env : InitEnv) (app : Application)
    (hni : app.m_initialized = false) (hok : ( Application.initialize env app).2 = true) :
    Application.isRunning ( Application.initialize env app).1 = true ∧
    ( Application.initialize env app).1.m_initialized = true ∧
    ∀ (cb : Callbacks) (fuel : Nat) (frames : List Frame) (a : Application),
      a.isRunning = false → a.run cb fuel frames = some ⟨a, true⟩ := by
  refine ⟨?_, ?_, ?_⟩
  · unfold Application.initialize at hok ⊢
    rw [if_neg (by simp [hni])] at hok ⊢
    dsimp only at hok ⊢
    split at hok
    · cases hok
    · split at hok
      · cases hok
      · split at hok
        · cases hok
        · rename_i h1 h2 h3
          rw [if_neg h1, if_neg h2, if_neg h3]
          rfl
  · unfold Application.initialize at hok ⊢
    rw [if_neg (by simp [hni])] at hok ⊢
    dsimp only at hok ⊢
    split at hok
    · cases hok
    · split at hok
      · cases hok
      · split at hok
        · cases hok
        · rename_i h1 h2 h3
          rw [if_neg h1, if_neg h2, if_neg h3]
  · intro cb fuel frames a ha
    have ha2 : a.m_running = false := ha
    unfold Application.run
    split
    · rfl
    · exact runLoop_of_not_looping cb fuel frames a (by rw [ha2]; rfl)

/-- Witness of C9 amended: a freshly constructed application and an environment in which
every initialization call succeeds. -/
theorem initialize_sets_running_witness :
    Application.new.m_initialized = false ∧
    Application.isRunning ( Application.initialize {} Application.new).1 = true ∧
    ( Application.initialize {} Application.new).1.m_initialized = true ∧
    ∀ (cb : Callbacks) (fuel : Nat) (frames : List Frame) (a : Application),
      a.isRunning = false → a.run cb fuel frames = some ⟨a, true⟩ :=
  ⟨rfl, initialize_sets_running {} Application.new rfl (by decide!)⟩

/-- C10 as stated fails: the sample application runs, the window is asked to close during
the first poll, `run()` returns, and `isRunning()` is still true. -/
theorem run_returns_still_running :
    (sampleApp.run noCallbacks 1 closeFrames).map (fun r => (r.returned, r.app.isRunning)) =
      some (true, true) := by
  decide!

theorem runLoop_returned (cb : Callbacks) (fuel : Nat) : ∀ (frames : List Frame)
    (app : Application) (r : RunResult), Application.runLoop cb fuel frames app = some r →
    r.returned = true → (r.app.m_running && !r.app.m_window.shouldClose) = false := by
  intro frames
  induction frames with
  | nil =>
    intro app r h hret
    simp only [Application.runLoop, Option.some.injEq] at h
    subst h
    have hret2 : (!(app.m_running && !app.m_window.shouldClose)) = true := hret
    show (app.m_running && !app.m_window.shouldClose) = false
    cases hc : (app.m_running && !app.m_window.shouldClose) with
    | false => rfl
    | true => rw [hc] at hret2; cases hret2
  | cons f rest ih =>
    intro app r h hret
    rw [Application.runLoop] at h
    split at h
    · cases hi : app.iteration cb fuel f with
      | none => rw [hi] at h; cases h
      | some a =>
        rw [hi] at h
        exact ih a r h hret
    · rename_i hc
      injection h with h
      subst h
      exact Bool.eq_false_iff.mpr hc

/-- C10 amended: whenever `Application::run` returns on an initialized application the
loop condition is false: `isRunning()` is false, or the window reports close-requested.
So `isRunning()` is false when the loop ended because `stop()` was called and the window
does not ask to close; it is not reset when the loop ended because the window reported
close-requested. -/
theorem run_returns_loop_condition_false (cb : Callbacks) (fuel : Nat) (frames : List Frame)
    (app : Application) (r : RunResult) (hinit : app.m_initialized = true)
    (hrun : app.run cb fuel frames = some r) (hret : r.returned = true) :
    r.app.isRunning = false ∨ r.app.m_window.shouldClose = true := by
  simp only [Application.run, hinit, Bool.not_true, Bool.false_eq_true, if_false] at hrun
  have h := runLoop_returned cb fuel frames app r hrun hret
  simp only [Bool.and_eq_false_imp, Bool.not_eq_eq_eq_not, Bool.not_false] at h
  show r.app.m_running = false ∨ r.app.m_window.shouldClose = true
  cases hr : r.app.m_running with
  | false => exact Or.inl rfl
  | true => exact Or.inr (h hr)

/-- Witness of C10 amended: the run of the sample host whose update callback calls
`stop()`. -/
theorem run_returns_loop_condition_false_witness :
    sampleApp.m_initialized = true ∧
    sampleApp.run stopInUpdate 1 [⟨1 / 60, []⟩, ⟨2 / 60, []⟩] = some ⟨stopState, true⟩ ∧
    (stopState.isRunning = false ∨ stopState.m_window.shouldClose = true) :=
  ⟨by decide!, by decide!,
    run_returns_loop_condition_false stopInUpdate 1 [⟨1 / 60, []⟩, ⟨2 / 60, []⟩] sampleApp
      ⟨stopState, true⟩ (by decide!) (by decide!) rfl⟩

/-- C11 (the code at a failing input): the cursor was last seen at (4, 4) and one motion
event at (10, 10) is delivered inside `pollEvents`. While the event is being delivered
the delta is (6, 6); after `pollEvents` has returned `getMouseDelta()` is (0, 0), because
`updateInputState()` runs after `glfwPollEvents()`. -/
theorem pollEvents_discards_motion :
    (cursorApp.deliver noCallbacks (NativeEvent.cursorPos 10 10)).1.m_window.getMouseDelta =
      ⟨6, 6⟩ ∧
    (cursorApp.pollEvents noCallbacks [NativeEvent.cursorPos 10 10]).m_window.getMouseDelta =
      ⟨0, 0⟩ := by
  decide!

/-- C12: after any `Window::pollEvents` call, from any prior state and whatever the
callbacks do, `getMouseDelta()` and `getScrollDelta()` are (0, 0); in particular after a
call during which no motion event and no scroll event is delivered. -/
theorem pollEvents_resets_deltas (cb : Callbacks) (events : List NativeEvent)
    (app : Application) :
    (app.pollEvents cb events).m_window.getMouseDelta = ⟨0, 0⟩ ∧
    (app.pollEvents cb events).m_window.getScrollDelta = ⟨0, 0⟩ :=
  ⟨rfl, rfl⟩

/-- C14: on a native resize event with size `(w, h)` the window sets its width and height
to `(w, h)` whether or not a resize callback is registered; a registered callback (the
`Application` handler) is invoked once with `(w, h)`, on the state in which the fields are
already updated; title, fullscreen, vsync and resizable are unchanged. -/
theorem resize_updates_size (cb : Callbacks) (app : Application) (w h : Int) :
    (app.deliver cb (NativeEvent.resize w h)).1.m_window.getWidth = w ∧
    (app.deliver cb (NativeEvent.resize w h)).1.m_window.getHeight = h ∧
    (app.deliver cb (NativeEvent.resize w h)).1.m_window.m_config.title =
      app.m_window.m_config.title ∧
    (app.deliver cb (NativeEvent.resize w h)).1.m_window.m_config.fullscreen =
      app.m_window.m_config.fullscreen ∧
    (app.deliver cb (NativeEvent.resize w h)).1.m_window.m_config.vsync =
      app.m_window.m_config.vsync ∧
    (app.deliver cb (NativeEvent.resize w h)).1.m_window.m_config.resizable =
      app.m_window.m_config.resizable ∧
    (app.deliver cb (NativeEvent.resize w h)).2 =
      (if app.m_window.m_resizeCallback then [EventCall.setViewport 0 0 w h] else []) ∧
    app.deliver cb (NativeEvent.resize w h) =
      (if app.m_window.m_resizeCallback then
        Application.onWindowResize w h
          { app with m_window := app.m_window.glfwWindowResizeCallback w h }
      else ({ app with m_window := app.m_window.glfwWindowResizeCallback w h }, [])) := by
  cases hcb : app.m_window.m_resizeCallback <;>
    simp [Application.deliver, Application.onWindowResize, Window.glfwWindowResizeCallback,
      Window.getWidth, Window.getHeight, hcb]

/-- C16: `Window::shouldClose` is a total query that answers `true` on a window without
native handle; the handle is absent on a constructed window that was never initialized,
after a failed `initialize()` of such a window, and after `shutdown()` of any window. -/
theorem shouldClose_without_handle (w : Window) (h : w.m_window = false) :
    w.shouldClose = true ∧
    (∀ config : WindowConfig, (Window.new config).m_window = false ∧
      (Window.new config).shouldClose = true) ∧
    (∀ glfwInitOk createOk : Bool, ( Window.initialize glfwInitOk createOk w).2 = false →
      ( Window.initialize glfwInitOk createOk w).1.m_window = false ∧
      ( Window.initialize glfwInitOk createOk w).1.shouldClose = true) ∧
    (∀ v : Window, v.shutdown.m_window = false ∧ v.shutdown.shouldClose = true) := by
  refine ⟨by simp [Window.shouldClose, h], fun _ => ⟨rfl, rfl⟩, ?_, ?_⟩
  · intro g c hf
    cases g <;> cases c <;>
      simp_all [ Window.initialize, Window.issue, Window.shouldClose]
  · intro v
    cases hv : v.m_window <;> simp [Window.shutdown, Window.shouldClose, Window.issue, hv]

/-- Witness of C16: a window constructed with the default configuration. -/
theorem shouldClose_without_handle_witness :
    (Window.new {}).m_window = false ∧ (Window.new {}).shouldClose = true ∧
    (∀ config : WindowConfig, (Window.new config).m_window = false ∧
      (Window.new config).shouldClose = true) ∧
    (∀ glfwInitOk createOk : Bool,
      ( Window.initialize glfwInitOk createOk (Window.new {})).2 = false →
      ( Window.initialize glfwInitOk createOk (Window.new {})).1.m_window = false ∧
      ( Window.initialize glfwInitOk createOk (Window.new {})).1.shouldClose = true) ∧
    (∀ v : Window, v.shutdown.m_window = false ∧ v.shutdown.shouldClose = true) :=
  ⟨rfl, shouldClose_without_handle (Window.new {}) rfl⟩

/-! ## The key lookup -/

theorem glfwToKeyCode_outside (k : Int) (h : k < 32 ∨ 348 < k) :
    Window.glfwToKeyCode k = KeyCode.UNKNOWN ∧ KeyCode.isNamed k = false := by
  constructor
  · unfold Window.glfwToKeyCode
    simp only [GLFW_KEY_A, GLFW_KEY_Z, GLFW_KEY_0, GLFW_KEY_9, GLFW_KEY_F1, GLFW_KEY_F12,
      GLFW_KEY_SPACE, GLFW_KEY_APOSTROPHE, GLFW_KEY_COMMA, GLFW_KEY_MINUS, GLFW_KEY_PERIOD,
      GLFW_KEY_SLASH, GLFW_KEY_SEMICOLON, GLFW_KEY_EQUAL, GLFW_KEY_LEFT_BRACKET,
      GLFW_KEY_BACKSLASH, GLFW_KEY_RIGHT_BRACKET, GLFW_KEY_GRAVE_ACCENT, GLFW_KEY_ESCAPE,
      GLFW_KEY_ENTER, GLFW_KEY_TAB, GLFW_KEY_BACKSPACE, GLFW_KEY_INSERT, GLFW_KEY_DELETE,
      GLFW_KEY_RIGHT, GLFW_KEY_LEFT, GLFW_KEY_DOWN, GLFW_KEY_UP, GLFW_KEY_PAGE_UP,
      GLFW_KEY_PAGE_DOWN, GLFW_KEY_HOME, GLFW_KEY_END, GLFW_KEY_CAPS_LOCK,
      GLFW_KEY_SCROLL_LOCK, GLFW_KEY_NUM_LOCK, GLFW_KEY_PRINT_SCREEN, GLFW_KEY_PAUSE,
      GLFW_KEY_LEFT_SHIFT, GLFW_KEY_LEFT_CONTROL, GLFW_KEY_LEFT_ALT, GLFW_KEY_LEFT_SUPER,
      GLFW_KEY_RIGHT_SHIFT, GLFW_KEY_RIGHT_CONTROL, GLFW_KEY_RIGHT_ALT, GLFW_KEY_RIGHT_SUPER,
      GLFW_KEY_MENU]
    repeat rw [if_neg (by omega)]
  · unfold KeyCode.isNamed
    simp only [KeyCode.SPACE, KeyCode.APOSTROPHE, KeyCode.COMMA, KeyCode.MINUS,
      KeyCode.PERIOD, KeyCode.SLASH, KeyCode.SEMICOLON, KeyCode.EQUAL, KeyCode.LEFT_BRACKET,
      KeyCode.BACKSLASH, KeyCode.RIGHT_BRACKET, KeyCode.GRAVE_ACCENT, Bool.or_eq_false_iff,
      beq_eq_false_iff_ne, decide_eq_false_iff_not]
    omega

theorem glfwToKeyCode_inside (k : Int) (h1 : 32 ≤ k) (h2 : k ≤ 348) :
    Window.glfwToKeyCode k = if KeyCode.isNamed k then k else KeyCode.UNKNOWN := by
  interval_cases k <;> rfl

/-- C17: `Window::glfwToKeyCode` is a total lookup: for every integer `k`, if `k` is the
numeric value of a named key of `KeyCode` the result is the key with value `k`, and for
every other `k` the result is `KeyCode::UNKNOWN` (-1); so for F13 (302), the keypad keys
(320 and 336), the world keys (161, 162) and negative values. -/
theorem glfwToKeyCode_lookup (k : Int) :
    Window.glfwToKeyCode k = (if KeyCode.isNamed k then k else KeyCode.UNKNOWN) ∧
    KeyCode.UNKNOWN = -1 ∧
    Window.glfwToKeyCode 302 = KeyCode.UNKNOWN ∧ Window.glfwToKeyCode 320 = KeyCode.UNKNOWN ∧
    Window.glfwToKeyCode 336 = KeyCode.UNKNOWN ∧ Window.glfwToKeyCode 161 = KeyCode.UNKNOWN ∧
    Window.glfwToKeyCode 162 = KeyCode.UNKNOWN ∧ Window.glfwToKeyCode (-7) = KeyCode.UNKNOWN := by
  refine ⟨?_, rfl, rfl, rfl, rfl, rfl, rfl, rfl⟩
  by_cases h : k < 32 ∨ 348 < k
  · obtain ⟨h1, h2⟩ := glfwToKeyCode_outside k h
    rw [h1, h2]
    rfl
  · exact glfwToKeyCode_inside k (by omega) (by omega)

/-! ## Fullscreen toggling -/

theorem setFullscreen_of_eq (b : Bool) (w : Window) (h : w.isFullscreen = b) :
    w.setFullscreen b = w := by
  have h2 : w.m_config.fullscreen = b := h
  simp [Window.setFullscreen, h2]

theorem isFullscreen_setFullscreen (b : Bool) (w : Window) :
    (w.setFullscreen b).isFullscreen = b := by
  unfold Window.setFullscreen
  by_cases h : w.m_config.fullscreen = b
  · simp [h, Window.isFullscreen]
  · have h2 : (w.m_config.fullscreen == b) = false := by simpa using h
    rw [h2]
    simp only [Bool.false_eq_true, if_false]
    split
    · split <;> rfl
    · rfl

/-- C15: `Window::setFullscreen(b)` on a window whose `isFullscreen()` already equals `b`
changes no field and issues no GLFW call. Hence `setFullscreen(b)` twice leaves the state
of a single `setFullscreen(b)`, and two consecutive `setFullscreen(true)` calls on a
windowed window with a handle issue exactly one geometry change. -/
theorem setFullscreen_noop_when_equal (b : Bool) (w : Window) (h : w.isFullscreen = b) :
    w.setFullscreen b = w ∧
    (∀ v : Window, (v.setFullscreen b).setFullscreen b = v.setFullscreen b) ∧
    (∀ v : Window, v.m_window = true → v.isFullscreen = false →
      geometryChanges ((v.setFullscreen true).setFullscreen true).native =
        geometryChanges v.native + 1) := by
  refine ⟨setFullscreen_of_eq b w h, fun v => setFullscreen_of_eq b _
    (isFullscreen_setFullscreen b v), ?_⟩
  intro v hv hf
  rw [setFullscreen_of_eq true _ (isFullscreen_setFullscreen true v)]
  have hf2 : v.m_config.fullscreen = false := hf
  unfold Window.setFullscreen
  simp only [hf2, hv, Bool.false_eq_true, if_false, if_true, beq_iff_eq]
  cases v.videoMode <;>
    simp [geometryChanges, Window.issue, List.countP_append, NativeCall.isGeometry]

/-- Witness of C15: the window of the sample application, which is windowed. -/
theorem setFullscreen_noop_when_equal_witness :
    sampleApp.m_window.isFullscreen = false ∧
    sampleApp.m_window.setFullscreen false = sampleApp.m_window ∧
    (∀ v : Window, (v.setFullscreen false).setFullscreen false = v.setFullscreen false) ∧
    (∀ v : Window, v.m_window = true → v.isFullscreen = false →
      geometryChanges ((v.setFullscreen true).setFullscreen true).native =
        geometryChanges v.native + 1) :=
  ⟨by decide!, setFullscreen_noop_when_equal false sampleApp.m_window (by decide!)⟩

/-! ## Events handed to the host -/

theorem eventsDelivered_dispatch (cb : Callbacks) (ev : Event) (app : Application) :
    eventsDelivered (app.dispatch cb ev).2 = if cb.m_eventCallback.isSome then [ev] else [] := by
  unfold Application.dispatch
  cases cb.m_eventCallback <;> simp [eventsDelivered]

theorem eventsDelivered_onKeyPress (cb : Callbacks) (key : KeyCode) (action : InputAction)
    (mods : Int) (app : Application) :
    eventsDelivered (app.onKeyPress cb key action mods).2 =
      if cb.m_eventCallback.isSome then [keyEvent key] else [] := by
  have h := fun a => eventsDelivered_dispatch cb (keyEvent key) a
  simp only [eventsDelivered, keyEvent] at h
  simp only [Application.onKeyPress, eventsDelivered, keyEvent, List.filterMap_append, h]
  split
  · split <;> simp
  · simp

/-- C18: each of the four handlers hands exactly one event to a registered host event
callback and none when no callback is registered. `onKeyPress` gives "key_press" with the
key code converted to `uint32_t` as id (4294967295 for `UNKNOWN`) and a `KeyCode`-sized
payload; `onMouseButton` gives "mouse_button" with the button number as id and a
`MouseButton`-sized payload; `onMouseMove` and `onMouseScroll` give "mouse_move" and
"mouse_scroll" with id 0 and a `Vector2`-sized payload holding the two arguments;
`handled` is false in all four. -/
theorem handlers_dispatch_one_event (cb : Callbacks) (app : Application) (key : KeyCode)
    (button : MouseButton) (action : InputAction) (mods : Int) (x y : ℚ) :
    eventsDelivered (app.onKeyPress cb key action mods).2 =
      (if cb.m_eventCallback.isSome then
        [{ id := toEventID key, name := "key_press", data := EventData.key key,
           dataSize := sizeofKeyCode, handled := false }]
      else []) ∧
    eventsDelivered (app.onMouseButton cb button action mods).2 =
      (if cb.m_eventCallback.isSome then
        [{ id := toEventID button, name := "mouse_button", data := EventData.button button,
           dataSize := sizeofMouseButton, handled := false }]
      else []) ∧
    eventsDelivered (app.onMouseMove cb x y).2 =
      (if cb.m_eventCallback.isSome then
        [{ id := 0, name := "mouse_move", data := EventData.vec ⟨x, y⟩,
           dataSize := sizeofVector2, handled := false }]
      else []) ∧
    eventsDelivered (app.onMouseScroll cb x y).2 =
      (if cb.m_eventCallback.isSome then
        [{ id := 0, name := "mouse_scroll", data := EventData.vec ⟨x, y⟩,
           dataSize := sizeofVector2, handled := false }]
      else []) ∧
    toEventID KeyCode.UNKNOWN = 4294967295 ∧
    (0 ≤ button → button < 2 ^ 32 → (toEventID button : Int) = button) :=
  ⟨eventsDelivered_onKeyPress cb key action mods app, eventsDelivered_dispatch cb _ app,
    eventsDelivered_dispatch cb _ app, eventsDelivered_dispatch cb _ app, by decide,
    fun h0 h1 => by
      unfold toEventID
      rw [Int.emod_eq_of_lt h0 h1]
      exact Int.toNat_of_nonneg h0⟩

/-! ## The statistics window -/

/-- While the accumulated time stays below one second the calls only count. -/
theorem feedStatistics_below (ds : List ℚ) : ∀ app : Application, (∀ x ∈ ds, 0 ≤ x) →
    app.frameTimeAccumulator + ds.sum < 1 →
    app.feedStatistics ds = { app with
      frameTimeAccumulator := app.frameTimeAccumulator + ds.sum
      frameCount := app.frameCount + ds.length } := by
  induction ds with
  | nil =>
    intro app _ _
    simp [Application.feedStatistics]
  | cons d rest ih =>
    intro app hnn hlt
    have hrest : 0 ≤ rest.sum := List.sum_nonneg (fun x hx => hnn x (List.mem_cons_of_mem _ hx))
    rw [List.sum_cons] at hlt
    have hd : ¬ app.frameTimeAccumulator + d ≥ 1 := by
      intro h
      linarith
    have hstep : app.updateStatistics d = { app with
        frameTimeAccumulator := app.frameTimeAccumulator + d
        frameCount := app.frameCount + 1 } := by
      unfold Application.updateStatistics
      dsimp only
      rw [if_neg hd]
    show Application.feedStatistics rest (app.updateStatistics d) = _
    rw [hstep, ih _ (fun x hx => hnn x (List.mem_cons_of_mem _ hx)) (by dsimp only; linarith)]
    simp only [List.sum_cons, List.length_cons, Nat.cast_add, Nat.cast_one]
    congr 1
    · ring
    · ring

/-- In exact arithmetic, with the window kept per object: `updateStatistics` fed deltas
`d_i ≥ 0`, starting where the window is empty: while the accumulated time is below one
second the FPS and frame time are not touched; on the call at which the accumulated time
first reaches one second the FPS becomes (number of calls) / (accumulated time), the frame
time the reciprocal quotient, and the accumulator and the count are reset to 0. The
source computes on `float`, see `updateStatistics32_window`. -/
theorem updateStatistics_window (app : Application) (ds : List ℚ) (d : ℚ)
    (hacc : app.frameTimeAccumulator = 0) (hcount : app.frameCount = 0)
    (hnn : ∀ x ∈ ds, 0 ≤ x) (hlt : ds.sum < 1) (hge : 1 ≤ ds.sum + d) :
    (∀ pre suf : List ℚ, ds = pre ++ suf →
      (app.feedStatistics pre).m_fps = app.m_fps ∧
      (app.feedStatistics pre).m_frameTime = app.m_frameTime) ∧
    (app.feedStatistics (ds ++ [d])).m_fps = ((ds.length + 1 : ℕ) : ℚ) / (ds.sum + d) ∧
    (app.feedStatistics (ds ++ [d])).m_frameTime = (ds.sum + d) / ((ds.length + 1 : ℕ) : ℚ) ∧
    (app.feedStatistics (ds ++ [d])).frameTimeAccumulator = 0 ∧
    (app.feedStatistics (ds ++ [d])).frameCount = 0 := by
  have hall := feedStatistics_below ds app hnn (by rw [hacc]; linarith)
  have hlast : app.feedStatistics (ds ++ [d]) = (app.feedStatistics ds).updateStatistics d := by
    simp [Application.feedStatistics, List.foldl_append]
  have hfire : (app.feedStatistics ds).frameTimeAccumulator + d ≥ 1 := by
    rw [hall]
    dsimp only
    rw [hacc]
    linarith
  constructor
  · intro pre suf hds
    have hsuf : 0 ≤ suf.sum := List.sum_nonneg (fun x hx => hnn x (by rw [hds]; simp [hx]))
    have hpre := feedStatistics_below pre app
      (fun x hx => hnn x (by rw [hds]; simp [hx]))
      (by rw [hacc]; rw [hds, List.sum_append] at hlt; linarith)
    rw [hpre]
    exact ⟨rfl, rfl⟩
  · rw [hlast]
    unfold Application.updateStatistics
    dsimp only
    rw [if_pos hfire, hall]
    dsimp only
    rw [hacc, hcount]
    refine ⟨?_, ?_, rfl, rfl⟩
    · push_cast
      ring_nf
    · push_cast
      ring_nf

/-- Ten deltas of 1/10 s fed to the sample application, in exact arithmetic. -/
theorem updateStatistics_window_witness :
    (List.replicate 9 (1 / 10 : ℚ)).sum < 1 ∧ 1 ≤ (List.replicate 9 (1 / 10 : ℚ)).sum + 1 / 10 ∧
    ((∀ pre suf : List ℚ, List.replicate 9 (1 / 10 : ℚ) = pre ++ suf →
      (sampleApp.feedStatistics pre).m_fps = sampleApp.m_fps ∧
      (sampleApp.feedStatistics pre).m_frameTime = sampleApp.m_frameTime) ∧
    (sampleApp.feedStatistics (List.replicate 9 (1 / 10 : ℚ) ++ [1 / 10])).m_fps =
      (((List.replicate 9 (1 / 10 : ℚ)).length + 1 : ℕ) : ℚ) /
        ((List.replicate 9 (1 / 10 : ℚ)).sum + 1 / 10) ∧
    (sampleApp.feedStatistics (List.replicate 9 (1 / 10 : ℚ) ++ [1 / 10])).m_frameTime =
      ((List.replicate 9 (1 / 10 : ℚ)).sum + 1 / 10) /
        (((List.replicate 9 (1 / 10 : ℚ)).length + 1 : ℕ) : ℚ) ∧
    (sampleApp.feedStatistics (List.replicate 9 (1 / 10 : ℚ) ++ [1 / 10])).frameTimeAccumulator =
      0 ∧
    (sampleApp.feedStatistics (List.replicate 9 (1 / 10 : ℚ) ++ [1 / 10])).frameCount = 0) :=
  ⟨by decide!, by decide!,
    updateStatistics_window sampleApp (List.replicate 9 (1 / 10)) (1 / 10) (by decide!)
      (by decide!) (fun x hx => by rw [List.eq_of_mem_replicate hx]; norm_num) (by decide!)
      (by decide!)⟩

/-- Ten calls with 1/10 s evaluated in exact arithmetic: the FPS is untouched after nine
calls and is 10 / 1 = 10 after the tenth, with mean frame time 1/10 s. -/
theorem ten_frames_fps :
    (sampleApp.feedStatistics (List.replicate 9 (1 / 10))).m_fps = 0 ∧
    (sampleApp.feedStatistics (List.replicate 10 (1 / 10))).m_fps = 10 ∧
    (sampleApp.feedStatistics (List.replicate 10 (1 / 10))).m_frameTime = 1 / 10 := by
  decide!

/-! ## The ESC key -/

theorem performAll_m_running (ops : List HostOp) (app : Application)
    (h : HostOp.stop ∉ ops) : (app.performAll ops).m_running = app.m_running := by
  induction ops generalizing app with
  | nil => rfl
  | cons op ops ih =>
    show (Application.performAll ops (app.perform op)).m_running = app.m_running
    rw [ih _ (fun hm => h (List.mem_cons_of_mem _ hm))]
    cases op with
    | stop => exact absurd (List.mem_cons_self _ _) h
    | setTargetFPS fps => rfl
    | setFixedTimeStep timeStep => rfl
    | enableVSync enable => rfl
    | setWindowTitle title => rfl
    | windowSetFullscreen fullscreen => rfl

theorem dispatch_m_running (cb : Callbacks) (ev : Event) (app : Application)
    (hcb : ∀ f, cb.m_eventCallback = some f → ∀ e a, HostOp.stop ∉ f e a) :
    (app.dispatch cb ev).1.m_running = app.m_running := by
  unfold Application.dispatch
  cases hf : cb.m_eventCallback with
  | none => rfl
  | some f => exact performAll_m_running _ _ (hcb f hf ev app)

/-- C20: `Application::onKeyPress(key, action, mods)` calls `stop()` exactly when
`key = ESCAPE` and `action = PRESS`; with a host event callback that does not itself call
`stop()`, the running flag afterwards is false in that case and unchanged for every other
key and for ESCAPE with RELEASE or REPEAT; in every case the key event is handed to the
event callback (when one is set). -/
theorem onKeyPress_escape_stops (cb : Callbacks) (key : KeyCode) (action : InputAction)
    (mods : Int) (app : Application)
    (hcb : ∀ f, cb.m_eventCallback = some f → ∀ e a, HostOp.stop ∉ f e a) :
    (EventCall.stop ∈ (app.onKeyPress cb key action mods).2 ↔
      (key = KeyCode.ESCAPE ∧ action = InputAction.PRESS)) ∧
    (app.onKeyPress cb key action mods).1.m_running =
      (if key = KeyCode.ESCAPE ∧ action = InputAction.PRESS then false else app.m_running) ∧
    eventsDelivered (app.onKeyPress cb key action mods).2 =
      (if cb.m_eventCallback.isSome then [keyEvent key] else []) := by
  refine ⟨?_, ?_, eventsDelivered_onKeyPress cb key action mods app⟩
  · have hd : ∀ (ev : Event) (a : Application), EventCall.stop ∉ (a.dispatch cb ev).2 := by
      intro ev a
      unfold Application.dispatch
      cases cb.m_eventCallback <;> simp
    simp only [Application.onKeyPress, List.mem_append, hd, or_false]
    by_cases ha : action = InputAction.PRESS <;> by_cases hk : key = KeyCode.ESCAPE <;>
      simp [ha, hk]
  · simp only [Application.onKeyPress]
    rw [dispatch_m_running cb _ _ hcb]
    by_cases ha : action = InputAction.PRESS <;> by_cases hk : key = KeyCode.ESCAPE <;>
      simp [ha, hk, Application.stop]

/-- Witness of C20: ESC pressed on the sample application, with a host whose event
callback performs nothing. -/
theorem onKeyPress_escape_stops_witness :
    (EventCall.stop ∈ (sampleApp.onKeyPress quietHost KeyCode.ESCAPE InputAction.PRESS 0).2 ↔
      (KeyCode.ESCAPE = KeyCode.ESCAPE ∧ InputAction.PRESS = InputAction.PRESS)) ∧
    (sampleApp.onKeyPress quietHost KeyCode.ESCAPE InputAction.PRESS 0).1.m_running =
      (if KeyCode.ESCAPE = KeyCode.ESCAPE ∧ InputAction.PRESS = InputAction.PRESS then false
        else sampleApp.m_running) ∧
    eventsDelivered (sampleApp.onKeyPress quietHost KeyCode.ESCAPE InputAction.PRESS 0).2 =
      (if quietHost.m_eventCallback.isSome then [keyEvent KeyCode.ESCAPE] else []) :=
  onKeyPress_escape_stops quietHost KeyCode.ESCAPE InputAction.PRESS 0 sampleApp
    (fun f hf e a => by
      have : f = fun _ _ => [] := by
        have h2 : some (fun (_ : Event) (_ : Application) => ([] : List HostOp)) = some f := hf
        exact (Option.some.inj h2).symm
      rw [this]
      exact List.not_mem_nil _)

/-- ESC evaluated on the running sample application: a press clears the running flag, a
release and a press of another key do not. -/
theorem escape_key_evaluated :
    sampleApp.m_running = true ∧
    (sampleApp.onKeyPress quietHost KeyCode.ESCAPE InputAction.PRESS 0).1.m_running = false ∧
    (sampleApp.onKeyPress quietHost KeyCode.ESCAPE InputAction.RELEASE 0).1.m_running = true ∧
    (sampleApp.onKeyPress quietHost KeyCode.ENTER InputAction.PRESS 0).1.m_running = true := by
  decide!

/-! ## Input deltas inside a poll cycle -/

theorem setFullscreen_inputState (b : Bool) (w : Window) :
    (w.setFullscreen b).inputState = w.inputState := by
  unfold Window.setFullscreen
  split
  · rfl
  · dsimp only
    split
    · split <;> rfl
    · rfl

theorem perform_inputState (app : Application) (op : HostOp) :
    (app.perform op).m_window.inputState = app.m_window.inputState := by
  cases op with
  | stop => rfl
  | setTargetFPS fps => rfl
  | setFixedTimeStep timeStep => rfl
  | enableVSync enable =>
    show (app.m_window.setVSync enable).inputState = _
    unfold Window.setVSync
    dsimp only
    split <;> rfl
  | setWindowTitle title =>
    show (app.m_window.setTitle title).inputState = _
    unfold Window.setTitle
    dsimp only
    split <;> rfl
  | windowSetFullscreen fullscreen => exact setFullscreen_inputState fullscreen app.m_window

theorem dispatch_inputState (cb : Callbacks) (ev : Event) (app : Application) :
    (app.dispatch cb ev).1.m_window.inputState = app.m_window.inputState := by
  have hall : ∀ (ops : List HostOp) (a : Application),
      (a.performAll ops).m_window.inputState = a.m_window.inputState := by
    intro ops
    induction ops with
    | nil => intro a; rfl
    | cons op ops ih =>
      intro a
      show (Application.performAll ops (a.perform op)).m_window.inputState = _
      rw [ih, perform_inputState]
  unfold Application.dispatch
  cases cb.m_eventCallback with
  | none => rfl
  | some f => exact hall _ _

/-- A motion event: the delta becomes the displacement from the last position, which
becomes the reported position; the scroll delta is kept. -/
theorem deliver_motionTo (cb : Callbacks) (q : Vector2) (app : Application) :
    (app.deliver cb (motionTo q)).1.m_window.inputState =
      (q, q - app.m_window.m_lastMousePosition, app.m_window.m_scrollDelta) := by
  simp only [motionTo, Application.deliver, Application.onMouseMove]
  split
  · rw [dispatch_inputState]
    rfl
  · rfl

/-- A scroll event: the scroll delta becomes the reported offsets; the cursor state is
kept. -/
theorem deliver_scrollBy (cb : Callbacks) (s : Vector2) (app : Application) :
    (app.deliver cb (scrollBy s)).1.m_window.inputState =
      (app.m_window.m_lastMousePosition, app.m_window.m_mouseDelta, s) := by
  simp only [scrollBy, Application.deliver, Application.onMouseScroll]
  split
  · rw [dispatch_inputState]
    rfl
  · rfl

theorem deliverAll_append (cb : Callbacks) (l1 l2 : List NativeEvent) (app : Application) :
    (Application.deliverAll cb (l1 ++ l2) app).1 =
      (Application.deliverAll cb l2 (Application.deliverAll cb l1 app).1).1 := by
  induction l1 generalizing app with
  | nil => rfl
  | cons e rest ih => exact ih _

theorem deliverAll_motion_last (cb : Callbacks) (qs : List Vector2) : ∀ app : Application,
    (Application.deliverAll cb (qs.map motionTo) app).1.m_window.m_lastMousePosition =
      (app.m_window.m_lastMousePosition :: qs).getLast (List.cons_ne_nil _ _) := by
  induction qs with
  | nil => intro app; rfl
  | cons q rest ih =>
    intro app
    show (Application.deliverAll cb (rest.map motionTo)
      (app.deliver cb (motionTo q)).1).1.m_window.m_lastMousePosition = _
    rw [ih, List.getLast_cons (List.cons_ne_nil _ _)]
    have h := congrArg Prod.fst (deliver_motionTo cb q app)
    have h2 : (app.deliver cb (motionTo q)).1.m_window.m_lastMousePosition = q := h
    simp only [h2]

/-- C13 as stated fails: from cursor position (0, 0) and zero deltas, the motion events
(1, 1) and (3, 3) leave the cursor delta (2, 2), not (3, 3) - (0, 0); and two scroll
events with offsets (0, 1) leave the scroll delta (0, 1), not (0, 1) + (0, 1). -/
theorem deltas_do_not_accumulate :
    sampleApp.m_window.inputState = (⟨0, 0⟩, ⟨0, 0⟩, ⟨0, 0⟩) ∧
    (Application.deliverAll noCallbacks [motionTo ⟨1, 1⟩, motionTo ⟨3, 3⟩]
      sampleApp).1.m_window.getMouseDelta ≠ (⟨3, 3⟩ : Vector2) - ⟨0, 0⟩ ∧
    (Application.deliverAll noCallbacks [scrollBy ⟨0, 1⟩, scrollBy ⟨0, 1⟩]
      sampleApp).1.m_window.getScrollDelta ≠ (⟨0, 1⟩ : Vector2) + ⟨0, 1⟩ := by
  decide!

/-- C13 amended: within one poll cycle the input deltas hold the last event only. After
the motion events `q_1..q_n` (`n ≥ 1`), delivered with starting cursor position `p`, the
cursor delta is `q_n - q_(n-1)` (with `q_0 = p`); after scroll events with offsets
`s_1..s_n` the scroll delta is `s_n`. -/
theorem deltas_hold_last_event (cb : Callbacks) (app : Application) (qs : List Vector2)
    (q : Vector2) (ss : List Vector2) (s : Vector2) :
    (Application.deliverAll cb ((qs ++ [q]).map motionTo) app).1.m_window.getMouseDelta =
      q - (app.m_window.m_lastMousePosition :: qs).getLast (List.cons_ne_nil _ _) ∧
    (Application.deliverAll cb ((ss ++ [s]).map scrollBy) app).1.m_window.getScrollDelta = s := by
  constructor
  · rw [List.map_append, deliverAll_append]
    have h := deliver_motionTo cb q (Application.deliverAll cb (qs.map motionTo) app).1
    have h2 := congrArg (fun t => t.2.1) h
    rw [deliverAll_motion_last] at h2
    exact h2
  · rw [List.map_append, deliverAll_append]
    have h := deliver_scrollBy cb s (Application.deliverAll cb (ss.map scrollBy) app).1
    exact congrArg (fun t => t.2.2) h

/-! ## The demo keys -/

/-- The event callback of the demo answers an F1 key event, whatever its action, by setting
fullscreen to the negation of its current value. -/
theorem onKeyPress_gameDemo_F1 (app : Application) (action : InputAction) (mods : Int) :
    (app.onKeyPress gameDemo KeyCode.F1 action mods).1 =
      { app with m_window := app.m_window.setFullscreen (!app.m_window.isFullscreen) } := by
  have h1 : ¬ (KeyCode.F1 = KeyCode.ESCAPE) := by decide
  have h2 : GameDemo.handleEvent
      { id := toEventID KeyCode.F1, name := "key_press", data := EventData.key KeyCode.F1,
        dataSize := sizeofKeyCode } app =
      [HostOp.windowSetFullscreen (!app.m_window.isFullscreen)] := by
    simp [GameDemo.handleEvent]
  unfold Application.onKeyPress
  simp only [h1, if_false, ite_self]
  simp only [Application.dispatch, gameDemo, h2, Application.performAll, List.foldl,
    Application.perform]

/-- C21: one F1 keystroke, the key event (F1, PRESS) followed by (F1, RELEASE), each
delivered through `Application::onKeyPress` to `GameDemo::handleEvent`, negates
`isFullscreen()` at the press and negates it again at the release, so that after the
keystroke `isFullscreen()` has the value it had before, not its negation. -/
theorem f1_keystroke_toggles_twice (app : Application) (mods1 mods2 : Int) :
    ((app.onKeyPress gameDemo KeyCode.F1 InputAction.PRESS mods1).1).m_window.isFullscreen
        = !app.m_window.isFullscreen ∧
    ((((app.onKeyPress gameDemo KeyCode.F1 InputAction.PRESS mods1).1).onKeyPress gameDemo
        KeyCode.F1 InputAction.RELEASE mods2).1).m_window.isFullscreen
        = app.m_window.isFullscreen := by
  rw [onKeyPress_gameDemo_F1, onKeyPress_gameDemo_F1]
  simp [isFullscreen_setFullscreen]

/-! ## Rectangles -/

/-- C30: for all rectangles `a`, `b` and every point `p`, with no assumption on the sign
of a width or height, `a.contains(p)` and `b.contains(p)` imply `a.intersects(b)`. -/
theorem contains_imp_intersects (a b : Rectangle) (p : Vector2)
    (ha : a.contains p = true) (hb : b.contains p = true) : a.intersects b = true := by
  simp only [Rectangle.contains, Bool.and_eq_true, decide_eq_true_eq] at ha hb
  obtain ⟨⟨⟨ha1, ha2⟩, ha3⟩, ha4⟩ := ha
  obtain ⟨⟨⟨hb1, hb2⟩, hb3⟩, hb4⟩ := hb
  simp only [Rectangle.intersects, Bool.not_eq_true', Bool.or_eq_false_iff,
    decide_eq_false_iff_not, not_lt]
  exact ⟨⟨⟨by linarith, by linarith⟩, by linarith⟩, by linarith⟩

theorem contains_imp_intersects_witness :
    (Rectangle.mk 0 0 2 2).contains ⟨1, 1⟩ = true ∧
    (Rectangle.mk 1 1 0 3).contains ⟨1, 1⟩ = true ∧
    (Rectangle.mk 0 0 2 2).intersects (Rectangle.mk 1 1 0 3) = true :=
  ⟨by norm_num [Rectangle.contains], by norm_num [Rectangle.contains],
    contains_imp_intersects (Rectangle.mk 0 0 2 2) (Rectangle.mk 1 1 0 3) ⟨1, 1⟩
      (by norm_num [Rectangle.contains]) (by norm_num [Rectangle.contains])⟩


/-! ## Width and height of the window -/

/-- Counterexample to C24: from the default 1280 x 720, `setSize(0, 0)` and a native resize
event reporting 0 x 0 each leave width and height 0, and `getAspectRatio()` divides by
zero. -/
theorem setSize_stores_zero :
    0 < monitorWindow.getWidth ∧ 0 < monitorWindow.getHeight ∧
    (monitorWindow.setSize 0 0).getWidth = 0 ∧ (monitorWindow.setSize 0 0).getHeight = 0 ∧
    (monitorWindow.setSize 0 0).getAspectRatio = none ∧
    (monitorWindow.glfwWindowResizeCallback 0 0).getHeight = 0 ∧
    (monitorWindow.glfwWindowResizeCallback 0 0).getAspectRatio = none := by
  decide!

/-- C24, amended: `setFullscreen` leaves width and height as they are; `setSize` and a
native resize event store the values they are given, whatever they are; and
`getAspectRatio()` divides by zero exactly when the height is zero. -/
theorem size_follows_arguments (w : Window) (width height : Int) (b : Bool) :
    ((w.setFullscreen b).getWidth = w.getWidth ∧ (w.setFullscreen b).getHeight = w.getHeight) ∧
    ((w.setSize width height).getWidth = width ∧ (w.setSize width height).getHeight = height) ∧
    ((w.glfwWindowResizeCallback width height).getWidth = width ∧
      (w.glfwWindowResizeCallback width height).getHeight = height) ∧
    (w.getAspectRatio = none ↔ w.getHeight = 0) := by
  refine ⟨?_, ?_, ⟨rfl, rfl⟩, ?_⟩
  · unfold Window.setFullscreen Window.getWidth Window.getHeight Window.issue
    split
    · exact ⟨rfl, rfl⟩
    · dsimp only
      split
      · split <;> exact ⟨rfl, rfl⟩
      · exact ⟨rfl, rfl⟩
  · unfold Window.setSize Window.getWidth Window.getHeight Window.issue
    dsimp only
    split <;> exact ⟨rfl, rfl⟩
  · unfold Window.getAspectRatio Window.getHeight
    split <;> simp_all

/-! ## Leaving fullscreen -/

/-- Counterexample to C25: the default window, created on a 1920 x 1080 display, is placed
at (320, 180) with size 1280 x 720; `setFullscreen(true)` then `setFullscreen(false)`
places it at (100, 100), and with a resize event reporting 1920 x 1080 in between also
with the size 1920 x 1080. -/
theorem leaving_fullscreen_moves_window :
    monitorWindow.m_window = true ∧
    monitorWindow.native.filter NativeCall.isGeometry = [NativeCall.glfwSetWindowPos 320 180] ∧
    (monitorWindow.getWidth, monitorWindow.getHeight) = (1280, 720) ∧
    ((monitorWindow.setFullscreen true).setFullscreen false).native.getLast? =
      some (NativeCall.glfwSetWindowMonitor false 100 100 1280 720 0) ∧
    (((monitorWindow.setFullscreen true).glfwWindowResizeCallback 1920 1080).setFullscreen
      false).native.getLast? = some (NativeCall.glfwSetWindowMonitor false 100 100 1920 1080 0) := by
  decide!

theorem setFullscreen_true_of_windowed (w : Window) (ha : w.m_window = true)
    (hw : w.isFullscreen = false) :
    w.setFullscreen true =
      { w with m_config := { w.m_config with fullscreen := true }
               native := w.native ++ [w.enterFullscreenCall] } := by
  have h2 : w.m_config.fullscreen = false := hw
  unfold Window.setFullscreen Window.enterFullscreenCall Window.issue
  simp only [h2, ha]
  cases w.videoMode <;> rfl

theorem setFullscreen_false_of_fullscreen (w : Window) (ha : w.m_window = true)
    (hw : w.isFullscreen = true) :
    w.setFullscreen false =
      { w with m_config := { w.m_config with fullscreen := false }
               native := w.native ++ [NativeCall.glfwSetWindowMonitor false 100 100
                 w.m_config.width w.m_config.height 0] } := by
  have h2 : w.m_config.fullscreen = true := hw
  unfold Window.setFullscreen Window.issue
  simp only [h2, ha]
  rfl

/-- C25, amended: on an active windowed window, `setFullscreen(true)` followed by
`setFullscreen(false)` issues two geometry changes, the second one placing the window at
the fixed position (100, 100) with the width and height the configuration holds at that
moment: the windowed size when no resize event arrived in between, the size reported by
the resize event otherwise. Vsync, title and resizable are unchanged by both calls. -/
theorem leaving_fullscreen_geometry (w : Window) (width height : Int)
    (ha : w.m_window = true) (hw : w.isFullscreen = false) :
    ((w.setFullscreen true).setFullscreen false).native =
      w.native ++ [w.enterFullscreenCall,
        NativeCall.glfwSetWindowMonitor false 100 100 w.getWidth w.getHeight 0] ∧
    (((w.setFullscreen true).glfwWindowResizeCallback width height).setFullscreen false).native =
      w.native ++ [w.enterFullscreenCall,
        NativeCall.glfwSetWindowMonitor false 100 100 width height 0] ∧
    ((w.setFullscreen true).m_config.vsync = w.m_config.vsync ∧
      (w.setFullscreen true).m_config.title = w.m_config.title ∧
      (w.setFullscreen true).m_config.resizable = w.m_config.resizable) ∧
    (((w.setFullscreen true).setFullscreen false).m_config.vsync = w.m_config.vsync ∧
      ((w.setFullscreen true).setFullscreen false).m_config.title = w.m_config.title ∧
      ((w.setFullscreen true).setFullscreen false).m_config.resizable =
        w.m_config.resizable) := by
  rw [setFullscreen_true_of_windowed w ha hw]
  refine ⟨?_, ?_, ⟨rfl, rfl, rfl⟩, ?_⟩
  · rw [setFullscreen_false_of_fullscreen]
    · simp [Window.getWidth, Window.getHeight]
    · exact ha
    · rfl
  · rw [setFullscreen_false_of_fullscreen]
    · simp [Window.glfwWindowResizeCallback]
    · exact ha
    · rfl
  · rw [setFullscreen_false_of_fullscreen]
    · exact ⟨rfl, rfl, rfl⟩
    · exact ha
    · rfl

/-- Witness of C25: the default window on a 1920 x 1080 display. -/
theorem leaving_fullscreen_geometry_witness :
    monitorWindow.m_window = true ∧ monitorWindow.isFullscreen = false ∧
    ((monitorWindow.setFullscreen true).setFullscreen false).native =
      monitorWindow.native ++ [monitorWindow.enterFullscreenCall,
        NativeCall.glfwSetWindowMonitor false 100 100 monitorWindow.getWidth
          monitorWindow.getHeight 0] :=
  ⟨by decide!, by decide!,
    (leaving_fullscreen_geometry monitorWindow 1920 1080 (by decide!) (by decide!)).1⟩


/-! ## A failed initialization -/

/-- With a step `≤ 0` and the loop condition true on entry, the condition is true after
every pass: no amount of fuel ends the loop. -/
theorem drain_none_of_nonpositive_step : ∀ (fuel : Nat) (app : Application),
    app.m_fixedTimeStep ≤ 0 → app.m_accumulator ≥ app.m_fixedTimeStep →
    Application.drain fuel app = none := by
  intro fuel
  induction fuel with
  | zero =>
    intro app _ hge
    rw [Application.drain, if_pos hge]
  | succ n ih =>
    intro app hstep hge
    rw [Application.drain, if_pos hge]
    apply ih
    · exact hstep
    · show app.m_fixedTimeStep ≤ app.m_accumulator - app.m_fixedTimeStep
      have h1 : app.m_fixedTimeStep ≤ app.m_accumulator := hge
      linarith

/-- The loop makes no pass when its condition is false on entry. -/
theorem drainPasses_zero (step acc : ℚ) (h : acc < step) : DrainPasses step acc 0 := by
  refine ⟨fun j hj => absurd hj (Nat.not_lt_zero j), ?_⟩
  simpa using h

/-- With a positive step the loop ends, whatever the accumulator. -/
theorem drainPasses_exists (step acc : ℚ) (hstep : 0 < step) : ∃ k, DrainPasses step acc k := by
  by_cases hacc : 0 ≤ acc
  · exact ⟨_, drainPasses_floor step acc hstep hacc⟩
  · exact ⟨0, drainPasses_zero step acc (by linarith [not_le.mp hacc])⟩

/-- In exact arithmetic, the arithmetic of the accounting of the accumulator: the
fixed-step loop of `run` ends (some amount of fuel gives a result) exactly when the step is
positive or the accumulator is below the step on entry; for a positive step and an
accumulator `a ≥ 0` it makes exactly `floor (a / step)` passes; for a step `≤ 0` and an
accumulator not below it the loop never ends. The source computes on `float`, see
`drain32_terminates`. -/
theorem drain_terminates_iff (app : Application) :
    ((∃ fuel, (Application.drain fuel app).isSome = true) ↔
      (0 < app.m_fixedTimeStep ∨ app.m_accumulator < app.m_fixedTimeStep)) ∧
    (0 < app.m_fixedTimeStep → 0 ≤ app.m_accumulator →
      DrainPasses app.m_fixedTimeStep app.m_accumulator
        ⌊app.m_accumulator / app.m_fixedTimeStep⌋.toNat ∧
      ∀ fuel, ⌊app.m_accumulator / app.m_fixedTimeStep⌋.toNat ≤ fuel →
        Application.drain fuel app =
          some (app.drained ⌊app.m_accumulator / app.m_fixedTimeStep⌋.toNat)) ∧
    (∀ t : ℚ, (app.setFixedTimeStep t).m_fixedTimeStep = t) ∧
    (app.m_fixedTimeStep ≤ 0 → app.m_fixedTimeStep ≤ app.m_accumulator →
      ∀ fuel, Application.drain fuel app = none) ∧
    (app.m_fixedTimeStep ≤ 0 →
      app.m_fixedTimeStep ≤ app.m_accumulator + app.m_timeManager.m_deltaTime →
      (∀ (cb : Callbacks) (fuel : Nat) (frame : Frame), app.iteration cb fuel frame = none) ∧
      (app.m_initialized = true → (app.m_running && !app.m_window.shouldClose) = true →
        ∀ (cb : Callbacks) (fuel : Nat) (frame : Frame) (rest : List Frame),
          app.run cb fuel (frame :: rest) = none)) := by
  refine ⟨⟨?_, ?_⟩, ?_, fun _ => rfl, ?_, ?_⟩
  · rintro ⟨fuel, hf⟩
    by_contra hcon
    rw [not_or, not_lt, not_lt] at hcon
    rw [drain_none_of_nonpositive_step fuel app hcon.1 hcon.2] at hf
    cases hf
  · rintro (h | h)
    · obtain ⟨k, hk⟩ := drainPasses_exists app.m_fixedTimeStep app.m_accumulator h
      exact ⟨k, by rw [drain_of_passes k k app (le_refl k) hk]; rfl⟩
    · exact ⟨0, by rw [drain_of_passes 0 0 app (le_refl 0) (drainPasses_zero _ _ h)]; rfl⟩
  · intro hstep hacc
    have hp := drainPasses_floor app.m_fixedTimeStep app.m_accumulator hstep hacc
    exact ⟨hp, fun fuel hfuel => drain_of_passes _ fuel app hfuel hp⟩
  · intro hstep hge fuel
    exact drain_none_of_nonpositive_step fuel app hstep hge
  · intro hstep hge
    have hit : ∀ (cb : Callbacks) (fuel : Nat) (frame : Frame),
        app.iteration cb fuel frame = none := by
      intro cb fuel frame
      rw [iteration_eq, drain_none_of_nonpositive_step fuel app.beginIteration hstep hge]
      rfl
    refine ⟨hit, fun hi hc cb fuel frame rest => ?_⟩
    simp only [Application.run, hi, Bool.not_true, Bool.false_eq_true, if_false]
    rw [Application.runLoop, if_pos hc, hit]


/-! ## The accumulator is never negative -/

theorem chain_of_append {R : ℚ → ℚ → Prop} : ∀ (l1 l2 : List ℚ) (a : ℚ),
    List.Chain R a (l1 ++ l2) → List.Chain R a l1 := by
  intro l1
  induction l1 with
  | nil => intro _ _ _; exact List.Chain.nil
  | cons b l ih =>
    intro l2 a h
    rw [List.cons_append, List.chain_cons] at h
    exact List.Chain.cons h.1 (ih l2 b h.2)

/-- The delta the time manager holds is non-negative after a run on a clock that never
goes backwards. -/
theorem runLoop_deltaTime_nonneg (cb : Callbacks) (fuel : Nat) :
    ∀ (frames : List Frame) (app : Application) (r : RunResult),
      0 ≤ app.m_timeManager.m_deltaTime →
      List.Chain (fun x y : ℚ => x ≤ y) app.m_timeManager.m_lastTime (frames.map Frame.now) →
      Application.runLoop cb fuel frames app = some r →
      0 ≤ r.app.m_timeManager.m_deltaTime := by
  intro frames
  induction frames with
  | nil =>
    intro app r hd _ h
    rw [Application.runLoop] at h
    injection h with h
    rw [← h]
    exact hd
  | cons f rest ih =>
    intro app r hd hclock h
    rw [Application.runLoop] at h
    split at h
    · cases hit : app.iteration cb fuel f with
      | none => rw [hit] at h; cases h
      | some app1 =>
        rw [hit] at h
        obtain ⟨k, -, he⟩ := iteration_some cb fuel f app app1 hit
        have htm : app1.m_timeManager = app.m_timeManager.update f.now := by
          rw [he, finish_m_timeManager]
          rfl
        rw [List.map_cons, List.chain_cons] at hclock
        refine ih app1 r ?_ ?_ h
        · rw [htm, TimeManager.update_m_deltaTime]
          linarith [hclock.1]
        · rw [htm, TimeManager.update_m_lastTime]
          exact hclock.2
    · injection h with h
      rw [← h]
      exact hd

/-- C22: for a positive fixed step, an accumulator starting at 0 and a clock that never
goes backwards (every delta `≥ 0`), after any number `n` of iterations of `run` the
accumulator satisfies `0 ≤ accumulator < fixedStep`, and it is not negative at any point of
the iteration that follows: neither after the delta is added nor after any pass of the
fixed-step loop that the loop condition lets it make. -/
theorem accumulator_never_negative (cb : Callbacks) (hcb : cb.KeepsFixedStep)
    (frames : List Frame) (app : Application) (n : Nat)
    (hstep : 0 < app.m_fixedTimeStep) (hacc : app.m_accumulator = 0)
    (hd : 0 ≤ app.m_timeManager.m_deltaTime)
    (hclock : List.Chain (fun x y : ℚ => x ≤ y) app.m_timeManager.m_lastTime
      (frames.map Frame.now)) :
    ∃ fuel0 : Nat, ∀ fuel : Nat, fuel0 ≤ fuel → ∃ r : RunResult,
      app.run cb fuel (frames.take n) = some r ∧
      (0 ≤ r.app.m_accumulator ∧ r.app.m_accumulator < app.m_fixedTimeStep) ∧
      0 ≤ r.app.beginIteration.m_accumulator ∧
      ∀ j : Nat,
        (∀ i : Nat, i < j →
          r.app.beginIteration.m_fixedTimeStep ≤ (r.app.beginIteration.drained i).m_accumulator) →
        0 ≤ (r.app.beginIteration.drained j).m_accumulator := by
  have hcl : List.Chain (fun x y : ℚ => x ≤ y) app.m_timeManager.m_lastTime
      ((frames.take n).map Frame.now) := by
    apply chain_of_append _ ((frames.drop n).map Frame.now)
    rw [← List.map_append, List.take_append_drop]
    exact hclock
  obtain ⟨fuel0, h⟩ := run_accounting cb hcb (frames.take n) app hstep hacc hd hcl
  refine ⟨fuel0, fun fuel hfuel => ?_⟩
  obtain ⟨r, new, hrun, -, h0, h1, -⟩ := h fuel hfuel
  have hdr : 0 ≤ r.app.m_timeManager.m_deltaTime := by
    by_cases hi : app.m_initialized = true
    · have hrun2 := hrun
      simp only [Application.run, hi, Bool.not_true, Bool.false_eq_true, if_false] at hrun2
      exact runLoop_deltaTime_nonneg cb fuel _ app r hd hcl hrun2
    · have hrun2 := hrun
      simp only [Application.run, hi, Bool.not_false, if_true] at hrun2
      injection hrun2 with hrun2
      rw [← hrun2]
      exact hd
  have hb : 0 ≤ r.app.beginIteration.m_accumulator := add_nonneg h0 hdr
  refine ⟨r, hrun, ⟨h0, h1⟩, hb, fun j hj => ?_⟩
  cases j with
  | zero =>
    show 0 ≤ r.app.beginIteration.m_accumulator - ((0 : ℕ) : ℚ) * _
    simp only [Nat.cast_zero, zero_mul, sub_zero]
    exact hb
  | succ m =>
    have hm := hj m (Nat.lt_succ_self m)
    have e1 : (r.app.beginIteration.drained m).m_accumulator =
        r.app.beginIteration.m_accumulator - (m : ℚ) * r.app.beginIteration.m_fixedTimeStep := rfl
    have e2 : (r.app.beginIteration.drained (m + 1)).m_accumulator =
        r.app.beginIteration.m_accumulator -
          ((m + 1 : ℕ) : ℚ) * r.app.beginIteration.m_fixedTimeStep := rfl
    rw [e1] at hm
    rw [e2]
    push_cast
    linarith

/-- Witness of C22: the sample application run for the first two of the sample frames. -/
theorem accumulator_never_negative_witness :
    (0 : ℚ) < sampleApp.m_fixedTimeStep ∧ sampleApp.m_accumulator = 0 ∧
    ∃ fuel0 : Nat, ∀ fuel : Nat, fuel0 ≤ fuel → ∃ r : RunResult,
      sampleApp.run noCallbacks fuel (sampleFrames.take 2) = some r ∧
      (0 ≤ r.app.m_accumulator ∧ r.app.m_accumulator < sampleApp.m_fixedTimeStep) ∧
      0 ≤ r.app.beginIteration.m_accumulator ∧
      ∀ j : Nat,
        (∀ i : Nat, i < j →
          r.app.beginIteration.m_fixedTimeStep ≤ (r.app.beginIteration.drained i).m_accumulator) →
        0 ≤ (r.app.beginIteration.drained j).m_accumulator :=
  ⟨by decide!, by decide!,
    accumulator_never_negative noCallbacks (noCallbacks_all _) sampleFrames sampleApp 2
      (by decide!) (by decide!) (by decide!)
      (List.Chain.cons (by decide!) (List.Chain.cons (by decide!)
        (List.Chain.cons (by decide!) List.Chain.nil)))⟩


/-! ## Escaping -/

theorem escape_foldl (s : List Char) : ∀ acc : List Char,
    s.foldl (fun result c => result ++ StringUtils.escapeChar c) acc =
      acc ++ s.foldl (fun result c => result ++ StringUtils.escapeChar c) [] := by
  induction s with
  | nil => intro acc; simp
  | cons c s ih =>
    intro acc
    rw [List.foldl_cons, List.foldl_cons, ih (acc ++ _), ih ([] ++ _)]
    simp

theorem escape_cons (c : Char) (s : List Char) :
    StringUtils.escape (c :: s) = StringUtils.escapeChar c ++ StringUtils.escape s := by
  unfold StringUtils.escape
  rw [List.foldl_cons, escape_foldl]
  simp

/-- What `escape` appends for one character is read back by `unescape` as that
character. -/
theorem unescape_escapeChar (c : Char) (t : List Char) :
    StringUtils.unescape (StringUtils.escapeChar c ++ t) = c :: StringUtils.unescape t := by
  unfold StringUtils.escapeChar
  by_cases h1 : c = Chars.newline
  · subst h1
    simp [StringUtils.unescape]
  by_cases h2 : c = Chars.carriageReturn
  · subst h2
    rw [if_neg h1, if_pos rfl]
    have : ¬ ('r' = 'n') := by decide
    simp [StringUtils.unescape, this]
  by_cases h3 : c = Chars.tab
  · subst h3
    rw [if_neg h1, if_neg h2, if_pos rfl]
    have : ¬ ('t' = 'n') := by decide
    have : ¬ ('t' = 'r') := by decide
    simp [StringUtils.unescape, *]
  by_cases h4 : c = Chars.quote
  · subst h4
    rw [if_neg h1, if_neg h2, if_neg h3, if_pos rfl]
    have : ¬ (Chars.quote = 'n') := by decide
    have : ¬ (Chars.quote = 'r') := by decide
    have : ¬ (Chars.quote = 't') := by decide
    simp [StringUtils.unescape, *]
  by_cases h5 : c = Chars.backslash
  · subst h5
    rw [if_neg h1, if_neg h2, if_neg h3, if_neg h4, if_pos rfl]
    have : ¬ (Chars.backslash = 'n') := by decide
    have : ¬ (Chars.backslash = 'r') := by decide
    have : ¬ (Chars.backslash = 't') := by decide
    have : ¬ (Chars.backslash = Chars.quote) := by decide
    simp [StringUtils.unescape, *]
  · rw [if_neg h1, if_neg h2, if_neg h3, if_neg h4, if_neg h5]
    cases t with
    | nil => simp [StringUtils.unescape]
    | cons d rest => simp [StringUtils.unescape, h5]

/-- C27: for every string `s`, `unescape(escape(s)) = s`. -/
theorem unescape_escape (s : List Char) :
    StringUtils.unescape (StringUtils.escape s) = s := by
  induction s with
  | nil => rfl
  | cons c s ih => rw [escape_cons, unescape_escapeChar, ih]


/-! ## Searching a string -/

/-- An occurrence found at index `i` splits the text into the part before it, the
occurrence, and the part after it. -/
theorem findAt_some (s : List Char) : ∀ (text : List Char) (i : Nat),
    findAt s text = some i → text = text.take i ++ s ++ text.drop (i + s.length) := by
  intro text
  induction text with
  | nil =>
    intro i h
    unfold findAt at h
    split at h
    · rename_i hs
      have : s = [] := by simpa using hs
      subst this
      simp
    · cases h
  | cons c t ih =>
    intro i h
    unfold findAt at h
    split at h
    · rename_i hp
      injection h with h
      subst h
      obtain ⟨r, hr⟩ := List.isPrefixOf_iff_prefix.mp hp
      rw [← hr]
      simp
    · cases hf : findAt s t with
      | none => rw [hf] at h; cases h
      | some k =>
        rw [hf] at h
        injection h with h
        subst h
        have := ih k hf
        rw [List.take_succ_cons, Nat.add_right_comm, List.drop_succ_cons, List.cons_append,
          List.cons_append, ← this]

theorem findAt_some_le (s : List Char) : ∀ (text : List Char) (i : Nat),
    findAt s text = some i → i + s.length ≤ text.length := by
  intro text
  induction text with
  | nil =>
    intro i h
    unfold findAt at h
    split at h
    · rename_i hs
      have : s = [] := by simpa using hs
      subst this
      injection h with h
      subst h
      simp
    · cases h
  | cons c t ih =>
    intro i h
    unfold findAt at h
    split at h
    · rename_i hp
      injection h with h
      subst h
      have := (List.isPrefixOf_iff_prefix.mp hp).length_le
      omega
    · cases hf : findAt s t with
      | none => rw [hf] at h; cases h
      | some k =>
        rw [hf] at h
        injection h with h
        subst h
        have := ih k hf
        rw [List.length_cons]
        show k + 1 + s.length ≤ t.length + 1
        omega

/-- The search from `pos` is the search in the text from `pos` on. -/
theorem stdFind_eq (str s : List Char) (pos : Nat) (h : pos ≤ str.length) :
    stdFind str s pos = (findAt s (str.drop pos)).map (fun i => i + pos) := by
  unfold stdFind
  rw [if_neg (by omega)]

/-! ## Split and join -/

theorem join_foldl (d : List Char) (l : List (List Char)) : ∀ a b : List Char,
    l.foldl (fun result s => result ++ (d ++ s)) (a ++ b) =
      a ++ l.foldl (fun result s => result ++ (d ++ s)) b := by
  induction l with
  | nil => intro a b; rfl
  | cons x l ih =>
    intro a b
    rw [List.foldl_cons, List.foldl_cons, List.append_assoc, ih]

theorem join_cons (d x : List Char) (l : List (List Char)) (hl : l ≠ []) :
    StringUtils.join (x :: l) d = x ++ d ++ StringUtils.join l d := by
  cases l with
  | nil => exact absurd rfl hl
  | cons y l =>
    show List.foldl (fun result s => result ++ (d ++ s)) x (y :: l) =
      x ++ d ++ List.foldl (fun result s => result ++ (d ++ s)) y l
    rw [List.foldl_cons, ← List.append_assoc, join_foldl]

/-- From any position `start` within the string the loop of `split` ends within
`str.length - start` passes and appends a non-empty list of pieces that `join` puts back
together to the text from `start` on. -/
theorem splitLoop_spec (str d : List Char) (hd : d ≠ []) : ∀ (fuel start : Nat)
    (result : List (List Char)), start ≤ str.length → str.length - start ≤ fuel →
    ∃ pieces : List (List Char),
      StringUtils.splitLoop str d fuel start (stdFind str d start) result =
        some (result ++ pieces) ∧ pieces ≠ [] ∧ StringUtils.join pieces d = str.drop start := by
  have hdl : 0 < d.length := List.length_pos.mpr hd
  intro fuel
  induction fuel with
  | zero =>
    intro start result hs hf
    rw [stdFind_eq str d start hs]
    cases hfind : findAt d (str.drop start) with
    | none =>
      exact ⟨[str.drop start], by simp [StringUtils.splitLoop, stdSubstrFrom], by simp,
        by simp [StringUtils.join]⟩
    | some i =>
      have := findAt_some_le d _ i hfind
      rw [List.length_drop] at this
      omega
  | succ n ih =>
    intro start result hs hf
    rw [stdFind_eq str d start hs]
    cases hfind : findAt d (str.drop start) with
    | none =>
      exact ⟨[str.drop start], by simp [StringUtils.splitLoop, stdSubstrFrom], by simp,
        by simp [StringUtils.join]⟩
    | some i =>
      have hle := findAt_some_le d _ i hfind
      rw [List.length_drop] at hle
      have hsplit := findAt_some d _ i hfind
      obtain ⟨pieces, hp1, hp2, hp3⟩ := ih (i + start + d.length)
        (result ++ [stdSubstr str start (i + start - start)]) (by omega) (by omega)
      refine ⟨(str.drop start).take i :: pieces, ?_, by simp, ?_⟩
      · simp only [Option.map_some', StringUtils.splitLoop]
        rw [hp1]
        simp [stdSubstr]
      · rw [join_cons d _ pieces hp2, hp3]
        have e : List.drop (i + start + d.length) str =
            List.drop (i + d.length) (List.drop start str) := by
          rw [List.drop_drop]
          congr 1
          omega
        rw [e]
        exact hsplit.symm

/-- C28: for every string `s` and every non-empty delimiter `d`, `split(s, d)` ends (any
fuel from the length of `s` on gives its result), returns a non-empty list of pieces, and
`join(split(s, d), d) = s`. -/
theorem join_split (s d : List Char) (hd : d ≠ []) :
    ∀ fuel : Nat, s.length ≤ fuel → ∃ pieces : List (List Char),
      StringUtils.split fuel s d = some pieces ∧ pieces ≠ [] ∧
      StringUtils.join pieces d = s := by
  intro fuel hfuel
  obtain ⟨pieces, h1, h2, h3⟩ := splitLoop_spec s d hd fuel 0 [] (Nat.zero_le _) (by omega)
  exact ⟨pieces, by simpa [StringUtils.split] using h1, h2, by simpa using h3⟩

/-- Witness of C28: a string with a leading delimiter and two adjacent ones. -/
theorem join_split_witness :
    [','] ≠ ([] : List Char) ∧
    ∃ pieces : List (List Char),
      StringUtils.split 6 [',', 'a', ',', ',', 'b', 'c'] [','] = some pieces ∧ pieces ≠ [] ∧
      StringUtils.join pieces [','] = [',', 'a', ',', ',', 'b', 'c'] :=
  ⟨by decide, join_split [',', 'a', ',', ',', 'b', 'c'] [','] (by decide) 6 (by decide)⟩


/-! ## The format of a log message -/

theorem placeholder_isPrefixOf (c d : Char) (rest : List Char) :
    placeholder.isPrefixOf (c :: d :: rest) = true ↔
      (c = Chars.openBrace ∧ d = Chars.closeBrace) := by
  simp only [placeholder, List.isPrefixOf, Bool.and_eq_true, beq_iff_eq, Bool.and_true]
  exact ⟨fun h => ⟨h.1.symm, h.2.symm⟩, fun h => ⟨h.1.symm, h.2.symm⟩⟩

theorem formatExpected_placeholder (args : List (List Char)) (j : Nat) (rest : List Char) :
    formatExpected args j (placeholder ++ rest) =
      placeholderText args j ++ formatExpected args (j + 1) rest := by
  simp [placeholder, formatExpected]

/-- A text without `{}` is kept as it is. -/
theorem formatExpected_of_findAt_none (args : List (List Char)) (j : Nat) :
    ∀ text : List Char, findAt placeholder text = none → formatExpected args j text = text := by
  intro text
  induction text with
  | nil => intro _; rfl
  | cons c t ih =>
    intro h
    unfold findAt at h
    split at h
    · cases h
    · rename_i hp
      have ht : findAt placeholder t = none := by
        cases hf : findAt placeholder t with
        | none => rfl
        | some k => rw [hf] at h; cases h
      cases t with
      | nil => rfl
      | cons d rest =>
        have hn : ¬ (c = Chars.openBrace ∧ d = Chars.closeBrace) :=
          fun hc => hp ((placeholder_isPrefixOf c d rest).mpr hc)
        rw [formatExpected, if_neg hn, ih ht]

/-- The text up to the first `{}` is kept, the `{}` is replaced. -/
theorem formatExpected_of_findAt_some (args : List (List Char)) :
    ∀ (text : List Char) (j i : Nat), findAt placeholder text = some i →
      formatExpected args j text =
        text.take i ++ placeholderText args j ++ formatExpected args (j + 1) (text.drop (i + 2)) := by
  intro text
  induction text with
  | nil =>
    intro j i h
    simp [findAt, placeholder] at h
  | cons c t ih =>
    intro j i h
    unfold findAt at h
    split at h
    · rename_i hp
      injection h with h
      subst h
      cases t with
      | nil => simp [placeholder, List.isPrefixOf] at hp
      | cons d rest =>
        have hc := (placeholder_isPrefixOf c d rest).mp hp
        rw [formatExpected, if_pos hc]
        simp
    · rename_i hp
      cases hf : findAt placeholder t with
      | none => rw [hf] at h; cases h
      | some k =>
        rw [hf] at h
        injection h with h
        subst h
        cases t with
        | nil => simp [findAt, placeholder] at hf
        | cons d rest =>
          have hn : ¬ (c = Chars.openBrace ∧ d = Chars.closeBrace) :=
            fun hc => hp ((placeholder_isPrefixOf c d rest).mpr hc)
          rw [formatExpected, if_neg hn, ih j k hf]
          show _ = List.take (k + 1) (c :: d :: rest) ++ _ ++
            formatExpected args (j + 1) (List.drop (k + 1 + 2) (c :: d :: rest))
          rw [List.take_succ_cons, Nat.add_right_comm, List.drop_succ_cons]
          simp

theorem writeArgs_eq (args : List (List Char)) : ∀ oss : List Char,
    writeArgs oss args = oss ++ args.foldr (fun a t => a ++ t) [] := by
  unfold writeArgs
  induction args with
  | nil => intro oss; simp
  | cons a l ih =>
    intro oss
    rw [List.foldl_cons, ih, List.foldr_cons, List.append_assoc]

/-- From any position within the format the loop of `formatString` ends within
`format.length - pos` passes and appends the described text of the rest of the format;
`argIndex` is the number of placeholders met, capped at the number of arguments. -/
theorem formatStringLoop_spec (format : List Char) (args : List (List Char)) :
    ∀ (fuel pos j : Nat) (oss : List Char), pos ≤ format.length →
      format.length - pos ≤ fuel →
      formatStringLoop format args fuel pos (min j args.length) oss =
        some (oss ++ formatExpected args j (format.drop pos)) := by
  intro fuel
  induction fuel with
  | zero =>
    intro pos j oss hp hf
    have : pos = format.length := by omega
    subst this
    simp [formatStringLoop, formatExpected]
  | succ n ih =>
    intro pos j oss hp hf
    unfold formatStringLoop
    by_cases hlt : pos < format.length
    · rw [if_pos hlt, stdFind_eq format placeholder pos hp]
      cases hfind : findAt placeholder (format.drop pos) with
      | none =>
        simp only [Option.map_none', stdSubstrFrom]
        rw [formatExpected_of_findAt_none args j _ hfind]
      | some i =>
        have hle := findAt_some_le placeholder _ i hfind
        rw [List.length_drop] at hle
        have hpl : placeholder.length = 2 := rfl
        rw [hpl] at hle
        have hexp := formatExpected_of_findAt_some args _ j i hfind
        have hdrop : List.drop (i + 2) (List.drop pos format) =
            List.drop (i + pos + 2) format := by
          rw [List.drop_drop]
          congr 1
          omega
        rw [hdrop] at hexp
        simp only [Option.map_some', stdSubstr, Nat.add_sub_cancel]
        by_cases hj : j < args.length
        · have hmin : min j args.length = j := Nat.min_eq_left hj.le
          have hmin2 : j + 1 = min (j + 1) args.length := (Nat.min_eq_left hj).symm
          rw [hmin, if_pos hj, hmin2, ih (i + pos + 2) (j + 1) _ (by omega) (by omega), hexp,
            writeArgs_eq]
          simp [placeholderText, hj]
        · have hmin : min j args.length = args.length := Nat.min_eq_right (not_lt.mp hj)
          have hmin2 : args.length = min (j + 1) args.length :=
            (Nat.min_eq_right (by omega)).symm
          rw [hmin, if_neg (lt_irrefl _)]
          rw [hmin2, ih (i + pos + 2) (j + 1) _ (by omega) (by omega), hexp]
          simp [placeholderText, hj]
    · have : pos = format.length := by omega
      subst this
      simp [formatExpected]

/-- C29: `formatString` ends on every format (any fuel from the length of the format on
gives its result) and writes the text of the format with every `{}` replaced, from the
left: the first `n` placeholders, `n` the number of arguments, by all the arguments one
after the other, the remaining ones by nothing; every other character is written
unchanged and in order. With no argument every `{}` is deleted. -/
theorem formatString_writes (format : List Char) (args : List (List Char)) :
    (∀ fuel : Nat, format.length ≤ fuel →
      formatString fuel format args = some (formatExpected args 0 format)) ∧
    (∀ (j : Nat) (rest : List Char),
      formatExpected args j (placeholder ++ rest) =
        (if j < args.length then args.foldr (fun a t => a ++ t) [] else []) ++
          formatExpected args (j + 1) rest) ∧
    (∀ (j : Nat) (c : Char) (rest : List Char), c ≠ Chars.openBrace →
      formatExpected args j (c :: rest) = c :: formatExpected args j rest) ∧
    (∀ (j : Nat) (d : Char) (rest : List Char), d ≠ Chars.closeBrace →
      formatExpected args j (Chars.openBrace :: d :: rest) =
        Chars.openBrace :: formatExpected args j (d :: rest)) ∧
    (∀ j : Nat, formatExpected args j [Chars.openBrace] = [Chars.openBrace] ∧
      formatExpected args j [] = []) ∧
    (∀ (j : Nat) (rest : List Char),
      formatExpected [] j (placeholder ++ rest) = formatExpected [] (j + 1) rest) := by
  refine ⟨?_, ?_, ?_, ?_, fun j => ⟨rfl, rfl⟩, ?_⟩
  · intro fuel hfuel
    have := formatStringLoop_spec format args fuel 0 0 [] (Nat.zero_le _) (by omega)
    simpa [formatString] using this
  · intro j rest
    exact formatExpected_placeholder args j rest
  · intro j c rest hc
    cases rest with
    | nil => rfl
    | cons d rest => rw [formatExpected, if_neg (fun h => hc h.1)]
  · intro j d rest hd
    rw [formatExpected, if_neg (fun h => hd h.2)]
  · intro j rest
    rw [formatExpected_placeholder]
    simp [placeholderText]

/-! ## Evaluated samples of the string functions -/

/-- The format `a{}b{}c{}` with the two arguments `X` and `Y`: the first two placeholders
are each replaced by `XY`, the third by nothing. -/
theorem formatString_sample :
    formatString 9 (['a'] ++ placeholder ++ ['b'] ++ placeholder ++ ['c'] ++ placeholder)
      [['X'], ['Y']] = some ['a', 'X', 'Y', 'b', 'X', 'Y', 'c'] ∧
    formatString 9 (['a'] ++ placeholder ++ ['b'] ++ placeholder ++ ['c'] ++ placeholder)
      [] = some ['a', 'b', 'c'] := by
  decide

/-- A string ending in a backslash and one holding a backslash before `n`. -/
theorem unescape_escape_sample :
    StringUtils.escape ['a', Chars.backslash, 'n', Chars.newline, Chars.backslash] =
      ['a', Chars.backslash, Chars.backslash, 'n', Chars.backslash, 'n', Chars.backslash,
        Chars.backslash] ∧
    StringUtils.unescape ['a', Chars.backslash, Chars.backslash, 'n', Chars.backslash, 'n',
        Chars.backslash, Chars.backslash] =
      ['a', Chars.backslash, 'n', Chars.newline, Chars.backslash] := by
  decide

/-- The pieces of `,a,,bc` at `,`; with the empty delimiter the loop does not end. -/
theorem split_sample :
    StringUtils.split 6 [',', 'a', ',', ',', 'b', 'c'] [','] =
      some [[], ['a'], [], ['b', 'c']] ∧
    StringUtils.split 50 ['a', 'b'] [] = none := by
  decide


/-! ## Float arithmetic -/

theorem F32.pow2_pos (k : ℤ) : 0 < F32.pow2 k := by
  unfold F32.pow2
  split
  · exact_mod_cast (Nat.pow_pos (by decide : 0 < 2) : 0 < 2 ^ _)
  · apply div_pos one_pos
    exact_mod_cast (Nat.pow_pos (by decide : 0 < 2) : 0 < 2 ^ _)

theorem F32.roundHalfEven_nonneg (t : ℚ) (h : 0 ≤ t) : 0 ≤ F32.roundHalfEven t := by
  have hf : 0 ≤ ⌊t⌋ := Int.floor_nonneg.mpr h
  unfold F32.roundHalfEven
  split
  · exact hf
  · split
    · omega
    · split
      · exact hf
      · omega

/-- Rounding keeps the sign: the float nearest to a number `≥ 0` is `≥ 0`. -/
theorem F32.round_nonneg (x : ℚ) (h : 0 ≤ x) : 0 ≤ F32.round x := by
  unfold F32.round
  rw [if_neg (not_lt.mpr h)]
  unfold F32.roundAbs
  split
  · exact le_refl 0
  · have hu := F32.pow2_pos (max (F32.log2 x) (-126) - 23)
    have hq : 0 ≤ x / F32.ulp x := div_nonneg h hu.le
    have hr := F32.roundHalfEven_nonneg _ hq
    exact mul_nonneg (by exact_mod_cast hr) hu.le

/-! ## The fixed-step loop in float arithmetic -/

theorem pass32_m_fixedTimeStep (app : Application) :
    app.pass32.m_fixedTimeStep = app.m_fixedTimeStep := rfl

theorem pass32_m_accumulator (app : Application) :
    app.pass32.m_accumulator = F32.sub app.m_accumulator app.m_fixedTimeStep := rfl

/-- The loop makes no pass when its condition is false on entry. -/
theorem drain32_of_lt (fuel : Nat) (app : Application)
    (h : app.m_accumulator < app.m_fixedTimeStep) : Application.drain32 fuel app = some app := by
  cases fuel with
  | zero => rw [Application.drain32, if_neg (not_le.mpr h)]
  | succ n => rw [Application.drain32, if_neg (not_le.mpr h)]

/-- With a step `≤ 0` and the loop condition true on entry, the condition is true after
every pass: the difference that is rounded is `≥ 0`, and so is the float nearest to it. -/
theorem drain32_none_of_nonpositive_step : ∀ (fuel : Nat) (app : Application),
    app.m_fixedTimeStep ≤ 0 → app.m_fixedTimeStep ≤ app.m_accumulator →
    Application.drain32 fuel app = none := by
  intro fuel
  induction fuel with
  | zero =>
    intro app _ hge
    rw [Application.drain32, if_pos hge]
  | succ n ih =>
    intro app hstep hge
    rw [Application.drain32, if_pos hge]
    apply ih
    · exact hstep
    · rw [pass32_m_fixedTimeStep, pass32_m_accumulator]
      have h0 : 0 ≤ F32.round (app.m_accumulator - app.m_fixedTimeStep) :=
        F32.round_nonneg _ (by linarith)
      exact le_trans hstep h0

/-- When the subtraction gives back the accumulator, the step is absorbed and every pass
leaves the loop condition as it was. -/
theorem drain32_none_of_absorbed : ∀ (fuel : Nat) (app : Application),
    app.m_fixedTimeStep ≤ app.m_accumulator →
    F32.sub app.m_accumulator app.m_fixedTimeStep = app.m_accumulator →
    Application.drain32 fuel app = none := by
  intro fuel
  induction fuel with
  | zero =>
    intro app hge _
    rw [Application.drain32, if_pos hge]
  | succ n ih =>
    intro app hge habs
    rw [Application.drain32, if_pos hge]
    apply ih
    · rw [pass32_m_fixedTimeStep, pass32_m_accumulator, habs]
      exact hge
    · rw [pass32_m_fixedTimeStep, pass32_m_accumulator, habs]
      exact habs

/-- When each subtraction of the loop is exact, the loop in float arithmetic makes the
passes of the loop in exact arithmetic. -/
theorem drain32_of_exact (k : Nat) : ∀ (fuel : Nat) (app : Application), k ≤ fuel →
    DrainPasses app.m_fixedTimeStep app.m_accumulator k →
    (∀ j : Nat, j < k →
      F32.sub (app.m_accumulator - j * app.m_fixedTimeStep) app.m_fixedTimeStep =
        app.m_accumulator - (j + 1 : ℕ) * app.m_fixedTimeStep) →
    Application.drain32 fuel app = some (app.drained k) := by
  induction k with
  | zero =>
    intro fuel app _ h _
    have hlt : app.m_accumulator < app.m_fixedTimeStep := by
      have := h.2
      simpa using this
    have hd : app.drained 0 = app := by
      simp [Application.drained, fixedCalls]
    rw [hd]
    exact drain32_of_lt fuel app hlt
  | succ k ih =>
    intro fuel app hk h hex
    cases fuel with
    | zero => omega
    | succ n =>
      have hge : app.m_accumulator ≥ app.m_fixedTimeStep := by
        have := h.1 0 (Nat.succ_pos k)
        simpa using this
      have h0 : F32.sub app.m_accumulator app.m_fixedTimeStep =
          app.m_accumulator - app.m_fixedTimeStep := by
        have := hex 0 (Nat.succ_pos k)
        simpa using this
      have hpass : app.pass32 = { (app.fixedUpdate app.m_fixedTimeStep) with
          m_accumulator := (app.fixedUpdate app.m_fixedTimeStep).m_accumulator -
            (app.fixedUpdate app.m_fixedTimeStep).m_fixedTimeStep } := by
        unfold Application.pass32
        dsimp only
        show _ = { (app.fixedUpdate app.m_fixedTimeStep) with
          m_accumulator := app.m_accumulator - app.m_fixedTimeStep }
        rw [← h0]
        rfl
      rw [Application.drain32, if_pos hge, ih n _ (Nat.le_of_succ_le_succ hk)]
      · rw [hpass, drained_succ]
      · rw [pass32_m_fixedTimeStep, pass32_m_accumulator, h0]
        constructor
        · intro j hj
          have := h.1 (j + 1) (Nat.succ_lt_succ hj)
          push_cast at this
          linarith
        · have := h.2
          push_cast at this
          linarith
      · intro j hj
        rw [pass32_m_fixedTimeStep, pass32_m_accumulator, h0]
        have := hex (j + 1) (Nat.succ_lt_succ hj)
        push_cast at this ⊢
        have e1 : app.m_accumulator - app.m_fixedTimeStep - (j : ℚ) * app.m_fixedTimeStep =
            app.m_accumulator - ((j : ℚ) + 1) * app.m_fixedTimeStep := by ring
        rw [e1, this]
        ring

/-- Counterexample to C26: with accumulator `1.0f` and the positive step `2 ^ (-30)`, both
floats, the subtraction gives back `1.0f` and no amount of fuel ends the loop; with
accumulator `1.0f` and step `0.2f` the loop ends after 5 passes, not after
`floor (1.0f / 0.2f) = 4`. -/
theorem positive_step_absorbed :
    (0 < absorbedStepApp.m_fixedTimeStep ∧
      F32.round absorbedStepApp.m_fixedTimeStep = absorbedStepApp.m_fixedTimeStep ∧
      F32.round absorbedStepApp.m_accumulator = absorbedStepApp.m_accumulator ∧
      ∀ fuel : Nat, Application.drain32 fuel absorbedStepApp = none) ∧
    (Application.drain32 4 fifthStepApp = none ∧
      (Application.drain32 5 fifthStepApp).map (fun a => fixedUpdateCount a.trace) =
        some (fixedUpdateCount fifthStepApp.trace + 5) ∧
      ⌊fifthStepApp.m_accumulator / fifthStepApp.m_fixedTimeStep⌋ = 4) :=
  ⟨⟨by decide!, by decide!, by decide!,
    fun fuel => drain32_none_of_absorbed fuel absorbedStepApp (by decide!) (by decide!)⟩,
    by decide!⟩

/-- C26, amended: on the `float` fields of the source the fixed-step loop of `run` ends at
once when the accumulator is below the step on entry. For a step `≤ 0` it ends exactly
then: with the accumulator not below the step the condition stays true after every pass.
A step `> 0` does not make it end: when the subtraction gives back the accumulator (the
step is absorbed) the condition stays true after every pass. When the step is `> 0`, the
accumulator `a ≥ 0` and each subtraction of the loop is exact, the loop makes exactly
`floor (a / step)` passes. `setFixedTimeStep` stores any value. Where the loop does not
end, the iteration never reaches the variable update. -/
theorem drain32_terminates (app : Application) :
    (app.m_accumulator < app.m_fixedTimeStep →
      ∀ fuel : Nat, Application.drain32 fuel app = some app) ∧
    (app.m_fixedTimeStep ≤ 0 →
      ((∃ fuel : Nat, (Application.drain32 fuel app).isSome = true) ↔
        app.m_accumulator < app.m_fixedTimeStep)) ∧
    (app.m_fixedTimeStep ≤ app.m_accumulator →
      F32.sub app.m_accumulator app.m_fixedTimeStep = app.m_accumulator →
      ∀ fuel : Nat, Application.drain32 fuel app = none) ∧
    (0 < app.m_fixedTimeStep → 0 ≤ app.m_accumulator →
      (∀ j : Nat, j < ⌊app.m_accumulator / app.m_fixedTimeStep⌋.toNat →
        F32.sub (app.m_accumulator - j * app.m_fixedTimeStep) app.m_fixedTimeStep =
          app.m_accumulator - (j + 1 : ℕ) * app.m_fixedTimeStep) →
      DrainPasses app.m_fixedTimeStep app.m_accumulator
        ⌊app.m_accumulator / app.m_fixedTimeStep⌋.toNat ∧
      ∀ fuel : Nat, ⌊app.m_accumulator / app.m_fixedTimeStep⌋.toNat ≤ fuel →
        Application.drain32 fuel app =
          some (app.drained ⌊app.m_accumulator / app.m_fixedTimeStep⌋.toNat)) ∧
    (∀ t : ℚ, (app.setFixedTimeStep t).m_fixedTimeStep = t) ∧
    (app.m_fixedTimeStep ≤ F32.add app.m_accumulator app.m_timeManager.m_deltaTime →
      (app.m_fixedTimeStep ≤ 0 ∨
        F32.sub (F32.add app.m_accumulator app.m_timeManager.m_deltaTime) app.m_fixedTimeStep =
          F32.add app.m_accumulator app.m_timeManager.m_deltaTime) →
      ∀ fuel : Nat, app.reachUpdate32 fuel = none) := by
  refine ⟨fun h fuel => drain32_of_lt fuel app h, ?_, ?_, ?_, fun _ => rfl, ?_⟩
  · intro hstep
    constructor
    · rintro ⟨fuel, hf⟩
      by_contra hcon
      rw [drain32_none_of_nonpositive_step fuel app hstep (not_lt.mp hcon)] at hf
      cases hf
    · intro h
      exact ⟨0, by rw [drain32_of_lt 0 app h]; rfl⟩
  · intro hge habs fuel
    exact drain32_none_of_absorbed fuel app hge habs
  · intro hstep hacc hex
    have hp := drainPasses_floor app.m_fixedTimeStep app.m_accumulator hstep hacc
    exact ⟨hp, fun fuel hfuel => drain32_of_exact _ fuel app hfuel hp hex⟩
  · intro hge hor fuel
    unfold Application.reachUpdate32
    rcases hor with h | h
    · exact drain32_none_of_nonpositive_step fuel app.beginIteration32 h hge
    · exact drain32_none_of_absorbed fuel app.beginIteration32 hge h

/-- Witness of C26: with accumulator `1.0f` and step `0.25f` every subtraction of the
loop is exact and the loop makes `floor (1 / 0.25) = 4` passes. -/
theorem drain32_terminates_witness :
    (0 : ℚ) < quarterStepApp.m_fixedTimeStep ∧ (0 : ℚ) ≤ quarterStepApp.m_accumulator ∧
    ⌊quarterStepApp.m_accumulator / quarterStepApp.m_fixedTimeStep⌋.toNat = 4 ∧
    Application.drain32 4 quarterStepApp =
      some (quarterStepApp.drained
        ⌊quarterStepApp.m_accumulator / quarterStepApp.m_fixedTimeStep⌋.toNat) :=
  have hk : ⌊quarterStepApp.m_accumulator / quarterStepApp.m_fixedTimeStep⌋.toNat = 4 := by
    decide!
  ⟨by decide!, by decide!, hk,
    ((drain32_terminates quarterStepApp).2.2.2.1 (by decide!) (by decide!)
      (by
        intro j hj
        rw [hk] at hj
        interval_cases j <;> decide!)).2 4 (by rw [hk])⟩

/-! ## The statistics in float arithmetic -/

theorem wrapInt32_of_range (n : Int) (h0 : 0 ≤ n) (h1 : n < 2 ^ 31) : wrapInt32 n = n := by
  unfold wrapInt32
  have h2 : (n + 2 ^ 31) % 2 ^ 32 = n + 2 ^ 31 :=
    Int.emod_eq_of_lt (by omega) (by omega)
  rw [h2]
  omega

theorem F32.sumFrom_cons (a d : ℚ) (ds : List ℚ) :
    F32.sumFrom a (d :: ds) = F32.sumFrom (F32.add a d) ds := rfl

theorem F32.sumFrom_append_singleton (a d : ℚ) (ds : List ℚ) :
    F32.sumFrom a (ds ++ [d]) = F32.add (F32.sumFrom a ds) d := by
  simp [F32.sumFrom, List.foldl_append]

theorem F32.staysBelowOne_spec : ∀ (ds : List ℚ) (a : ℚ), F32.staysBelowOne a ds = true →
    ∀ pre suf : List ℚ, ds = pre ++ suf → F32.sumFrom a pre < 1 := by
  intro ds
  induction ds with
  | nil =>
    intro a h pre suf he
    have hp : pre = [] := (List.append_eq_nil.mp he.symm).1
    subst hp
    simpa [F32.staysBelowOne] using h
  | cons d ds ih =>
    intro a h pre suf he
    simp only [F32.staysBelowOne, Bool.and_eq_true, decide_eq_true_eq] at h
    cases pre with
    | nil => exact h.1
    | cons p pre1 =>
      rw [List.cons_append] at he
      injection he with h1 h2
      subst h1
      rw [F32.sumFrom_cons]
      exact ih _ h.2 pre1 suf h2

/-- While the float accumulator stays below `1.0f` the calls only add and count. -/
theorem feedStatistics32_below (app : Application) : ∀ (ds : List ℚ) (s : StatisticsWindow),
    (∀ pre suf : List ℚ, ds = pre ++ suf → F32.sumFrom s.frameTimeAccumulator pre < 1) →
    0 ≤ s.frameCount → s.frameCount + ds.length < 2 ^ 31 →
    Application.feedStatistics32 ds (s, app) =
      ({ frameTimeAccumulator := F32.sumFrom s.frameTimeAccumulator ds
         frameCount := s.frameCount + ds.length }, app) := by
  intro ds
  induction ds with
  | nil =>
    intro s _ _ _
    simp [Application.feedStatistics32, F32.sumFrom]
  | cons d rest ih =>
    intro s hlt h0 h1
    have hd : ¬ F32.add s.frameTimeAccumulator d ≥ 1 := by
      have := hlt [d] rest rfl
      exact not_le.mpr this
    have hw : wrapInt32 (s.frameCount + 1) = s.frameCount + 1 := by
      apply wrapInt32_of_range
      · omega
      · rw [List.length_cons] at h1
        push_cast at h1
        omega
    have hstep : Application.updateStatistics32 d s app =
        ({ frameTimeAccumulator := F32.add s.frameTimeAccumulator d
           frameCount := s.frameCount + 1 }, app) := by
      unfold Application.updateStatistics32
      dsimp only
      rw [if_neg hd, hw]
    show Application.feedStatistics32 rest (Application.updateStatistics32 d s app) = _
    rw [hstep, ih]
    · simp only [F32.sumFrom_cons, List.length_cons, Nat.cast_add, Nat.cast_one]
      congr 2
      ring
    · intro pre suf he
      have := hlt (d :: pre) suf (by rw [he]; rfl)
      rwa [F32.sumFrom_cons] at this
    · dsimp only
      omega
    · dsimp only
      rw [List.length_cons] at h1
      push_cast at h1
      omega

theorem feedStatistics32_append_singleton (ds : List ℚ) (d : ℚ)
    (p : StatisticsWindow × Application) :
    Application.feedStatistics32 (ds ++ [d]) p =
      Application.updateStatistics32 d (Application.feedStatistics32 ds p).1
        (Application.feedStatistics32 ds p).2 := by
  simp [Application.feedStatistics32, List.foldl_append]

/-- The statics after a call do not depend on the object the call is made on. -/
theorem updateStatistics32_statics (d : ℚ) (s : StatisticsWindow) (app app2 : Application) :
    (Application.updateStatistics32 d s app).1 = (Application.updateStatistics32 d s app2).1 := by
  unfold Application.updateStatistics32
  dsimp only
  split <;> rfl

/-- Counterexample to C19: ten deltas of `0.1f` change the FPS on the tenth call, to
`10 / 1.00000012 = 9.99999905` and not to `10`, because the float accumulator holds
`1.00000012`; twelve deltas of the float nearest to `1 / 12`, whose sum is above 1, leave
the FPS unchanged because the float accumulator holds `0.99999988`, and the call after
them changes it. -/
theorem ten_tenths_fps_not_ten :
    ((Application.feedStatistics32 (List.replicate 9 F32.tenth) ({}, sampleApp)).2.m_fps =
        sampleApp.m_fps ∧
      (Application.feedStatistics32 (List.replicate 10 F32.tenth) ({}, sampleApp)).2.m_fps =
        10485759 / 1048576 ∧
      (10485759 / 1048576 : ℚ) ≠ 10 ∧
      F32.sum (List.replicate 10 F32.tenth) = 8388609 / 8388608) ∧
    (1 ≤ (List.replicate 12 F32.twelfth).sum ∧
      F32.sum (List.replicate 12 F32.twelfth) = 8388607 / 8388608 ∧
      (Application.feedStatistics32 (List.replicate 12 F32.twelfth)
        ({}, sampleApp)).2.m_fps = sampleApp.m_fps ∧
      (Application.feedStatistics32 (List.replicate 13 F32.twelfth)
        ({}, sampleApp)).2.m_fps ≠ sampleApp.m_fps) := by
  decide!

/-- C19, amended: `Application::updateStatistics` on `float` and `int`, with its
accumulator and count in function-local statics, starting where the window is empty and
with fewer than `2 ^ 31` calls: while the float accumulator, to which the deltas are added
one by one with rounding at every addition, is below `1.0f`, the FPS and the frame time
are not touched; on the call at which it first reaches `1.0f` the FPS becomes the float
quotient (number of calls) / accumulator, the frame time the float quotient
accumulator / (number of calls), and the accumulator and the count are reset to 0. The
statics after a call are the same whatever object the call is made on. -/
theorem updateStatistics32_window (s : StatisticsWindow) (app : Application) (ds : List ℚ)
    (d : ℚ) (hacc : s.frameTimeAccumulator = 0) (hcount : s.frameCount = 0)
    (hlt : ∀ pre suf : List ℚ, ds = pre ++ suf → F32.sum pre < 1)
    (hge : 1 ≤ F32.sum (ds ++ [d])) (hn : ds.length + 1 < 2 ^ 31) :
    (∀ pre suf : List ℚ, ds = pre ++ suf →
      (Application.feedStatistics32 pre (s, app)).2.m_fps = app.m_fps ∧
      (Application.feedStatistics32 pre (s, app)).2.m_frameTime = app.m_frameTime) ∧
    (Application.feedStatistics32 (ds ++ [d]) (s, app)).2.m_fps =
      F32.div (F32.ofInt ((ds.length + 1 : ℕ) : ℤ)) (F32.sum (ds ++ [d])) ∧
    (Application.feedStatistics32 (ds ++ [d]) (s, app)).2.m_frameTime =
      F32.div (F32.sum (ds ++ [d])) (F32.ofInt ((ds.length + 1 : ℕ) : ℤ)) ∧
    (Application.feedStatistics32 (ds ++ [d]) (s, app)).1 =
      { frameTimeAccumulator := 0, frameCount := 0 } ∧
    (∀ (e : ℚ) (t : StatisticsWindow) (app2 : Application),
      (Application.updateStatistics32 e t app2).1 =
        (Application.updateStatistics32 e t app).1) := by
  have hlt2 : ∀ pre suf : List ℚ, ds = pre ++ suf →
      F32.sumFrom s.frameTimeAccumulator pre < 1 := by
    intro pre suf he
    rw [hacc]
    exact hlt pre suf he
  have hall := feedStatistics32_below app ds s hlt2 (by rw [hcount]) (by rw [hcount]; omega)
  have hfire : F32.add (F32.sumFrom s.frameTimeAccumulator ds) d ≥ 1 := by
    rw [hacc, ← F32.sumFrom_append_singleton]
    exact hge
  have hw : wrapInt32 (s.frameCount + ds.length + 1) = ((ds.length + 1 : ℕ) : ℤ) := by
    rw [hcount, wrapInt32_of_range _ (by omega) (by omega)]
    push_cast
    ring
  refine ⟨?_, ?_, ?_, ?_, fun e t app2 => updateStatistics32_statics e t app2 app⟩
  · intro pre suf he
    have hpre := feedStatistics32_below app pre s
      (fun p q hp => hlt2 p (q ++ suf) (by rw [he, hp, List.append_assoc]))
      (by rw [hcount]) (by
        rw [hcount]
        have : pre.length ≤ ds.length := by rw [he, List.length_append]; omega
        omega)
    rw [hpre]
    exact ⟨rfl, rfl⟩
  all_goals
    rw [feedStatistics32_append_singleton, hall]
    unfold Application.updateStatistics32
    dsimp only
    rw [if_pos hfire, hw]
    try simp only [F32.sum, F32.sumFrom_append_singleton, hacc]

/-- Witness of C19: ten deltas of `0.1f` fed to the sample application change the FPS on
the tenth call, to `10485759 / 1048576 = 9.99999905`. -/
theorem updateStatistics32_window_witness :
    1 ≤ F32.sum (List.replicate 9 F32.tenth ++ [F32.tenth]) ∧
    (Application.feedStatistics32 (List.replicate 9 F32.tenth ++ [F32.tenth])
        ({}, sampleApp)).2.m_fps =
      F32.div (F32.ofInt (((List.replicate 9 F32.tenth).length + 1 : ℕ) : ℤ))
        (F32.sum (List.replicate 9 F32.tenth ++ [F32.tenth])) ∧
    F32.div (F32.ofInt (((List.replicate 9 F32.tenth).length + 1 : ℕ) : ℤ))
        (F32.sum (List.replicate 9 F32.tenth ++ [F32.tenth])) = 10485759 / 1048576 :=
  ⟨by decide!,
    (updateStatistics32_window {} sampleApp (List.replicate 9 F32.tenth) F32.tenth rfl rfl
      (F32.staysBelowOne_spec _ _ (by decide!)) (by decide!) (by decide)).2.1,
    by decide!⟩

/-- Rounding evaluated: `0.1f`; ties go to the even neighbour (`2 ^ 24 + 1` down,
`2 ^ 24 + 3` up, also for negative numbers); half of the least subnormal number goes to
0 and three halves of it to twice it; `1 - 2 ^ (-30)` goes to `1.0f`; a float is kept. -/
theorem F32.round_samples :
    F32.round (1 / 10) = 13421773 / 134217728 ∧
    F32.round 16777217 = 16777216 ∧ F32.round 16777219 = 16777220 ∧
    F32.round (0 - 16777219) = 0 - 16777220 ∧
    F32.round (1 / 2 ^ 150) = 0 ∧ F32.round (3 / 2 ^ 150) = 2 / 2 ^ 149 ∧
    F32.round (1 - 1 / 2 ^ 30) = 1 ∧ F32.round F32.tenth = F32.tenth := by
  decide!

end GameEngine2D
